import Mathlib

/-!
# StillWeb core: shallow embedding and verification

This file embeds the core of the StillWeb static-site pipeline in Lean 4 and
proves properties of that embedding:

* `StillWeb.sw_urllib` — the URL algebra (`remove_dot_segments`,
  `rfc3986_urljoin`, `relative_url`, `rebase_url`) from
  `src/StillWeb/sw_urllib.py`, on top of a model of CPython's
  `urllib.parse` (`urlsplit`, `urlparse`, `urljoin`, `urlunparse`).
* `StillWeb.TagSoup` — the tag-soup-to-XML repair parser from
  `src/StillWeb/TagSoupToXml.py`.
* `StillWeb.NsNorm` — namespace normalization from
  `src/StillWeb/NamespaceNormalization.py`.
* `StillWeb.LinkRW` — the link rewriter from `src/StillWeb/LinkRewriter.py`.
* `StillWeb.PageGen` / `StillWeb.TeX` — file-state models of
  `PageGenerator.write_output` and the `TeXPlugin.math_placeholder` cache.

Python strings are modelled as `List Char` (`Str` below); Python `raise`
is modelled with `Except`.
-/

namespace StillWeb

/-- Python strings, modelled as lists of characters. -/
abbrev Str := List Char

/-- Python exceptions that the embedded code can raise. -/
inductive PyErr where
  /-- `ValueError(msg)` -/
  | valueError (msg : String)
  /-- `NameError` — reference to an undefined variable name. -/
  | nameError (name : String)
  /-- `AttributeError` — attribute lookup failure. -/
  | attributeError (name : String)
  /-- `AssertionError` -/
  | assertionError (msg : String)
  /-- `TypeError` -/
  | typeError (msg : String)
  /-- `KeyError` — dictionary lookup failure. -/
  | keyError (key : String)
  /-- `EnvironmentError` / `OSError` -/
  | envError (msg : String)
  /-- `RuntimeError` (including `TexvcRuntimeError`) -/
  | runtimeError (msg : String)
  deriving Repr, DecidableEq


instance {e a : Type} [DecidableEq e] [DecidableEq a] : DecidableEq (Except e a) := fun x y =>
  match x, y with
  | .ok u, .ok v =>
    if h : u = v then .isTrue (by rw [h]) else .isFalse (by simp [h])
  | .error u, .error v =>
    if h : u = v then .isTrue (by rw [h]) else .isFalse (by simp [h])
  | .ok _, .error _ => .isFalse (by simp)
  | .error _, .ok _ => .isFalse (by simp)

namespace PyStr

/-- ASCII uppercase test (`'A' <= c <= 'Z'`). -/
def isUpper (c : Char) : Bool := 'A' ≤ c && c ≤ 'Z'

/-- ASCII alphabetic test (Python `c.isascii() and c.isalpha()` for ASCII). -/
def isAsciiAlpha (c : Char) : Bool := ('a' ≤ c && c ≤ 'z') || ('A' ≤ c && c ≤ 'Z')

/-- ASCII lower-casing of one character (Python `str.lower` on ASCII data). -/
def lowerChar (c : Char) : Char :=
  if isUpper c then Char.ofNat (c.toNat + 32) else c

/-- Python `s.lower()` (ASCII fragment; all inputs in this development are ASCII). -/
def lower (s : Str) : Str := s.map lowerChar

/-- Helper for `find`: first index of `c` in `s`, offset by `i`; `-1` if absent. -/
def findAux (c : Char) : Str → Nat → Int
  | [], _ => -1
  | x :: xs, i => if x = c then (i : Int) else findAux c xs (i + 1)

/-- Python `s.find(c)` for a single-character needle. -/
def find (s : Str) (c : Char) : Int := findAux c s 0

/-- Python `s.find(c, start)` for a single-character needle. -/
def findFrom (s : Str) (c : Char) (start : Nat) : Int :=
  match findAux c (s.drop start) 0 with
  | -1 => -1
  | i => i + (start : Int)

/-- Helper for `rfind`: last index of `c`, `-1` if absent. -/
def rfindAux (c : Char) : Str → Nat → Int → Int
  | [], _, best => best
  | x :: xs, i, best => rfindAux c xs (i + 1) (if x = c then (i : Int) else best)

/-- Python `s.rfind(c)` for a single-character needle. -/
def rfind (s : Str) (c : Char) : Int := rfindAux c s 0 (-1)

/-- Python `c in s` for a single character. -/
def hasChar (s : Str) (c : Char) : Bool := s.contains c

/-- Python `s.split(sep)` for a one-character separator: splits at every
occurrence, keeping empty pieces; `"".split(sep) == [""]`. -/
def split : Str → Char → List Str
  | [], _ => [[]]
  | x :: xs, c =>
    if x = c then [] :: split xs c
    else
      match split xs c with
      | h :: t => (x :: h) :: t
      | [] => [[x]]

/-- Python `sep.join(xs)` for a one-character separator. -/
def join (c : Char) : List Str → Str
  | [] => []
  | [x] => x
  | x :: xs => x ++ c :: join c xs

/-- Python `s.split(sep, 1)` where `sep` is known to occur:
returns the part before the first `c` and the part after it. -/
def splitOnce (s : Str) (c : Char) : Str × Str :=
  (s.takeWhile (· ≠ c), (s.dropWhile (· ≠ c)).drop 1)

/-- Python `s.startswith(p)`. -/
def startswith (s p : Str) : Bool := p.isPrefixOf s

/-- Python `s.endswith(p)`. -/
def endswith (s p : Str) : Bool := p.isSuffixOf s

/-- Python `s.strip(chars)` for a single strip character. -/
def stripChar (s : Str) (c : Char) : Str :=
  ((s.dropWhile (· = c)).reverse.dropWhile (· = c)).reverse

/-- Python `s.lstrip(chars)` for a set of characters given by a predicate. -/
def lstripWhen (s : Str) (p : Char → Bool) : Str := s.dropWhile p

end PyStr

/-! ## Model of CPython `urllib.parse`

`urllib.parse` is standard-library code (not part of this repository);
the definitions below model CPython's implementation of `urlsplit`,
`urlparse`, `urlunsplit`, `urlunparse` and `urljoin` (the RFC 3986
revision of `urljoin` used by current CPython 3.x).  Out-of-model areas,
each mapped to a `PyErr` and never exercised by the claims: bracketed
(IPv6) hosts, and non-ASCII network locations (whose NFKC check needs
the Unicode database). -/
namespace PyUrllib

open PyStr

/-- Characters CPython removes from URLs before parsing
(`_UNSAFE_URL_BYTES_TO_REMOVE = ["\t", "\r", "\n"]`). -/
def isUnsafeUrlChar (c : Char) : Bool := c = '\t' || c = '\r' || c = '\n'

/-- CPython `_WHATWG_C0_CONTROL_OR_SPACE` membership: code points `<= 0x20`. -/
def isC0ControlOrSpace (c : Char) : Bool := c.toNat ≤ 0x20

/-- CPython `scheme_chars`. -/
def scheme_chars : Str :=
  "abcdefghijklmnopqrstuvwxyzABCDEFGHIJKLMNOPQRSTUVWXYZ0123456789+-.".toList

/-- CPython `uses_relative`. -/
def uses_relative : List Str :=
  ["", "ftp", "http", "gopher", "nntp", "imap", "wais", "file", "https",
   "shttp", "mms", "prospero", "rtsp", "rtspu", "sftp", "svn", "svn+ssh",
   "ws", "wss"].map String.toList

/-- CPython `uses_netloc`. -/
def uses_netloc : List Str :=
  ["", "ftp", "http", "gopher", "nntp", "telnet", "imap", "wais", "file",
   "mms", "https", "shttp", "snews", "prospero", "rtsp", "rtspu", "rsync",
   "svn", "svn+ssh", "sftp", "nfs", "git", "git+ssh", "ws", "wss"].map
    String.toList

/-- Result of `urlsplit`: `(scheme, netloc, path, query, fragment)`. -/
structure SplitResult where
  scheme : Str
  netloc : Str
  path : Str
  query : Str
  fragment : Str
  deriving Repr, DecidableEq

/-- Result of `urlparse`: `(scheme, netloc, path, params, query, fragment)`. -/
structure ParseResult where
  scheme : Str
  netloc : Str
  path : Str
  params : Str
  query : Str
  fragment : Str
  deriving Repr, DecidableEq

/-- CPython `_splitnetloc(url, 2)`: the network location runs from index 2
up to the first of `/`, `?`, `#`; the remainder (delimiter included) is the
second component. -/
def splitnetloc (url : Str) : Str × Str :=
  let rest := url.drop 2
  (rest.takeWhile (fun c => !(c = '/' || c = '?' || c = '#')),
   rest.dropWhile (fun c => !(c = '/' || c = '?' || c = '#')))

/-- CPython `_checknetloc`: returns normally when the netloc is empty or
all-ASCII; the non-ASCII NFKC confusable check is outside this model and
mapped to an error. -/
def checknetloc (netloc : Str) : Except PyErr Unit :=
  if netloc.isEmpty || netloc.all (·.toNat ≤ 0x7f) then .ok ()
  else .error (.valueError "netloc NFKC check outside model")

/-- CPython `urlsplit(url, scheme='', allow_fragments=True)`. -/
def urlsplit (url0 : Str) (scheme0 : Str := []) (allow_fragments : Bool := true) :
    Except PyErr SplitResult := do
  -- url = url.lstrip(_WHATWG_C0_CONTROL_OR_SPACE); remove unsafe bytes
  let url1 := (lstripWhen url0 isC0ControlOrSpace).filter (fun c => !isUnsafeUrlChar c)
  let scheme0 := scheme0.filter (fun c => !isUnsafeUrlChar c)
  -- scheme detection
  let i := find url1 ':'
  let (scheme, url2) :=
    if 0 < i
        && (match url1 with | c :: _ => isAsciiAlpha c | [] => false)
        && (url1.take i.toNat).all (fun c => scheme_chars.contains c) then
      (lower (url1.take i.toNat), url1.drop (i.toNat + 1))
    else
      (scheme0, url1)
  -- netloc
  let (netloc, url3) :=
    if url2.take 2 = ['/', '/'] then splitnetloc url2 else ([], url2)
  if (hasChar netloc '[' && !hasChar netloc ']')
      || (hasChar netloc ']' && !hasChar netloc '[') then
    throw (.valueError "Invalid IPv6 URL")
  if hasChar netloc '[' && hasChar netloc ']' then
    -- `_check_bracketed_host` (IPv6/IPvFuture validation) is outside this model.
    throw (.valueError "bracketed host outside model")
  let (url4, fragment) :=
    if allow_fragments && hasChar url3 '#' then splitOnce url3 '#' else (url3, [])
  let (url5, query) :=
    if hasChar url4 '?' then splitOnce url4 '?' else (url4, [])
  let _ ← checknetloc netloc
  return ⟨scheme, netloc, url5, query, fragment⟩

/-- CPython `_splitparams(url)`. -/
def splitparams (url : Str) : Str × Str :=
  let i :=
    if hasChar url '/' then findFrom url ';' (rfind url '/').toNat
    else find url ';'
  if i < 0 then (url, [])
  else (url.take i.toNat, url.drop (i.toNat + 1))

/-- CPython `urlparse(url, scheme='', allow_fragments=True)`. -/
def urlparse (url : Str) (scheme0 : Str := []) (allow_fragments : Bool := true) :
    Except PyErr ParseResult := do
  let s ← urlsplit url scheme0 allow_fragments
  let (path, params) :=
    if hasChar s.path ';' then splitparams s.path else (s.path, [])
  return ⟨s.scheme, s.netloc, path, params, s.query, s.fragment⟩

/-- CPython `urlunsplit((scheme, netloc, url, query, fragment))`. -/
def urlunsplit (s : SplitResult) : Str :=
  let url := s.path
  let url :=
    if !s.netloc.isEmpty || (!url.isEmpty && url.take 2 = ['/', '/']) then
      let url' := if !url.isEmpty && url.take 1 ≠ ['/'] then '/' :: url else url
      '/' :: '/' :: (s.netloc ++ url')
    else url
  let url := if !s.scheme.isEmpty then s.scheme ++ ':' :: url else url
  let url := if !s.query.isEmpty then url ++ '?' :: s.query else url
  let url := if !s.fragment.isEmpty then url ++ '#' :: s.fragment else url
  url

/-- CPython `urlunparse((scheme, netloc, url, params, query, fragment))`. -/
def urlunparse (p : ParseResult) : Str :=
  let url := if !p.params.isEmpty then p.path ++ ';' :: p.params else p.path
  urlunsplit ⟨p.scheme, p.netloc, url, p.query, p.fragment⟩

/-- The segment-resolution loop of CPython `urljoin`:
`..` pops (ignoring underflow), `.` is dropped, everything else is pushed. -/
def resolveSegs (segs : List Str) : List Str :=
  segs.foldl
    (fun acc seg =>
      if seg = ['.', '.'] then acc.dropLast
      else if seg = ['.'] then acc
      else acc ++ [seg])
    []

/-- CPython `urljoin(base, url, allow_fragments=True)` (RFC 3986 revision). -/
def urljoin (base url : Str) (allow_fragments : Bool := true) :
    Except PyErr Str := do
  if base.isEmpty then return url
  if url.isEmpty then return base
  let b ← urlparse base [] allow_fragments
  let u ← urlparse url b.scheme allow_fragments
  if u.scheme ≠ b.scheme || !(uses_relative.contains u.scheme) then
    return url
  let netloc ←
    if uses_netloc.contains u.scheme then
      if !u.netloc.isEmpty then
        return urlunparse u
      else pure b.netloc
    else pure u.netloc
  if u.path.isEmpty && u.params.isEmpty then
    let query := if u.query.isEmpty then b.query else u.query
    return urlunparse ⟨u.scheme, netloc, b.path, b.params, query, u.fragment⟩
  let base_parts0 := split b.path '/'
  let base_parts :=
    if base_parts0.getLast? ≠ some [] then base_parts0.dropLast else base_parts0
  let segments :=
    if u.path.take 1 = ['/'] then split u.path '/'
    else
      let segs := base_parts ++ split u.path '/'
      -- segments[1:-1] = filter(None, segments[1:-1])
      match segs with
      | [] => []
      | s0 :: rest =>
        s0 :: ((rest.dropLast.filter (fun s => !s.isEmpty)) ++ rest.drop (rest.length - 1))
  let resolved_path := resolveSegs segments
  let resolved_path :=
    if segments.getLast? = some ['.'] || segments.getLast? = some ['.', '.'] then
      resolved_path ++ [[]]
    else resolved_path
  let joined := join '/' resolved_path
  let path := if joined.isEmpty then ['/'] else joined
  return urlunparse ⟨u.scheme, netloc, path, u.params, u.query, u.fragment⟩

end PyUrllib

/-! ## `src/StillWeb/sw_urllib.py` -/
namespace SwUrllib

open PyStr PyUrllib

/-- The body of `remove_dot_segments`' `while` loop, which walks the segment
list right to left carrying the `to_remove` counter: `""` and `"."` segments
are deleted, `".."` is deleted and increments the counter, and a positive
counter deletes an ordinary segment and decrements.  Returns the kept
segments together with the final counter value. -/
def rdsLoop : List Str → List Str × Nat
  | [] => ([], 0)
  | seg :: rest =>
    -- the loop starts at the rightmost element and moves left, so the
    -- suffix `rest` is processed before `seg` and its counter flows in
    let (kept, tr) := rdsLoop rest
    if seg = [] then (kept, tr)
    else if seg = ['.'] then (kept, tr)
    else if seg = ['.', '.'] then (kept, tr + 1)
    else if tr ≠ 0 then (kept, tr - 1)
    else (seg :: kept, tr)

/-- `sw_urllib.remove_dot_segments`. -/
def remove_dot_segments (url : Str) : Except PyErr Str := do
  let p ← urlparse url
  let path := p.path
  let path_segments := split (stripChar path '/') '/'
  let segs := (rdsLoop path_segments).1
  -- Restore leading slash, if present.
  let segs := if startswith path ['/'] then [] :: segs else segs
  -- Restore trailing slash (also treating `/.` and `/..` as a trailing slash).
  let segs :=
    if endswith path ['/'] || endswith path ['/', '.']
        || endswith path ['/', '.', '.'] then
      segs ++ [[]]
    else segs
  return urlunparse { p with path := join '/' segs }

/-- `sw_urllib.rfc3986_urljoin`. -/
def rfc3986_urljoin (base url : Str) (allow_fragments : Bool := true) :
    Except PyErr Str := do
  let joined ← urljoin base url allow_fragments
  remove_dot_segments joined

/-- The deepest-common-parent loop of `relative_url`:
`for i in range(1, n): if tp[i] != bp[i]: break; dcp_depth = i`, i.e. the
length of the longest common prefix of the two tails (which is at most
`n - 1 = min(len(tp), len(bp)) - 1`, so the index never leaves the range). -/
def lcpLen : List Str → List Str → Nat
  | x :: xs, y :: ys => if x = y then lcpLen xs ys + 1 else 0
  | _, _ => 0

/-- `sw_urllib.relative_url`.  The Python `for dummy in [0]` block with
`break`s is translated into nested conditionals computing the final
component tuple. -/
def relative_url (url0 base_url : Str) (allow_empty : Bool := false)
    (allow_net : Bool := false) : Except PyErr Str := do
  -- Make the target URL an absolute URL
  let url ← rfc3986_urljoin base_url url0
  let t ← urlparse url
  let b ← urlparse base_url
  -- the "run once" block; each `break` keeps the components computed so far
  let final : ParseResult :=
    if t.scheme ≠ b.scheme then t
    else
      let ts := if allow_net then [] else t.scheme
      if t.netloc ≠ b.netloc then { t with scheme := ts }
      else
        if t.path = b.path then
          let tpath :=
            if allow_empty then []
            else
              let p := split t.path '/'
              -- `p` is never `[]`: `split` always returns at least one piece
              if p.getLast? = some [] then ['.', '/']
              else p.getLastD []
          if t.query ≠ b.query then
            ⟨[], [], tpath, t.params, t.query, t.fragment⟩
          else if t.fragment ≠ b.fragment then
            ⟨[], [], tpath, t.params, [], t.fragment⟩
          else
            ⟨[], [], tpath, t.params, [], []⟩
        else
          let tp := split t.path '/'
          let bp := split b.path '/'
          let bp_depth : Int := (bp.length : Int) - 1
          let dcp_depth : Nat := lcpLen (tp.drop 1) (bp.drop 1)
          let go_up : Int := bp_depth - (dcp_depth : Int) - 1
          let relpath : Str :=
            if 0 < go_up then
              (List.replicate go_up.toNat (['.', '.', '/'] : Str)).flatten
            else []
          let relpath := relpath ++ join '/' (tp.drop (dcp_depth + 1))
          let relpath := if relpath.isEmpty then ['.', '/'] else relpath
          ⟨[], [], relpath, t.params, t.query, t.fragment⟩
  return urlunparse final

/-- `sw_urllib.rebase_url`. -/
def rebase_url (url src dest : Str) (must_rebase : Bool := false) :
    Except PyErr Str := do
  let t_url ← rfc3986_urljoin src url
  let r_url ← relative_url t_url src
  let r ← urlparse r_url
  if !r.scheme.isEmpty || !r.netloc.isEmpty
      || startswith r.path ['.', '.', '/'] then
    if must_rebase then
      throw (.valueError "Couldn't rebase URL")
    else
      return t_url
  rfc3986_urljoin dest r_url

end SwUrllib

end StillWeb

namespace StillWeb

/-- `RFC3986_BASE` from `src/StillWeb/test/test_sw_urllib.py`. -/
def RFC3986_BASE : String := "http://a/b/c/d;p?q"

/-- `RFC3986_normal_tests` (RFC 3986 section 5.4.1 examples) from the test suite. -/
def RFC3986_normal_tests : List (String × String) := [
  ("g:h", "g:h"),
  ("g", "http://a/b/c/g"),
  ("./g", "http://a/b/c/g"),
  ("g/", "http://a/b/c/g/"),
  ("/g", "http://a/g"),
  ("//g", "http://g"),
  ("?y", "http://a/b/c/d;p?y"),
  ("g?y", "http://a/b/c/g?y"),
  ("#s", "http://a/b/c/d;p?q#s"),
  ("g#s", "http://a/b/c/g#s"),
  ("g?y#s", "http://a/b/c/g?y#s"),
  (";x", "http://a/b/c/;x"),
  ("g;x", "http://a/b/c/g;x"),
  ("g;x?y#s", "http://a/b/c/g;x?y#s"),
  ("", "http://a/b/c/d;p?q"),
  (".", "http://a/b/c/"),
  ("./", "http://a/b/c/"),
  ("..", "http://a/b/"),
  ("../", "http://a/b/"),
  ("../g", "http://a/b/g"),
  ("../..", "http://a/"),
  ("../../", "http://a/"),
  ("../../g", "http://a/g")]

/-- `RFC3986_abnormal_tests` (RFC 3986 section 5.4.2 examples) from the test suite. -/
def RFC3986_abnormal_tests : List (String × String) := [
  ("../../../g", "http://a/g"),
  ("../../../../g", "http://a/g"),
  ("/./g", "http://a/g"),
  ("/../g", "http://a/g"),
  ("g.", "http://a/b/c/g."),
  (".g", "http://a/b/c/.g"),
  ("g..", "http://a/b/c/g.."),
  ("..g", "http://a/b/c/..g"),
  ("./../g", "http://a/b/g"),
  ("./g/.", "http://a/b/c/g/"),
  ("g/./h", "http://a/b/c/g/h"),
  ("g/../h", "http://a/b/c/h"),
  ("g;x=1/./y", "http://a/b/c/g;x=1/y"),
  ("g;x=1/../y", "http://a/b/c/y"),
  ("g?y/./x", "http://a/b/c/g?y/./x"),
  ("g?y/../x", "http://a/b/c/g?y/../x"),
  ("g#s/./x", "http://a/b/c/g#s/./x"),
  ("g#s/../x", "http://a/b/c/g#s/../x"),
  ("http:g", "http://a/b/c/g")]

/-- C1: every (reference, expected) pair of the RFC 3986 section 5.4 normal
and abnormal tables is reproduced exactly by `rfc3986_urljoin`, and in
particular `resolve(base, "../../../g") = "http://a/g"` and
`resolve(base, "") = base`. -/
theorem C1_rfc3986_urljoin_tables :
    ((RFC3986_normal_tests ++ RFC3986_abnormal_tests).all
      (fun p => decide
        (SwUrllib.rfc3986_urljoin RFC3986_BASE.toList p.1.toList =
          .ok p.2.toList)) = true)
    ∧ SwUrllib.rfc3986_urljoin RFC3986_BASE.toList "../../../g".toList =
        .ok "http://a/g".toList
    ∧ SwUrllib.rfc3986_urljoin RFC3986_BASE.toList "".toList =
        .ok RFC3986_BASE.toList := by
  exact ⟨by decide, by decide, by decide⟩

end StillWeb

/-! ## `src/StillWeb/TagSoupToXml.py`

The parser is embedded at the level of the `html.parser` handler events it
receives (`InTok`) and of the markup chunks it appends to its buffers
(`OutTok`).  Each `OutTok` value corresponds to one contiguous piece of
markup text written by the Python code: `openTag n a` is `"<n ...>"` (the
`"<n"`, attribute and `">"` pieces written by one `handle_starttag` call),
`selfCloseTag n a` is `"<n ... />"`, `closeTag n` is `"</n>"`, `textChunk s`
is an escaped-text or numeric-character-reference chunk, and
`commentChunk s` is `"<!--s-->"`. -/
namespace StillWeb.TagSoup

open PyStr

/-- Handler events fed to the parser (a flat token stream). -/
inductive InTok where
  | starttag (name : Str) (attrs : List (Str × Str))
  | endtag (name : Str)
  | data (s : Str)
  | charref (name : Str)
  | entityref (name : Str)
  | comment (s : Str)
  | decl (s : Str)
  deriving Repr, DecidableEq

/-- Output markup chunks (see the namespace comment). -/
inductive OutTok where
  | openTag (name : Str) (attrs : List (Str × Str))
  | selfCloseTag (name : Str) (attrs : List (Str × Str))
  | closeTag (name : Str)
  | textChunk (s : Str)
  | commentChunk (s : Str)
  deriving Repr, DecidableEq

/-- Parser state (the instance attributes set up by `reset`).  The Python
tag stack grows at the end of a list; here the head of `tagstack` is the
top of the stack. -/
structure TSState where
  omit_comments : Bool
  tagstack : List Str
  output_buffer : Option (List OutTok)
  html_tag : Option (List OutTok)
  head_tag : Option (List OutTok)
  head_content : Option (List OutTok)
  body_tag : Option (List OutTok)
  body_content : Option (List OutTok)
  deriving Repr, DecidableEq

/-- `TagSoupToXml(omit_comments)` followed by `reset()`. -/
def initState (omit_comments : Bool) : TSState :=
  ⟨omit_comments, [], none, none, none, none, none, none⟩

/-- `TagSoupToXml.forbidden_endtags`. -/
def forbidden_endtags : List Str :=
  ["area", "base", "basefont", "br", "col", "frame", "hr", "img",
   "input", "isindex", "link", "meta", "param"].map String.toList

/-- `TagSoupToXml.forbidden_parents`. -/
def forbidden_parents : List Str :=
  ["p", "option", "col", "colgroup"].map String.toList

/-- `TagSoupToXml.mandatory_parents`.  Note that in the source
`'dd': set(('dl'))` and `'dt': set(('dl'))` build `set('dl') = {'d', 'l'}`
(a set of the two one-character strings), not `{'dl'}`; the embedding
reproduces that. -/
def mandatory_parents : List (Str × List Str) :=
  [("li", ["ul", "ol"]), ("td", ["tr", "table"]), ("th", ["tr", "table"]),
   ("tr", ["table", "tbody", "thead", "tfoot"]), ("dd", ["d", "l"]),
   ("dt", ["d", "l"])].map
    (fun p => (p.1.toList, p.2.map String.toList))

/-- `TagSoupToXml.add_output`. -/
def add_output (st : TSState) (tok : OutTok) : TSState :=
  match st.output_buffer with
  | some buf => { st with output_buffer := some (buf ++ [tok]) }
  | none =>
    match st.body_content with
    | none =>
      match st.head_content with
      | none => { st with head_content := some [tok] }
      | some hc => { st with head_content := some (hc ++ [tok]) }
    | some bc => { st with body_content := some (bc ++ [tok]) }

/-- Emit a list of chunks through `add_output`, in order. -/
def add_outputs (st : TSState) (toks : List OutTok) : TSState :=
  toks.foldl add_output st

/-- `html.escape(s, quote=True)`: the five sequential `str.replace` calls
(`&`, `<`, `>`, `"`, `'`) are equivalent to this single pass because no
replacement string contains a character replaced in a later pass. -/
def htmlEscape (s : Str) : Str :=
  s.flatMap fun c =>
    if c = '&' then "&amp;".toList
    else if c = '<' then "&lt;".toList
    else if c = '>' then "&gt;".toList
    else if c = '"' then "&quot;".toList
    else if c = '\'' then "&#x27;".toList
    else [c]

/-- `TagSoupToXml.handle_data`. -/
def handle_data (st : TSState) (data : Str) : TSState :=
  add_output st (.textChunk (htmlEscape data))

/-- The value of a decimal digit, if `c` is one. -/
def decDigitVal (c : Char) : Option Nat :=
  if '0' ≤ c && c ≤ '9' then some (c.toNat - '0'.toNat) else none

/-- The value of a hexadecimal digit, if `c` is one. -/
def hexDigitVal (c : Char) : Option Nat :=
  let n := c.toNat
  if 48 ≤ n && n ≤ 57 then some (n - 48)
  else if 97 ≤ n && n ≤ 102 then some (n - 87)
  else if 65 ≤ n && n ≤ 70 then some (n - 55)
  else none

/-- Python `int(s, base)` restricted to plain nonempty digit strings
(whitespace, signs and underscores are outside the model; a malformed
string is a `ValueError`, matching `int`). -/
def parseInt (digitVal : Char → Option Nat) (base : Nat) (s : Str) :
    Except PyErr Nat :=
  if s.isEmpty then .error (.valueError "invalid literal for int()")
  else
    s.foldlM
      (fun acc c =>
        match digitVal c with
        | some v => .ok (acc * base + v)
        | none => .error (.valueError "invalid literal for int()"))
      0

/-- `"%X" % n`: upper-case hexadecimal rendering of `n`. -/
def formatHexUpper (n : Nat) : Str :=
  (Nat.toDigits 16 n).map Char.toUpper

/-- The chunk `"&#x%X;" % c`. -/
def charrefChunk (c : Nat) : Str :=
  '&' :: '#' :: 'x' :: formatHexUpper c ++ [';']

/-- `TagSoupToXml.handle_charref`. -/
def handle_charref (st : TSState) (name : Str) : Except PyErr TSState := do
  let c ←
    if startswith (lower name) ['x'] then parseInt hexDigitVal 16 (name.drop 1)
    else parseInt decDigitVal 10 name
  return add_output st (.textChunk (charrefChunk c))

/-- `TagSoupToXml.handle_entityref`; `name2codepoint` is the
`html.entities.name2codepoint` table, a lookup miss being a `KeyError`. -/
def handle_entityref (name2codepoint : Str → Option Nat) (st : TSState)
    (name : Str) : Except PyErr TSState := do
  match name2codepoint name with
  | some c => return add_output st (.textChunk (charrefChunk c))
  | none => throw (.keyError (String.mk name))

/-- Stable ascending sort of the attribute list (`attr_list.sort()`),
via insertion sort with Python's lexicographic tuple-of-strings order. -/
def strLt : Str → Str → Bool
  | [], [] => false
  | [], _ :: _ => true
  | _ :: _, [] => false
  | x :: xs, y :: ys => if x = y then strLt xs ys else decide (x < y)

/-- Python `<=` on `(str, str)` tuples. -/
def attrLe (a b : Str × Str) : Bool :=
  strLt a.1 b.1 || (a.1 = b.1 && (strLt a.2 b.2 || a.2 = b.2))

/-- Insert `x` after every element `<= x` (stable). -/
def insertSorted (x : Str × Str) : List (Str × Str) → List (Str × Str)
  | [] => [x]
  | y :: ys => if attrLe y x then y :: insertSorted x ys else x :: y :: ys

/-- `attr_list.sort()` (stable ascending). -/
def sortAttrs (l : List (Str × Str)) : List (Str × Str) :=
  l.foldl (fun acc x => insertSorted x acc) []

/-- The mandatory-parents stack repair in `handle_starttag`: scan the stack
from the top for the first element in `parents`; if one is found, pop and
close everything above it; if none exists, make no correction. -/
def mandatoryRepair (st : TSState) (parents : List Str) : TSState :=
  let above := st.tagstack.takeWhile (fun t => !parents.contains t)
  if above.length = st.tagstack.length then st
  else
    let st' := add_outputs st (above.map .closeTag)
    { st' with tagstack := st'.tagstack.drop above.length }

/-- `TagSoupToXml.handle_endtag`'s "force proper nesting" loop: pop and
close until the matching name (inclusive); returns the closing chunks and
the remaining stack.  Only used when `tagname` is on the stack. -/
def popCloseTo (tagname : Str) : List Str → List OutTok × List Str
  | [] => ([], [])
  | t :: rest =>
    if t = tagname then ([.closeTag t], rest)
    else
      let (outs, stack) := popCloseTo tagname rest
      (.closeTag t :: outs, stack)

/-- `TagSoupToXml.handle_endtag`. -/
def handle_endtag (st : TSState) (tagname0 : Str) : TSState :=
  let tagname := lower tagname0
  -- Don't close HTML, HEAD, or BODY tags here, but close everything else.
  if tagname = "html".toList || tagname = "head".toList
      || tagname = "body".toList then
    let st' := add_outputs st (st.tagstack.map .closeTag)
    { st' with tagstack := [] }
  -- If the tag wasn't opened, don't close it.
  else if !st.tagstack.contains tagname then st
  else
    let (outs, stack) := popCloseTo tagname st.tagstack
    let st' := add_outputs st outs
    { st' with tagstack := stack }

/-- `TagSoupToXml.handle_starttag`. -/
def handle_starttag (st : TSState) (tagname0 : Str)
    (attributes : List (Str × Str)) : TSState :=
  let tagname := lower tagname0
  let attr_list := sortAttrs attributes
  -- Ignore duplicate HTML, HEAD, and BODY tags
  if (tagname = "html".toList && st.html_tag ≠ none)
      || (tagname = "head".toList && st.head_tag ≠ none)
      || (tagname = "body".toList && st.body_tag ≠ none) then
    st
  else
    -- Handle elements that shouldn't be parents of themselves
    let st :=
      match st.tagstack with
      | t :: rest =>
        if forbidden_parents.contains tagname && t = tagname then
          let st' := add_output st (.closeTag t)
          { st' with tagstack := rest }
        else st
      | [] => st
    -- Handle tags that should have specific parents
    let st :=
      match mandatory_parents.lookup tagname with
      | some parents => mandatoryRepair st parents
      | none => st
    let st :=
      if tagname = "html".toList || tagname = "head".toList then
        { st with output_buffer := some [] }
      else if tagname = "body".toList then
        let st := handle_endtag st "head".toList
        { st with output_buffer := some [] }
      else st
    let st :=
      if forbidden_endtags.contains tagname then
        add_output st (.selfCloseTag tagname attr_list)
      else
        let st := add_output st (.openTag tagname attr_list)
        if tagname = "html".toList || tagname = "head".toList
            || tagname = "body".toList then st
        else { st with tagstack := tagname :: st.tagstack }
    if tagname = "html".toList then
      { st with html_tag := some (st.output_buffer.getD []),
                output_buffer := none }
    else if tagname = "head".toList then
      { st with head_tag := some (st.output_buffer.getD []),
                output_buffer := none }
    else if tagname = "body".toList then
      { st with body_tag := some (st.output_buffer.getD []),
                output_buffer := none,
                body_content :=
                  match st.body_content with
                  | none => some []
                  | some bc => some bc }
    else st

/-- The `-(?=-)` substitution in `handle_comment`: a `-` immediately
followed by another `-` becomes `"- "`. -/
def breakDoubleDash : Str → Str
  | [] => []
  | '-' :: '-' :: rest => '-' :: ' ' :: breakDoubleDash ('-' :: rest)
  | c :: rest => c :: breakDoubleDash rest
termination_by s => s.length

/-- `TagSoupToXml.handle_comment`. -/
def handle_comment (st : TSState) (data : Str) : TSState :=
  if st.omit_comments then st
  else
    let data := breakDoubleDash data
    let data := if endswith data ['-'] then data ++ [' '] else data
    add_output st (.commentChunk data)

/-- `TagSoupToXml.handle_finish`. -/
def handle_finish (st : TSState) : TSState :=
  -- Close all open tags
  let st :=
    let st' := add_outputs st (st.tagstack.map .closeTag)
    { st' with tagstack := [] }
  let st :=
    if st.html_tag = none then
      { st with html_tag := some [.openTag "html".toList []] }
    else st
  let st :=
    if st.head_tag = none then
      { st with head_tag := some [.openTag "head".toList []] }
    else st
  if st.body_tag = none then
    { st with body_tag := some [.openTag "body".toList []],
              body_content := st.head_content,
              head_content := some [] }
  else st

/-- `TagSoupToXml.toxml` (which first runs `close`, i.e. `handle_finish`):
concatenates prologue, the wrappers and the accumulated content.  Python
concatenates the pieces with `+`, so a still-`None` `head_content` or
`body_content` raises `TypeError` before `join` runs. -/
def toxml (st0 : TSState) : Except PyErr (List OutTok) := do
  let st := handle_finish st0
  match st.head_content with
  | none => throw (.typeError "can only concatenate list (not NoneType) to list")
  | some hc =>
    match st.body_content with
    | none => throw (.typeError "can only concatenate list (not NoneType) to list")
    | some bc =>
      return st.html_tag.getD [] ++ st.head_tag.getD [] ++ hc
        ++ [.closeTag "head".toList] ++ st.body_tag.getD [] ++ bc
        ++ [.closeTag "body".toList, .closeTag "html".toList]

/-- Dispatch one handler event. -/
def handleTok (name2codepoint : Str → Option Nat) (st : TSState)
    (tok : InTok) : Except PyErr TSState :=
  match tok with
  | .starttag n a => .ok (handle_starttag st n a)
  | .endtag n => .ok (handle_endtag st n)
  | .data s => .ok (handle_data st s)
  | .charref n => handle_charref st n
  | .entityref n => handle_entityref name2codepoint st n
  | .comment s => .ok (handle_comment st s)
  | .decl _ => .ok st

/-- `feed` of a whole event stream. -/
def feed (name2codepoint : Str → Option Nat) (st : TSState)
    (toks : List InTok) : Except PyErr TSState :=
  toks.foldlM (handleTok name2codepoint) st

/-- The full `feed`/`close`/`toxml` sequence from a fresh parser
(`omit_comments = False`). -/
def run (name2codepoint : Str → Option Nat) (toks : List InTok) :
    Except PyErr (List OutTok) := do
  let st ← feed name2codepoint (initState false) toks
  toxml st

end StillWeb.TagSoup

namespace StillWeb

/-- C2 (failing input): on the *empty* token stream — which contains no
malformed character or entity reference — the `feed`/`close`/`toxml`
sequence does not succeed: `handle_finish` leaves `body_content = None`
(copied from the never-initialized `head_content`), and `toxml`'s list
concatenation raises `TypeError`, so no tree is produced at all. -/
theorem C2_empty_stream_toxml_raises (name2codepoint : Str → Option Nat) :
    TagSoup.run name2codepoint [] =
      .error (.typeError "can only concatenate list (not NoneType) to list") := by
  rfl

/-- The parser state reached from a fresh parser after `<div>`:
its tag stack is `["div"]`. -/
def C7state : TagSoup.TSState :=
  TagSoup.handle_starttag (TagSoup.initState false) "div".toList []

/-- C7 (counterexample): an end tag `</body>` has no matching open element
on the stack `["div"]` (html/head/body are never pushed), yet handling it
is *not* a no-op: it closes `div` and changes the stack and the output. -/
theorem C7_counterexample_stray_body_end_tag :
    C7state.tagstack = ["div".toList]
    ∧ ¬ ("body".toList ∈ C7state.tagstack)
    ∧ TagSoup.handle_endtag C7state "body".toList ≠ C7state := by
  refine ⟨by decide, by decide, by decide⟩

/-- C7 (amended): an end tag whose lower-cased name is not `html`, `head`
or `body` and has no matching open element on the stack is a no-op — the
state (stack and all accumulated output) is returned unchanged.  End tags
named `html`/`head`/`body` instead force-close every open element. -/
theorem C7_stray_end_tag_noop (st : TagSoup.TSState) (tagname : Str)
    (hmem : ¬ (PyStr.lower tagname ∈ st.tagstack))
    (hhtml : PyStr.lower tagname ≠ "html".toList)
    (hhead : PyStr.lower tagname ≠ "head".toList)
    (hbody : PyStr.lower tagname ≠ "body".toList) :
    TagSoup.handle_endtag st tagname = st := by
  unfold TagSoup.handle_endtag
  simp only [hhtml, hhead, hbody]
  simp [List.elem_eq_mem, hmem]

/-- Witness for `C7_stray_end_tag_noop` at a concrete state and tag. -/
theorem C7_stray_end_tag_noop_witness :
    TagSoup.handle_endtag C7state "em".toList = C7state :=
  C7_stray_end_tag_noop C7state "em".toList (by decide) (by decide)
    (by decide) (by decide)

end StillWeb

/-! ## `src/StillWeb/PageGenerator.py` — `write_output`

`write_output` performs, in order: `os.path.exists` / `os.unlink` on the
output path, `open(output_filename, "wb")`, `f.write(self.output)`,
`f.close()`.  The file system is modelled as the content of that one path
(`none` = no file); the environment chooses where an I/O failure strikes. -/
namespace StillWeb.PageGen

/-- Where, if anywhere, the I/O of `write_output` fails:
nowhere (`success`), at the `open` call (after the unlink), or during
`f.write` after `k` bytes have reached the file. -/
inductive WriteOutcome where
  | success
  | failAtOpen
  | failDuringWrite (k : Nat)
  deriving Repr, DecidableEq

/-- `PageGenerator.write_output`: unlink any existing output, then open the
final path for writing and write the serialized bytes directly into it.
Returns the resulting file state and whether the method returned normally. -/
def write_output (prior : Option Str) (content : Str) :
    WriteOutcome → Option Str × Bool
  | .success =>
    -- unlink (if the file existed), open, write all bytes, close
    (some content, true)
  | .failAtOpen =>
    -- the unlink has already removed any prior output
    (none, false)
  | .failDuringWrite k =>
    -- the file was created/truncated and holds the first `k` bytes
    (some (content.take k), false)

end StillWeb.PageGen

namespace StillWeb

/-- C3 (counterexample): with a prior output `"old"` and new serialized
output `"new"`, a write failure after one byte leaves the output file
holding `"n"` — the prior output *is* left in a half-overwritten state,
so the Written stage is not atomic. -/
theorem C3_counterexample_partial_write :
    PageGen.write_output (some "old".toList) "new".toList
        (.failDuringWrite 1) = (some "n".toList, false)
    ∧ some "n".toList ≠ some "old".toList
    ∧ some "n".toList ≠ some "new".toList := by
  refine ⟨by decide, by decide, by decide⟩

/-- C3 (amended): `write_output` is *not* atomic: it unlinks any prior
output first and then writes the new bytes directly to the final path.
On success the output holds exactly the new bytes; but on any failure the
prior output is gone — the path is either missing (failure at open) or
holds a prefix of the *new* bytes (failure mid-write).  Only a failure
*before* `write_output` runs (e.g. during serialization) leaves the prior
output intact. -/
theorem C3_write_output_not_atomic (prior : Option Str) (content : Str)
    (o : PageGen.WriteOutcome) :
    (o = .success → PageGen.write_output prior content o = (some content, true))
    ∧ (o ≠ .success →
        (PageGen.write_output prior content o).2 = false
        ∧ ((PageGen.write_output prior content o).1 = none
            ∨ ∃ k, (PageGen.write_output prior content o).1 =
                some (content.take k))) := by
  constructor
  · rintro rfl; rfl
  · intro h
    cases o with
    | success => exact absurd rfl h
    | failAtOpen => exact ⟨rfl, .inl rfl⟩
    | failDuringWrite k => exact ⟨rfl, .inr ⟨k, rfl⟩⟩

/-- Witness for `C3_write_output_not_atomic` at a concrete input,
with the failure hypothesis discharged. -/
theorem C3_write_output_not_atomic_witness :
    (PageGen.write_output (some "old".toList) "new".toList .failAtOpen).2 = false
    ∧ ((PageGen.write_output (some "old".toList) "new".toList .failAtOpen).1 = none
        ∨ ∃ k, (PageGen.write_output (some "old".toList) "new".toList .failAtOpen).1 =
            some ("new".toList.take k)) :=
  (C3_write_output_not_atomic (some "old".toList) "new".toList .failAtOpen).2
    (by decide)

end StillWeb

/-! ## `src/StillWeb/TeXPlugin.py` — `math_placeholder` cache contract

The cache-relevant behavior of `TeXPlugin.math_placeholder` is embedded as
a function of an environment describing the durable state it reads (the
original-sum cache file, the stamp file, the output artifact, the pickled
result) and the texvc oracle results; the function returns the ordered
trace of durable-state events it performs together with its outcome.
File paths (`texvc-original-<md5>-sum`, `texvc-canonical-<md5>-stamp`,
`texvc-canonical-<md5>-result`, `<md5>.png`) are injective in the md5 key,
so each is abstracted to one environment slot for the run's key. -/
namespace StillWeb.TeX

open PyStr

/-- A parsed texvc result (`Texvc.parse_result` success payload). -/
structure TexvcResult where
  md5 : Str
  html : Option Str
  html_strictness : Option Nat
  mathml : Option Str
  deriving Repr, DecidableEq

/-- Durable-state events `math_placeholder` performs, in order. -/
inductive TexEv where
  /-- successful read of the `texvc-original-*-sum` file -/
  | readOrigSum
  /-- `texvc.hash_code` invocation (runs `texvc_tex`) -/
  | runHashCode
  /-- write of the `texvc-original-*-sum` cache file -/
  | writeOrigSum (s : Str)
  /-- successful read (unpickle) of the cached `*-result` file -/
  | readResult
  /-- `texvc.run_texvc` invocation (the expensive external render) -/
  | runTexvc
  /-- `pickle.dump` of the result to the `*-result` file -/
  | persistResult (r : TexvcResult)
  /-- creation/`utime` of the `*-stamp` freshness marker -/
  | writeStamp
  deriving Repr, DecidableEq

/-- What the function ultimately does with the placeholder. -/
inductive MathOutcome where
  /-- `ReplaceWithHTML(result['html'])` -/
  | replaceWithHTML (s : Str)
  /-- `ReplaceWithNode(<img ...>)` with `src` pointing at the PNG -/
  | replaceWithImg
  deriving Repr, DecidableEq

/-- The durable state and oracle answers visible to one
`math_placeholder` invocation. -/
structure TexEnv where
  /-- content of the `texvc-original-<orig_md5>-sum` file, `none` = `ENOENT` -/
  origSumFile : Option Str
  /-- result of `texvc.hash_code(latex_code).hexdigest()` -/
  hashCodeResult : Except PyErr Str
  /-- `os.path.exists(stamp_filename)` -/
  stampExists : Bool
  /-- `os.path.exists(output_filename)` -/
  outputExists : Bool
  /-- pickled content of the `*-result` file, `none` = unreadable/missing -/
  storedResult : Option TexvcResult
  /-- result of `texvc.run_texvc(latex_code)` -/
  runResult : Except PyErr TexvcResult
  /-- whether texvc created the output PNG (`os.path.exists` after the run) -/
  runCreatesOutput : Bool

/-- Is `s` a 32-character hexadecimal string?  (`binascii.a2b_hex` round
trip plus the `len == 32` assert in `math_placeholder`.) -/
def isHex32 (s : Str) : Bool :=
  s.length = 32 && s.all (fun c =>
    ('0' ≤ c && c ≤ '9') || ('a' ≤ c && c ≤ 'f') || ('A' ≤ c && c ≤ 'F'))

/-- `binascii.b2a_hex(binascii.a2b_hex(x))` lower-cases hex digits. -/
def hexNormalize (s : Str) : Str := lower s

/-- The first cache block of `math_placeholder`: obtain `canonical_md5`
from the `texvc-original-*-sum` file, or compute and cache it. -/
def canonicalMd5 (env : TexEnv) : List TexEv × Except PyErr Str :=
  match env.origSumFile with
  | some content =>
    -- canonical_md5 = b2a_hex(a2b_hex(f.read().strip())); assert len == 32
    if isHex32 content then ([.readOrigSum], .ok (hexNormalize content))
    else ([.readOrigSum], .error (.valueError "Non-hexadecimal digit found"))
  | none =>
    match env.hashCodeResult with
    | .error e => ([.runHashCode], .error e)
    | .ok md5 => ([.runHashCode, .writeOrigSum md5], .ok md5)

/-- The cache-hit / cache-miss block of `math_placeholder`, plus the final
HTML-or-image choice; returns the event trace and the outcome. -/
def math_placeholder (env : TexEnv) (force_img : Bool) :
    List TexEv × Except PyErr MathOutcome :=
  let (tr0, key?) := canonicalMd5 env
  match key? with
  | .error e => (tr0, .error e)
  | .ok canonical_md5 =>
    let (tr1, res?) : List TexEv × Except PyErr TexvcResult :=
      if env.stampExists && env.outputExists then
        -- Use the cached result
        match env.storedResult with
        | none => ([TexEv.readResult], .error (.envError "result file unreadable"))
        | some result =>
          -- Check the hash result - this should never fail unless the
          -- cache file is corrupt
          if result.md5 ≠ canonical_md5 then
            ([TexEv.readResult],
             .error (.assertionError "corrupt file: result"))
          else ([TexEv.readResult], .ok result)
      else
        match env.runResult with
        | .error e => ([TexEv.runTexvc], .error e)
        | .ok result =>
          -- Check the hash result - our caching here breaks if we get
          -- this wrong
          if result.md5 ≠ canonical_md5 then
            ([TexEv.runTexvc],
             .error (.assertionError "texvc md5 sum mismatch"))
          -- Check that the output file was created
          else if !env.runCreatesOutput then
            ([TexEv.runTexvc],
             .error (.runtimeError "texvc didn't create output file"))
          else
            -- Save the result, then write the stamp file
            ([TexEv.runTexvc, TexEv.persistResult result, TexEv.writeStamp],
             .ok result)
    match res? with
    | .error e => (tr0 ++ tr1, .error e)
    | .ok result =>
      let outcome :=
        if !force_img && result.html ≠ none
            && (result.html_strictness.getD 0) > 0 then
          MathOutcome.replaceWithHTML (result.html.getD [])
        else
          MathOutcome.replaceWithImg
      (tr0 ++ tr1, .ok outcome)

end StillWeb.TeX

namespace StillWeb

open TeX in
/-- C4: the content-keyed cache contract of `math_placeholder`, for any
invocation whose cache key (the canonical md5 of the logical input) is
determined: (i) the expensive `run_texvc` recomputation is skipped and the
cached payload read back exactly when both the stamp file and the output
artifact exist; (ii) on a cache hit, a stored hash differing from the key
is a fatal `AssertionError`, not a soft miss; (iii) a result is persisted
only if its own hash equals the key; (iv) the freshness stamp is written
only immediately after the result is persisted. -/
theorem C4_tex_cache_contract (env : TexEnv) (force_img : Bool) (key : Str)
    (hkey : (canonicalMd5 env).2 = .ok key) :
    ((env.stampExists ∧ env.outputExists) →
        TexEv.runTexvc ∉ (math_placeholder env force_img).1
        ∧ TexEv.readResult ∈ (math_placeholder env force_img).1)
    ∧ (¬ (env.stampExists ∧ env.outputExists) →
        TexEv.runTexvc ∈ (math_placeholder env force_img).1
        ∧ TexEv.readResult ∉ (math_placeholder env force_img).1)
    ∧ (∀ r : TexvcResult, env.stampExists → env.outputExists →
        env.storedResult = some r → r.md5 ≠ key →
        (math_placeholder env force_img).2 =
          .error (.assertionError "corrupt file: result"))
    ∧ (∀ r : TexvcResult,
        TexEv.persistResult r ∈ (math_placeholder env force_img).1 →
        r.md5 = key)
    ∧ (TexEv.writeStamp ∈ (math_placeholder env force_img).1 →
        ∃ pre r, (math_placeholder env force_img).1 =
          pre ++ [TexEv.persistResult r, TexEv.writeStamp]) := by
  have htr0 : ∀ ev, ev ∈ (canonicalMd5 env).1 →
      ev = TexEv.readOrigSum ∨ ev = TexEv.runHashCode
        ∨ ∃ s, ev = TexEv.writeOrigSum s := by
    intro ev hev
    unfold canonicalMd5 at hev
    rcases ho : env.origSumFile with _ | content
    · rw [ho] at hev
      rcases hh : env.hashCodeResult with e | md5 <;> rw [hh] at hev <;>
        simp at hev
      · exact .inr (.inl hev)
      · rcases hev with h | h
        · exact .inr (.inl h)
        · exact .inr (.inr ⟨_, h⟩)
    · rw [ho] at hev
      by_cases hx : isHex32 content <;> simp [hx] at hev <;> exact .inl hev
  rcases h : canonicalMd5 env with ⟨tr0, k2⟩
  rw [h] at hkey; simp at hkey; subst hkey
  have htr0' : ∀ ev, ev ∈ tr0 → ev = TexEv.readOrigSum ∨ ev = TexEv.runHashCode
      ∨ ∃ s, ev = TexEv.writeOrigSum s := by
    intro ev hev; exact htr0 ev (by rw [h]; exact hev)
  have hnoRun : TexEv.runTexvc ∉ tr0 := by
    intro hmem; rcases htr0' _ hmem with h1 | h1 | ⟨s, h1⟩ <;> simp at h1
  have hnoRead : TexEv.readResult ∉ tr0 := by
    intro hmem; rcases htr0' _ hmem with h1 | h1 | ⟨s, h1⟩ <;> simp at h1
  have hnoPersist : ∀ r, TexEv.persistResult r ∉ tr0 := by
    intro r hmem; rcases htr0' _ hmem with h1 | h1 | ⟨s, h1⟩ <;> simp at h1
  have hnoStamp : TexEv.writeStamp ∉ tr0 := by
    intro hmem; rcases htr0' _ hmem with h1 | h1 | ⟨s, h1⟩ <;> simp at h1
  unfold math_placeholder
  rw [h]
  cases hs : env.stampExists <;> cases hout : env.outputExists <;>
    simp only [Bool.and_self, Bool.and_true, Bool.and_false, Bool.true_and,
      Bool.false_and, if_true, if_false, Bool.false_eq_true, ite_false, ite_true]
  case false.false | false.true | true.false =>
    -- cache miss
    rcases hr : env.runResult with e | r
    · simp [hnoRun, hnoRead, hnoPersist, hnoStamp, hs, hout]
    · by_cases hm : r.md5 = key
      · simp [hm, hs, hout, hnoRun, hnoRead, hnoPersist, hnoStamp]
        cases hco : env.runCreatesOutput <;>
          simp [hnoRun, hnoRead, hnoPersist, hnoStamp]
        exact ⟨hm, tr0 ++ [TexEv.runTexvc], r, by simp⟩
      · simp [hm, hs, hout, hnoRun, hnoRead, hnoPersist, hnoStamp]
  case true.true =>
    -- cache hit
    rcases hsr : env.storedResult with _ | r
    · simp [hnoRun, hnoRead, hnoPersist, hnoStamp]
    · by_cases hm : r.md5 = key
      · simp [hm, hnoRun, hnoRead, hnoPersist, hnoStamp]
      · simp [hm, hnoRun, hnoRead, hnoPersist, hnoStamp]


/-- A concrete environment for the `C4` witness: key cached in the
original-sum file, no stamp, no output, deterministic renderer. -/
def C4env : TeX.TexEnv :=
  { origSumFile := some (List.replicate 32 'a')
    hashCodeResult := .ok (List.replicate 32 'a')
    stampExists := false
    outputExists := false
    storedResult := none
    runResult := .ok ⟨List.replicate 32 'a', none, none, none⟩
    runCreatesOutput := true }

open TeX in
/-- Witness for `C4_tex_cache_contract` at the concrete `C4env`. -/
theorem C4_tex_cache_contract_witness :
    ((C4env.stampExists ∧ C4env.outputExists) →
        TexEv.runTexvc ∉ (math_placeholder C4env false).1
        ∧ TexEv.readResult ∈ (math_placeholder C4env false).1)
    ∧ (¬ (C4env.stampExists ∧ C4env.outputExists) →
        TexEv.runTexvc ∈ (math_placeholder C4env false).1
        ∧ TexEv.readResult ∉ (math_placeholder C4env false).1)
    ∧ (∀ r : TexvcResult, C4env.stampExists → C4env.outputExists →
        C4env.storedResult = some r → r.md5 ≠ List.replicate 32 'a' →
        (math_placeholder C4env false).2 =
          .error (.assertionError "corrupt file: result"))
    ∧ (∀ r : TexvcResult,
        TexEv.persistResult r ∈ (math_placeholder C4env false).1 →
        r.md5 = List.replicate 32 'a')
    ∧ (TexEv.writeStamp ∈ (math_placeholder C4env false).1 →
        ∃ pre r, (math_placeholder C4env false).1 =
          pre ++ [TexEv.persistResult r, TexEv.writeStamp]) :=
  C4_tex_cache_contract C4env false (List.replicate 32 'a') (by decide)

end StillWeb

/-! ## `src/StillWeb/NamespaceNormalization.py`

DOM trees are embedded as `XNode`; Python dictionaries (insertion-ordered,
in-place value update) as association lists via `dictSet`/`dictGet`.
`EMPTY_NAMESPACE` is minidom's `None`, so namespaces are `Option Str`
(`none` = no namespace, distinct from `some ""`); prefixes likewise. -/
namespace StillWeb.NsNorm

open PyStr

/-- `xml.dom.XMLNS_NAMESPACE`. -/
def XMLNS : Str := "http://www.w3.org/2000/xmlns/".toList

/-- Python-dict assignment: update the existing key's value in place
(keeping its position), else append. -/
def dictSet {K V : Type} [DecidableEq K] (m : List (K × V)) (k : K) (v : V) :
    List (K × V) :=
  if m.any (fun p => p.1 = k) then
    m.map (fun p => if p.1 = k then (k, v) else p)
  else m ++ [(k, v)]

/-- Python-dict lookup. -/
def dictGet {K V : Type} [DecidableEq K] (m : List (K × V)) (k : K) :
    Option V :=
  (m.find? (fun p => p.1 = k)).map (fun p => p.2)

/-- Python `k in d`. -/
def dictHas {K V : Type} [DecidableEq K] (m : List (K × V)) (k : K) : Bool :=
  m.any (fun p => p.1 = k)

/-- Python `del d[k]`. -/
def dictDel {K V : Type} [DecidableEq K] (m : List (K × V)) (k : K) :
    List (K × V) :=
  m.filter (fun p => p.1 ≠ k)

/-- `NamespaceScope`: prefix → namespace map plus the inverse
namespace → most-recently-set prefix map. -/
structure NamespaceScope where
  prefixes : List (Option Str × Option Str)
  namespaces : List (Option Str × Option Str)
  deriving Repr, DecidableEq

/-- `NamespaceScope()`: `{None: EMPTY_NAMESPACE}` both ways. -/
def NamespaceScope.empty : NamespaceScope :=
  ⟨[(none, none)], [(none, none)]⟩

/-- `NamespaceScope.__setitem__`. -/
def NamespaceScope.set (s : NamespaceScope) (pfx ns : Option Str) :
    NamespaceScope :=
  ⟨dictSet s.prefixes pfx ns, dictSet s.namespaces ns pfx⟩

/-- `NamespaceScope.get` / `__getitem__` (as `Option`). -/
def NamespaceScope.get (s : NamespaceScope) (pfx : Option Str) :
    Option (Option Str) :=
  dictGet s.prefixes pfx

/-- `NamespaceScope.has_prefix` (also `__contains__`); named `has_pfx` here. -/
def NamespaceScope.has_pfx (s : NamespaceScope) (pfx : Option Str) :
    Bool :=
  dictHas s.prefixes pfx

/-- `NamespaceScope.has_namespace`. -/
def NamespaceScope.has_namespace (s : NamespaceScope) (ns : Option Str) :
    Bool :=
  dictHas s.namespaces ns

/-- `NamespaceScope.update`: merge the declarations in order, returning the
updated scope and the list of prefixes that were already present *with the
same namespace* (the duplicates), in iteration order. -/
def NamespaceScope.update (s : NamespaceScope)
    (decls : List (Option Str × Option Str)) :
    NamespaceScope × List (Option Str) :=
  decls.foldl
    (fun (acc : NamespaceScope × List (Option Str)) pv =>
      let (sc, dups) := acc
      let dups :=
        if sc.has_pfx pv.1 && sc.get pv.1 = some pv.2 then dups ++ [pv.1]
        else dups
      (sc.set pv.1 pv.2, dups))
    (s, [])

/-- A DOM attribute node (minidom `Attr`): namespace, prefix, local name,
value. -/
structure XAttr where
  namespaceURI : Option Str
  pfx : Option Str
  localName : Str
  value : Str
  deriving Repr, DecidableEq

/-- A DOM node: an element (with its attribute list and children, in
document order) or any non-element node (text/CDATA/comment), which
namespace normalization ignores and preserves. -/
inductive XNode where
  | element (namespaceURI : Option Str) (pfx : Option Str)
      (localName : Str) (attrs : List XAttr) (children : List XNode)
  | other (data : Str)
  deriving Repr

mutual

/-- Boolean equality on `XNode` (the `DecidableEq` derive handler does not
support the nested `List XNode` occurrence). -/
def nodeBeq : XNode → XNode → Bool
  | .element a b c d e, .element a2 b2 c2 d2 e2 =>
    decide (a = a2) && decide (b = b2) && decide (c = c2) && decide (d = d2)
      && nodesBeq e e2
  | .other s, .other s2 => decide (s = s2)
  | _, _ => false

def nodesBeq : List XNode → List XNode → Bool
  | [], [] => true
  | x :: xs, y :: ys => nodeBeq x y && nodesBeq xs ys
  | _, _ => false

end

mutual

/-- `nodeBeq` decides equality. -/
theorem nodeBeq_iff : ∀ x y : XNode, nodeBeq x y = true ↔ x = y
  | .element a b c d e, .element a2 b2 c2 d2 e2 => by
    simp only [nodeBeq, Bool.and_eq_true, decide_eq_true_eq,
      XNode.element.injEq]
    rw [nodesBeq_iff e e2]
    tauto
  | .element _ _ _ _ _, .other _ => by simp [nodeBeq]
  | .other _, .element _ _ _ _ _ => by simp [nodeBeq]
  | .other s, .other s2 => by simp [nodeBeq]

theorem nodesBeq_iff : ∀ xs ys : List XNode, nodesBeq xs ys = true ↔ xs = ys
  | [], [] => by simp [nodesBeq]
  | [], _ :: _ => by simp [nodesBeq]
  | _ :: _, [] => by simp [nodesBeq]
  | x :: xs, y :: ys => by
    simp only [nodesBeq, Bool.and_eq_true, List.cons.injEq]
    rw [nodeBeq_iff x y, nodesBeq_iff xs ys]

end

instance : DecidableEq XNode := fun x y =>
  decidable_of_iff _ (nodeBeq_iff x y)

/-- `get_namespace_declarations(element)` on an attribute list: decode
`xmlns` / `xmlns:*` attributes into a prefix → namespace dict. -/
def get_namespace_declarations (attrs : List XAttr) :
    Except PyErr (List (Option Str × Option Str)) :=
  attrs.foldlM
    (fun decls a =>
      if a.namespaceURI ≠ some XMLNS then .ok decls
      else
        if a.localName = "xmlns".toList && a.pfx = none then
          -- Default namespace (no prefix)
          if dictHas decls none then
            .error (.assertionError "prefix already in declarations")
          else .ok (decls ++ [(none, some a.value)])
        else if a.pfx = some "xmlns".toList then
          -- Prefix namespace
          if a.value = XMLNS || a.value.isEmpty then
            .error (.valueError "Illegal namespace declaration")
          else if dictHas decls (some a.localName) then
            .error (.assertionError "prefix already in declarations")
          else .ok (decls ++ [(some a.localName, some a.value)])
        else .error (.valueError "Illegal use of namespace"))
    []

/-- minidom `setAttributeNS`: replace in place the attribute with the same
`(namespaceURI, localName)` key, else append a new attribute node. -/
def setAttrNS (attrs : List XAttr) (a : XAttr) : List XAttr :=
  if attrs.any (fun b => b.namespaceURI = a.namespaceURI
      && b.localName = a.localName) then
    attrs.map (fun b =>
      if b.namespaceURI = a.namespaceURI && b.localName = a.localName then a
      else b)
  else attrs ++ [a]

/-- `replace_namespace_declarations(element, new_prefixes)` on an attribute
list: drop every `xmlns` attribute, then generate one declaration attribute
per entry (`xmlns="..."` or `xmlns:p="..."`, with `namespace or ''` as the
value). -/
def replace_namespace_declarations (attrs : List XAttr)
    (new_prefixes : List (Option Str × Option Str)) : List XAttr :=
  let attrs := attrs.filter (fun a => a.namespaceURI ≠ some XMLNS)
  new_prefixes.foldl
    (fun acc pv =>
      match pv.1 with
      | none =>
        setAttrNS acc ⟨some XMLNS, none, "xmlns".toList, pv.2.getD []⟩
      | some p =>
        setAttrNS acc ⟨some XMLNS, some "xmlns".toList, p, pv.2.getD []⟩)
    attrs

/-- `change_attribute_prefix(attrNode, prefix)`: its first statement is
`assert attrNode.NODE_TYPE == attrNode.ATTRIBUTE_NODE`, but minidom nodes
have no `NODE_TYPE` attribute (the field is `nodeType`), so every call
raises `AttributeError` before doing anything. -/
def change_attribute_prefix : Except PyErr XAttr :=
  .error (.attributeError "NODE_TYPE")

/-- The `"NS%d"` fresh-prefix generation loop: the first `NS1`, `NS2`, …
not yet bound in the scope.  The search is bounded by `n` fuel (the loop
in the source is unbounded but needs at most `|scope| + 1` candidates). -/
def genPrefix (current : NamespaceScope) : Nat → Nat → Str
  | 0, _ => []
  | fuel + 1, j =>
    let cand := "NS".toList ++ (Nat.toDigits 10 j)
    if current.has_pfx (some cand) then genPrefix current fuel (j + 1)
    else cand

/-- The attribute-fixing loop of `normalize_namespaces` (lines 195–240).
Processes the element's (snapshot) attribute list in order, threading
`new_prefixes` and `current_prefixes`.  On the source's line 214 the
"rebind to an existing prefix" branch reads the undefined name
`current_prefix`, which raises `NameError`; the generated-prefix branch
calls `change_attribute_prefix`, which raises `AttributeError`. -/
def fixAttrs (attrs : List XAttr) (np : List (Option Str × Option Str))
    (current : NamespaceScope) :
    Except PyErr (List (Option Str × Option Str) × NamespaceScope) :=
  attrs.foldlM
    (fun (acc : List (Option Str × Option Str) × NamespaceScope) a => do
      let (np, current) := acc
      -- Skip xmlns attributes
      if a.namespaceURI = some XMLNS then
        return (np, current)
      -- Skip attributes with no namespace URI
      else if a.namespaceURI = none then
        return (np, current)
      -- Skip attributes whose prefixes and namespace URIs match the
      -- current in-scope prefixes
      else if (match a.pfx with
          | some p => !p.isEmpty && current.has_pfx (some p)
              && current.get (some p) = some a.namespaceURI
          | none => false) then
        return (np, current)
      -- `prefix = current_prefix.prefix_from_namespace(...)`: NameError
      else if current.has_namespace a.namespaceURI then
        throw (.nameError "current_prefix")
      -- Use the attribute's own prefix if it is not taken
      else if !current.has_pfx a.pfx then
        return (dictSet np a.pfx a.namespaceURI,
                current.set a.pfx a.namespaceURI)
      else
        -- Generate a fresh prefix, then `change_attribute_prefix` raises
        let _gen := genPrefix current (current.prefixes.length + 1) 1
        let _ ← change_attribute_prefix
        return (np, current))
    (np, current)

mutual

/-- `normalize_namespaces(element, strip_dups, parent_prefixes)` for an
element whose ancestor scope is `parent` (the document element has the
fresh scope as its ancestor scope).  Returns the normalized element. -/
def normalize_namespaces (strip_dups : Bool) (parent : NamespaceScope) :
    XNode → Except PyErr XNode
  | .other _ => .error (.assertionError "not an element")
  | .element ns px ln attrs children => do
    -- Build list of local namespace declarations
    let np0 ← get_namespace_declarations attrs
    -- Merge the parent and new prefixes
    let (current, np) :=
      if strip_dups then
        let (cur, dups) := (parent.update np0)
        (cur, dups.foldl dictDel np0)
      else
        ((parent.update np0).1, np0)
    -- Fix the element's namespace declarations
    let fixed ←
      if current.has_pfx px && current.get px = some ns then
        .ok (np, current)
      else if ns = none && px ≠ none then
        .error (.valueError "Cannot undeclare non-default namespace prefix")
      else
        .ok (dictSet np px ns, current.set px ns)
    let (np, current) := fixed
    -- Fix the attributes' namespace declarations
    let (np, current) ← fixAttrs attrs np current
    -- Update the namespace declarations on the element
    let attrs := replace_namespace_declarations attrs np
    -- HACK - remove xmlns='' when both scopes agree the default is empty
    let attrs :=
      if dictGet np none = some none && parent.get none = some none
          && attrs.any (fun a => a.namespaceURI = some XMLNS
              && a.localName = "xmlns".toList)
          && (attrs.find? (fun a => a.namespaceURI = some XMLNS
              && a.localName = "xmlns".toList)).all (fun a => a.value.isEmpty)
      then
        attrs.filter (fun a => !(a.namespaceURI = some XMLNS
            && a.localName = "xmlns".toList))
      else attrs
    -- Recurse over child elements
    let children ← normChildren strip_dups current children
    return .element ns px ln attrs children

/-- The child recursion of `normalize_namespaces`: element children are
normalized in place, other children are preserved. -/
def normChildren (strip_dups : Bool) (current : NamespaceScope) :
    List XNode → Except PyErr (List XNode)
  | [] => .ok []
  | n :: rest => do
    let n' ←
      match n with
      | .element a b c d e =>
        normalize_namespaces strip_dups current (.element a b c d e)
      | .other d => .ok (.other d)
    let rest' ← normChildren strip_dups current rest
    return n' :: rest'

end

end StillWeb.NsNorm

namespace StillWeb

open NsNorm

/-- The C8 failing input: `<r xmlns:p="urn:x" q:a="v"/>` where attribute
`q:a` is in namespace `urn:x` — so `urn:x` is bound in scope (to `p`),
the attribute's own prefix `q` is not correctly bound, and the
"rebind to the existing prefix" branch is reached. -/
def C8tree : XNode :=
  .element none none "r".toList
    [⟨some XMLNS, some "xmlns".toList, "p".toList, "urn:x".toList⟩,
     ⟨some "urn:x".toList, some "q".toList, "a".toList, "v".toList⟩]
    []

/-- C8: on the branch the claim describes — the attribute's namespace
already has a prefix (`p`) declared in scope and the attribute's own
prefix is not correctly bound — `normalize_namespaces` does *not* succeed
and rebind: the source's line 214 reads the undefined name
`current_prefix` (a typo for `current_prefixes`), raising `NameError`. -/
theorem C8_rebind_branch_raises_NameError :
    normalize_namespaces true NamespaceScope.empty C8tree =
        .error (.nameError "current_prefix")
    ∧ normalize_namespaces false NamespaceScope.empty C8tree =
        .error (.nameError "current_prefix") := by
  exact ⟨by decide, by decide⟩

/-- The C9 counterexample input (`strip_dups = True`, the pipeline's
setting): root `<r xmlns:p="u">` with child element `p:c` whose
`namespaceURI` is `u` but which locally re-declares `xmlns:p="v"` (the
exact state produced by `substitute_namespaces`-style surgery). -/
def C9tree : XNode :=
  .element none none "r".toList
    [⟨some XMLNS, some "xmlns".toList, "p".toList, "u".toList⟩]
    [.element (some "u".toList) (some "p".toList) "c".toList
      [⟨some XMLNS, some "xmlns".toList, "p".toList, "v".toList⟩] []]

/-- The result of the first normalization run on `C9tree`: the child's
declaration is rewritten to `xmlns:p="u"`. -/
def C9run1 : XNode :=
  .element none none "r".toList
    [⟨some XMLNS, some "xmlns".toList, "p".toList, "u".toList⟩]
    [.element (some "u".toList) (some "p".toList) "c".toList
      [⟨some XMLNS, some "xmlns".toList, "p".toList, "u".toList⟩] []]

/-- The result of the second run: the child's declaration — now an exact
duplicate of the inherited binding — is stripped away entirely. -/
def C9run2 : XNode :=
  .element none none "r".toList
    [⟨some XMLNS, some "xmlns".toList, "p".toList, "u".toList⟩]
    [.element (some "u".toList) (some "p".toList) "c".toList [] []]

/-- C9 (counterexample): both normalization runs succeed on `C9tree`, yet
the second run's tree differs from the first run's (the child loses its
`xmlns:p` attribute), so the serialized documents cannot be
byte-identical: with `strip_dups` the normalizer is not idempotent.
Moreover (second conjunct family) even `strip_dups = False` re-runs can
fail outright: on a tree whose attribute has an empty-string prefix, the
first run succeeds but the second raises the line-214 `NameError`. -/
theorem C9_counterexample_not_idempotent :
    normalize_namespaces true NamespaceScope.empty C9tree = .ok C9run1
    ∧ normalize_namespaces true NamespaceScope.empty C9run1 = .ok C9run2
    ∧ C9run2 ≠ C9run1
    ∧ (let freak : XNode := .element none none "r".toList
          [⟨some "urn:x".toList, some "".toList, "a".toList, "v".toList⟩] []
       ∃ t1, normalize_namespaces false NamespaceScope.empty freak = .ok t1
        ∧ normalize_namespaces false NamespaceScope.empty t1 =
            .error (.nameError "current_prefix")) := by
  refine ⟨by decide, by decide, by decide, ?_⟩
  exact ⟨.element none none "r".toList
    [⟨some "urn:x".toList, some "".toList, "a".toList, "v".toList⟩,
     ⟨some XMLNS, some "xmlns".toList, [], "urn:x".toList⟩] [],
    by decide, by decide⟩

end StillWeb

/-! ## Symbolic facts about the URL algebra

Infrastructure for reasoning about `urlsplit`/`urljoin`/`relative_url` on
symbolically constructed URLs: a "good" host is a nonempty string of
lower-case letters, digits, `.` and `-`; a "good" path segment is a
nonempty string of unreserved characters that is not `.` or `..`. -/
namespace StillWeb.UrlProofs

open PyStr PyUrllib SwUrllib

/-- Host characters: lower-case ASCII letters, digits, `.`, `-`. -/
def goodHostChar (c : Char) : Bool :=
  (97 ≤ c.toNat && c.toNat ≤ 122) || (48 ≤ c.toNat && c.toNat ≤ 57)
    || c.toNat = 46 || c.toNat = 45

/-- A good host: nonempty, all `goodHostChar`. -/
def goodHost (h : Str) : Bool := !h.isEmpty && h.all goodHostChar

/-- Path-segment characters: the RFC 3986 unreserved set. -/
def goodSegChar (c : Char) : Bool :=
  (97 ≤ c.toNat && c.toNat ≤ 122) || (65 ≤ c.toNat && c.toNat ≤ 90)
    || (48 ≤ c.toNat && c.toNat ≤ 57) || c.toNat = 46 || c.toNat = 45
    || c.toNat = 95 || c.toNat = 126

/-- A good path segment: nonempty, unreserved characters, not a dot
segment. -/
def goodSeg (s : Str) : Bool :=
  !s.isEmpty && s.all goodSegChar && s ≠ ['.'] && s ≠ ['.', '.']

/-- Characters of good hosts and segments are ordinary: not removed, not
stripped, ASCII, and none of the URL delimiters. -/
theorem goodChar_ordinary {c : Char}
    (h : goodHostChar c = true ∨ goodSegChar c = true) :
    isUnsafeUrlChar c = false ∧ isC0ControlOrSpace c = false
    ∧ c.toNat ≤ 0x7f
    ∧ c ≠ '/' ∧ c ≠ ':' ∧ c ≠ '?' ∧ c ≠ '#' ∧ c ≠ ';' ∧ c ≠ '['
    ∧ c ≠ ']' := by
  have hn : (45 ≤ c.toNat ∧ c.toNat ≤ 126) ∧ c.toNat ≠ 47 ∧ c.toNat ≠ 58
      ∧ c.toNat ≠ 63 ∧ c.toNat ≠ 35 ∧ c.toNat ≠ 59 ∧ c.toNat ≠ 91
      ∧ c.toNat ≠ 93 ∧ c.toNat ≠ 9 ∧ c.toNat ≠ 13 ∧ c.toNat ≠ 10 := by
    rcases h with h | h <;> simp [goodHostChar, goodSegChar] at h <;> omega
  obtain ⟨⟨hlo, hhi⟩, h47, h58, h63, h35, h59, h91, h93, h9, h13, h10⟩ := hn
  refine ⟨?_, ?_, by omega, ?_, ?_, ?_, ?_, ?_, ?_, ?_⟩
  · simp only [isUnsafeUrlChar, Bool.or_eq_false_iff, decide_eq_false_iff_not]
    refine ⟨⟨?_, ?_⟩, ?_⟩ <;> intro he <;> subst he
    · exact h9 (by decide)
    · exact h13 (by decide)
    · exact h10 (by decide)
  · simp only [isC0ControlOrSpace, decide_eq_false_iff_not]; omega
  · intro he; subst he; exact h47 (by decide)
  · intro he; subst he; exact h58 (by decide)
  · intro he; subst he; exact h63 (by decide)
  · intro he; subst he; exact h35 (by decide)
  · intro he; subst he; exact h59 (by decide)
  · intro he; subst he; exact h91 (by decide)
  · intro he; subst he; exact h93 (by decide)

/-- `takeWhile` over an append whose first part satisfies the predicate. -/
theorem takeWhile_append_all {p : Char → Bool} {a b : Str}
    (h : ∀ c ∈ a, p c = true) :
    (a ++ b).takeWhile p = a ++ b.takeWhile p := by
  induction a with
  | nil => rfl
  | cons x xs ih =>
    simp only [List.cons_append, List.takeWhile_cons,
      h x (List.mem_cons_self x xs)]
    simp only [if_true]
    rw [ih (fun c hc => h c (List.mem_cons_of_mem x hc))]

/-- `dropWhile` over an append whose first part satisfies the predicate. -/
theorem dropWhile_append_all {p : Char → Bool} {a b : Str}
    (h : ∀ c ∈ a, p c = true) :
    (a ++ b).dropWhile p = b.dropWhile p := by
  induction a with
  | nil => rfl
  | cons x xs ih =>
    simp only [List.cons_append, List.dropWhile_cons,
      h x (List.mem_cons_self x xs)]
    exact ih (fun c hc => h c (List.mem_cons_of_mem x hc))

/-- `hasChar` is false when the character is absent. -/
theorem hasChar_eq_false {s : Str} {c : Char} (h : ∀ x ∈ s, x ≠ c) :
    hasChar s c = false := by
  induction s with
  | nil => rfl
  | cons x xs ih =>
    simp only [hasChar, List.contains_cons]
    have hx : (c == x) = false := by
      simp [beq_iff_eq]
      exact fun he => h x (List.mem_cons_self x xs) he.symm
    simp only [hx, Bool.false_or]
    exact ih (fun y hy => h y (List.mem_cons_of_mem x hy))

/-- `findAux` returns `-1` when the character is absent. -/
theorem findAux_eq_neg_one {s : Str} {c : Char} (h : ∀ x ∈ s, x ≠ c) :
    ∀ i, findAux c s i = -1 := by
  induction s with
  | nil => intro i; rfl
  | cons x xs ih =>
    intro i
    simp only [findAux, if_neg (h x (List.mem_cons_self x xs))]
    exact ih (fun y hy => h y (List.mem_cons_of_mem x hy)) (i + 1)

/-- `split` of a separator-free string is the singleton. -/
theorem split_no_sep {s : Str} {c : Char} (h : ∀ x ∈ s, x ≠ c) :
    split s c = [s] := by
  induction s with
  | nil => rfl
  | cons x xs ih =>
    simp only [split, if_neg (h x (List.mem_cons_self x xs))]
    rw [ih (fun y hy => h y (List.mem_cons_of_mem x hy))]

/-- `split` across a separator occurrence, when the part before it is
separator-free. -/
theorem split_append_sep {a b : Str} {c : Char} (h : ∀ x ∈ a, x ≠ c) :
    split (a ++ c :: b) c = a :: split b c := by
  induction a with
  | nil => simp [split]
  | cons x xs ih =>
    simp only [List.cons_append, split,
      if_neg (h x (List.mem_cons_self x xs)), List.append_eq]
    rw [ih (fun y hy => h y (List.mem_cons_of_mem x hy))]

/-- `split` after `join` restores the list of pieces (pieces
separator-free, list nonempty). -/
theorem split_join {L : List Str} {c : Char} (hL : L ≠ [])
    (h : ∀ s ∈ L, ∀ x ∈ s, x ≠ c) : split (join c L) c = L := by
  induction L with
  | nil => exact absurd rfl hL
  | cons s rest ih =>
    cases rest with
    | nil => exact split_no_sep (h s (List.mem_cons_self s []))
    | cons t ts =>
      show split (s ++ c :: join c (t :: ts)) c = s :: t :: ts
      rw [split_append_sep (h s (List.mem_cons_self s _))]
      rw [ih (by simp) (fun u hu => h u (List.mem_cons_of_mem s hu))]

/-- `join` and then prepend a separator: the `"/" ++ join` path shape. -/
theorem join_cons_eq (c : Char) (x : Str) (xs : List Str) (hxs : xs ≠ []) :
    join c (x :: xs) = x ++ c :: join c xs := by
  cases xs with
  | nil => exact absurd rfl hxs
  | cons y ys => rfl

end StillWeb.UrlProofs

namespace StillWeb.UrlProofs

open PyStr PyUrllib SwUrllib

/-- `"http://" ++ host ++ path`. -/
def mkAbs (h p : Str) : Str := "http://".toList ++ h ++ p

/-- A clean absolute path: starts with `/`, characters are `/` or
segment characters. -/
def pathOk (p : Str) : Prop :=
  p.take 1 = ['/'] ∧ ∀ c ∈ p, c = '/' ∨ goodSegChar c = true

theorem urlsplit_mkAbs {h p : Str} (scheme0 : Str) (hh : goodHost h = true)
    (hp : pathOk p) :
    urlsplit (mkAbs h p) scheme0 true = .ok ⟨"http".toList, h, p, [], []⟩ := by
  obtain ⟨hp1, hp2⟩ := hp
  have hgh : ∀ c ∈ h, goodHostChar c = true := by
    have := (Bool.and_eq_true _ _).mp hh
    exact fun c hc => (List.all_eq_true.mp this.2) c hc
  have hordH := fun c (hc : c ∈ h) => goodChar_ordinary (Or.inl (hgh c hc))
  have hordP : ∀ c ∈ p, c = '/' ∨ (isUnsafeUrlChar c = false ∧
      isC0ControlOrSpace c = false ∧ c.toNat ≤ 0x7f ∧ c ≠ '/' ∧ c ≠ ':'
      ∧ c ≠ '?' ∧ c ≠ '#' ∧ c ≠ ';' ∧ c ≠ '[' ∧ c ≠ ']') := by
    intro c hc
    rcases hp2 c hc with h1 | h1
    · exact .inl h1
    · exact .inr (goodChar_ordinary (.inr h1))
  -- step 1: the lstrip and the unsafe-byte filter are identities
  have e1 : (lstripWhen (mkAbs h p) isC0ControlOrSpace).filter
      (fun c => !isUnsafeUrlChar c) = mkAbs h p := by
    have : lstripWhen (mkAbs h p) isC0ControlOrSpace = mkAbs h p := rfl
    rw [this]
    apply List.filter_eq_self.mpr
    intro a ha
    simp only [mkAbs, List.append_assoc, List.mem_append] at ha
    rcases ha with ha | ha | ha
    · fin_cases ha <;> decide
    · simp [(hordH a ha).1]
    · rcases hordP a ha with rfl | hx
      · decide
      · simp [hx.1]
  -- step 2: the literal prefix pins down scheme and netloc detection
  have hlit : "http://".toList = ['h','t','t','p',':','/','/'] := rfl
  have e2 : find (mkAbs h p) ':' = 4 := by
    simp [mkAbs, hlit, find, findAux]
  have e3 : (mkAbs h p).take 4 = "http".toList := by
    simp [mkAbs, hlit]
  have e4 : (mkAbs h p).drop 5 = '/' :: '/' :: (h ++ p) := by
    simp [mkAbs, hlit]
  have e5 : (h ++ p).takeWhile
      (fun c => !decide (c = '/') && !decide (c = '?') && !decide (c = '#')) = h := by
    rw [takeWhile_append_all (fun c hc => by
      have := hordH c hc
      simp [this.2.2.2.1, this.2.2.2.2.2.1, this.2.2.2.2.2.2.1])]
    cases p with
    | nil => simp at hp1
    | cons c cs =>
      have : c = '/' := by simpa using congrArg (fun l => l.head?) hp1
      subst this
      simp [List.takeWhile_cons]
  have e6 : (h ++ p).dropWhile
      (fun c => !decide (c = '/') && !decide (c = '?') && !decide (c = '#')) = p := by
    rw [dropWhile_append_all (fun c hc => by
      have := hordH c hc
      simp [this.2.2.2.1, this.2.2.2.2.2.1, this.2.2.2.2.2.2.1])]
    cases p with
    | nil => simp at hp1
    | cons c cs =>
      have : c = '/' := by simpa using congrArg (fun l => l.head?) hp1
      subst this
      simp [List.dropWhile_cons]
  have hb1 : hasChar h '[' = false :=
    hasChar_eq_false (fun c hc => (hordH c hc).2.2.2.2.2.2.2.2.1)
  have hb2 : hasChar h ']' = false :=
    hasChar_eq_false (fun c hc => (hordH c hc).2.2.2.2.2.2.2.2.2)
  have hf : hasChar p '#' = false := by
    apply hasChar_eq_false
    intro c hc
    rcases hordP c hc with rfl | hx
    · decide
    · exact hx.2.2.2.2.2.2.1
  have hq : hasChar p '?' = false := by
    apply hasChar_eq_false
    intro c hc
    rcases hordP c hc with rfl | hx
    · decide
    · exact hx.2.2.2.2.2.1
  have hcn : checknetloc h = .ok () := by
    have : h.all (fun c => decide (c.toNat ≤ 0x7f)) = true :=
      List.all_eq_true.mpr (fun c hc => by
        simpa using (hordH c hc).2.2.1)
    simp [checknetloc, this]
  have hm : mkAbs h p = 'h' :: 't' :: 't' :: 'p' :: ':' :: '/' :: '/' :: (h ++ p) := by
    simp [mkAbs, hlit]
  rw [hm] at e1 e2 e3 e4 ⊢
  unfold urlsplit
  rw [e1]
  simp +decide [e2, e3, e4, lower, splitnetloc, e5, e6, hb1, hb2, hf, hq,
    hcn, find, findAux, scheme_chars, isAsciiAlpha, lowerChar, isUpper]

end StillWeb.UrlProofs

namespace StillWeb.UrlProofs

open PyStr PyUrllib SwUrllib

/-- Clean path characters contain no `;`. -/
theorem pathOk_no_semi {p : Str} (hp : pathOk p) : hasChar p ';' = false := by
  apply hasChar_eq_false
  intro c hc
  rcases hp.2 c hc with rfl | hx
  · decide
  · exact (goodChar_ordinary (.inr hx)).2.2.2.2.2.2.2.1

theorem urlparse_mkAbs {h p : Str} (scheme0 : Str) (hh : goodHost h = true)
    (hp : pathOk p) :
    urlparse (mkAbs h p) scheme0 true =
      .ok ⟨"http".toList, h, p, [], [], []⟩ := by
  unfold urlparse
  rw [urlsplit_mkAbs scheme0 hh hp]
  simp [pathOk_no_semi hp]

/-- A clean relative reference: nonempty, does not start with `//` or an
empty first segment, characters are `/` or segment characters. -/
def relOk (r : Str) : Prop :=
  r ≠ [] ∧ r.take 1 ≠ ['/'] ∧ ∀ c ∈ r, c = '/' ∨ goodSegChar c = true

theorem urlsplit_rel {r : Str} (hr : relOk r) :
    urlsplit r "http".toList true =
      .ok ⟨"http".toList, [], r, [], []⟩ := by
  obtain ⟨hne, hns, hch⟩ := hr
  have hordR : ∀ c ∈ r, c = '/' ∨ (isUnsafeUrlChar c = false ∧
      isC0ControlOrSpace c = false ∧ c.toNat ≤ 0x7f ∧ c ≠ '/' ∧ c ≠ ':'
      ∧ c ≠ '?' ∧ c ≠ '#' ∧ c ≠ ';' ∧ c ≠ '[' ∧ c ≠ ']') := by
    intro c hc
    rcases hch c hc with h1 | h1
    · exact .inl h1
    · exact .inr (goodChar_ordinary (.inr h1))
  have e1 : lstripWhen r isC0ControlOrSpace = r := by
    cases r with
    | nil => rfl
    | cons c cs =>
      have := hordR c (List.mem_cons_self c cs)
      rcases this with rfl | hx
      · rfl
      · simp [lstripWhen, List.dropWhile_cons, hx.2.1]
  have e2 : r.filter (fun c => !isUnsafeUrlChar c) = r := by
    apply List.filter_eq_self.mpr
    intro a ha
    rcases hordR a ha with rfl | hx
    · decide
    · simp [hx.1]
  have e3 : find r ':' = -1 := by
    apply findAux_eq_neg_one
    intro x hx
    rcases hordR x hx with rfl | hx'
    · decide
    · exact hx'.2.2.2.2.1
  have e4 : r.take 2 ≠ ['/', '/'] := by
    intro hcon
    cases r with
    | nil => simp at hcon
    | cons c cs =>
      apply hns
      simp only [List.take_succ_cons] at hcon ⊢
      have : c = '/' := by
        have := congrArg (fun l => l.head?) hcon
        simpa using this
      simp [this]
  have e5 : hasChar r '#' = false := by
    apply hasChar_eq_false
    intro c hc
    rcases hordR c hc with rfl | hx
    · decide
    · exact hx.2.2.2.2.2.2.1
  have e6 : hasChar r '?' = false := by
    apply hasChar_eq_false
    intro c hc
    rcases hordR c hc with rfl | hx
    · decide
    · exact hx.2.2.2.2.2.1
  unfold urlsplit
  rw [e1]
  simp +decide [e2, e3, e4, e5, e6, checknetloc]

theorem urlparse_rel {r : Str} (hr : relOk r) :
    urlparse r "http".toList true =
      .ok ⟨"http".toList, [], r, [], [], []⟩ := by
  have hsemi : hasChar r ';' = false := by
    apply hasChar_eq_false
    intro c hc
    rcases hr.2.2 c hc with rfl | hx
    · decide
    · exact (goodChar_ordinary (.inr hx)).2.2.2.2.2.2.2.1
  unfold urlparse
  rw [urlsplit_rel hr]
  simp [hsemi]

/-- `urlunparse` of an absolute http component tuple. -/
theorem urlunparse_mkAbs {h p : Str} (hh : h ≠ []) (hp : p.take 1 = ['/']) :
    urlunparse ⟨"http".toList, h, p, [], [], []⟩ = mkAbs h p := by
  unfold urlunparse urlunsplit
  simp only [List.isEmpty_eq_true, mkAbs]
  cases p with
  | nil => simp at hp
  | cons c cs =>
    have : c = '/' := by simpa using congrArg (fun l => l.head?) hp
    subst this
    simp [hh]

/-- `urlunparse` of a schemeless, netloc-less tuple: the path plus query
and fragment. -/
theorem urlunparse_relTuple {p q f : Str} (hp : p.take 2 ≠ ['/', '/']) :
    urlunparse ⟨[], [], p, [], q, f⟩ =
      (p ++ (if q.isEmpty then [] else '?' :: q))
        ++ (if f.isEmpty then [] else '#' :: f) := by
  unfold urlunparse urlunsplit
  simp only [List.isEmpty_nil, if_true, List.isEmpty_eq_true]
  by_cases hq : q = [] <;> by_cases hf : f = [] <;>
    simp [hq, hf, hp]

end StillWeb.UrlProofs

namespace StillWeb.UrlProofs

open PyStr PyUrllib SwUrllib

/-- Segment lists for constructed paths: every piece is a good segment. -/
def cleanSegs (S : List Str) : Prop := ∀ s ∈ S, goodSeg s = true

/-- The path `/s1/.../sn` (`dir = false`) or `/s1/.../sn/` (`dir = true`;
`S = []` with `dir = true` is the root path `/`). -/
def segsPath (S : List Str) (dir : Bool) : Str :=
  '/' :: join '/' (S ++ if dir then [[]] else [])

/-- Segment pieces of a relative reference: a good segment or a dot
segment. -/
def relSeg (s : Str) : Prop := goodSeg s = true ∨ s = ['.'] ∨ s = ['.', '.']

/-- Characters of good segments are segment characters. -/
theorem goodSeg_chars {s : Str} (h : goodSeg s = true) :
    ∀ c ∈ s, goodSegChar c = true := by
  have h' := h
  simp only [goodSeg, Bool.and_eq_true] at h'
  exact fun c hc => List.all_eq_true.mp h'.1.1.2 c hc

/-- Characters of relative segments are segment characters. -/
theorem relSeg_chars {s : Str} (h : relSeg s) :
    ∀ c ∈ s, goodSegChar c = true := by
  rcases h with h | h | h
  · exact goodSeg_chars h
  · subst h; intro c hc; simp at hc; subst hc; decide
  · subst h; intro c hc; simp at hc; subst hc; decide

/-- No `/` inside a relative segment. -/
theorem relSeg_no_slash {s : Str} (h : relSeg s) : ∀ c ∈ s, c ≠ '/' :=
  fun c hc => (goodChar_ordinary (.inr (relSeg_chars h c hc))).2.2.2.1

/-- A character of a join is the separator or a character of a piece. -/
theorem mem_join {c sep : Char} {L : List Str} (hc : c ∈ join sep L) :
    c = sep ∨ ∃ s ∈ L, c ∈ s := by
  induction L with
  | nil => simp [join] at hc
  | cons x xs ih =>
    cases xs with
    | nil =>
      simp only [join] at hc
      exact .inr ⟨x, List.mem_cons_self x [], hc⟩
    | cons y ys =>
      rw [show join sep (x :: y :: ys) = x ++ sep :: join sep (y :: ys)
        from rfl] at hc
      rcases List.mem_append.mp hc with hx | hx
      · exact .inr ⟨x, List.mem_cons_self x _, hx⟩
      · rcases List.mem_cons.mp hx with rfl | hx
        · exact .inl rfl
        · rcases ih hx with h1 | ⟨s, hs, hcs⟩
          · exact .inl h1
          · exact .inr ⟨s, List.mem_cons_of_mem x hs, hcs⟩

/-- `pathOk` holds for constructed paths. -/
theorem pathOk_segsPath {S : List Str} {dir : Bool} (hS : cleanSegs S) :
    pathOk (segsPath S dir) := by
  constructor
  · rfl
  · intro c hc
    simp only [segsPath, List.mem_cons] at hc
    rcases hc with rfl | hc
    · exact .inl rfl
    · rcases mem_join hc with rfl | ⟨s, hs, hcs⟩
      · exact .inl rfl
      · rcases List.mem_append.mp hs with hs | hs
        · exact .inr (goodSeg_chars (hS s hs) c hcs)
        · exfalso
          cases dir <;> simp_all

end StillWeb.UrlProofs

namespace StillWeb.UrlProofs

open PyStr PyUrllib SwUrllib

/-- `urljoin` of two absolute URLs returns the (reassembled) second. -/
theorem urljoin_absUrl {h bp h2 p2 : Str} (hh : goodHost h = true)
    (hbp : pathOk bp) (hh2 : goodHost h2 = true) (hp2 : pathOk p2) :
    urljoin (mkAbs h bp) (mkAbs h2 p2) true = .ok (mkAbs h2 p2) := by
  have hbne : mkAbs h bp ≠ [] := by simp [mkAbs]
  have hune : mkAbs h2 p2 ≠ [] := by simp [mkAbs]
  have hb : urlparse (mkAbs h bp) [] true =
      .ok ⟨"http".toList, h, bp, [], [], []⟩ := urlparse_mkAbs [] hh hbp
  have hu : urlparse (mkAbs h2 p2) "http".toList true =
      .ok ⟨"http".toList, h2, p2, [], [], []⟩ := urlparse_mkAbs _ hh2 hp2
  have hh2ne : h2 ≠ [] := by
    simp only [goodHost, Bool.and_eq_true] at hh2
    simpa using hh2.1
  unfold urljoin
  rw [if_neg (by simpa using hbne), if_neg (by simpa using hune)]
  rw [hb]
  simp only [Except.bind, pure, Except.pure, bind]
  rw [hu]
  simp +decide [Except.bind, uses_relative, uses_netloc, hh2ne]
  exact urlunparse_mkAbs hh2ne hp2.1

end StillWeb.UrlProofs

namespace StillWeb.UrlProofs

open PyStr PyUrllib SwUrllib

/-- The path produced by `urljoin`'s tail: `'/'.join(resolved) or '/'`,
then `urlunsplit`'s leading-slash restoration. -/
def joinedPath (l : List Str) : Str :=
  let j := join '/' l
  let j2 := if j.isEmpty then ['/'] else j
  if !j2.isEmpty && j2.take 1 ≠ ['/'] then '/' :: j2 else j2

/-- `urlunparse` with a nonempty netloc restores a leading slash. -/
theorem urlunparse_netloc {h p : Str} (hh : h ≠ []) :
    urlunparse ⟨"http".toList, h, p, [], [], []⟩ =
      mkAbs h (if !p.isEmpty && p.take 1 ≠ ['/'] then '/' :: p else p) := by
  unfold urlunparse urlunsplit
  simp only [List.isEmpty_eq_true, mkAbs]
  by_cases hp : p = []
  · subst hp; simp [hh]
  · by_cases ht : p.take 1 = ['/'] <;> simp [hh, hp, ht]

/-- A good segment is nonempty. -/
theorem goodSeg_ne_nil {s : Str} (h : goodSeg s = true) : s ≠ [] := by
  simp only [goodSeg, Bool.and_eq_true] at h
  simpa using h.1.1.1

/-- Relative-segment lists are slash-free piece lists. -/
theorem relList_no_slash {R : List Str} (hR : R ≠ [])
    (hRseg : ∀ s ∈ R.dropLast, relSeg s)
    (hRlast : relSeg (R.getLast hR) ∨ R.getLast hR = []) :
    ∀ s ∈ R, ∀ c ∈ s, c ≠ '/' := by
  intro s hs
  rcases List.eq_nil_or_concat' R with rfl | ⟨M, b, rfl⟩
  · exact absurd rfl hR
  · rcases List.mem_append.mp hs with hs | hs
    · exact relSeg_no_slash (hRseg s (by simpa using hs))
    · have hb : s = b := by simpa using hs
      subst hb
      have hlast : (M ++ [s]).getLast (by simp) = s := by
        simp [List.getLast_append]
      rcases hRlast with h1 | h1
    -- `getLast` of the concat form is `b`
      · rw [hlast] at h1
        exact relSeg_no_slash h1
      · rw [hlast] at h1
        subst h1
        intro c hc
        simp at hc

/-- `split` of a constructed path. -/
theorem split_segsPath {S : List Str} {dir : Bool} (hS : cleanSegs S)
    (hne : dir = true ∨ S ≠ []) :
    split (segsPath S dir) '/' = [] :: (S ++ if dir then [[]] else []) := by
  unfold segsPath
  rw [show split ('/' :: join '/' (S ++ if dir then [[]] else [])) '/'
      = [] :: split (join '/' (S ++ if dir then [[]] else [])) '/'
    from by simp [split]]
  congr 1
  apply split_join
  · rcases hne with rfl | hne
    · simp
    · simp [hne]
  · intro s hs
    rcases List.mem_append.mp hs with hs | hs
    · exact fun c hc => (goodChar_ordinary (.inr (goodSeg_chars (hS s hs) c hc))).2.2.2.1
    · cases dir <;> simp_all

/-- `urljoin` of a clean absolute directory/file base URL and a clean
relative reference: the Python segment arithmetic, verbatim. -/
theorem urljoin_relRef {h : Str} {B R : List Str} {bdir : Bool}
    (hh : goodHost h = true) (hB : cleanSegs B)
    (hbne : bdir = true ∨ B ≠ [])
    (hR : R ≠ []) (hR0 : R.head? ≠ some [])
    (hRseg : ∀ s ∈ R.dropLast, relSeg s)
    (hRlast : relSeg (R.getLast hR) ∨ R.getLast hR = []) :
    urljoin (mkAbs h (segsPath B bdir)) (join '/' R) true =
      .ok (mkAbs h (joinedPath
        (resolveSegs (([] : Str) :: ((if bdir then B else B.dropLast) ++ R))
          ++ (if R.getLast? = some ['.'] || R.getLast? = some ['.', '.']
              then [([] : Str)] else [])))) := by
  -- shape facts about R
  have hslash := relList_no_slash hR hRseg hRlast
  obtain ⟨M, rl, rfl⟩ : ∃ M rl, R = M ++ [rl] := by
    rcases List.eq_nil_or_concat' R with rfl | ⟨M, rl, rfl⟩
    · exact absurd rfl hR
    · exact ⟨M, rl, rfl⟩
  have hMseg : ∀ s ∈ M, relSeg s := by
    intro s hs
    exact hRseg s (by simpa [List.dropLast_concat] using hs)
  have hrlseg : relSeg rl ∨ rl = [] := by
    have : (M ++ [rl]).getLast (by simp) = rl := by
      simp [List.getLast_append]
    rwa [this] at hRlast
  have hMne : ∀ s ∈ M, s ≠ [] := by
    intro s hs
    rcases hMseg s hs with h1 | h1 | h1
    · exact goodSeg_ne_nil h1
    · subst h1; simp
    · subst h1; simp
  -- the head segment is a relative segment (the empty last is excluded
  -- when it is also the head)
  have hheadSeg : ∀ x xs, M ++ [rl] = x :: xs → relSeg x := by
    intro x xs hx
    cases M with
    | nil =>
      simp only [List.nil_append] at hx
      have hx1 : rl = x := by
        simpa using congrArg (fun l => l.head?) hx
      subst hx1
      rcases hrlseg with hseg | hnil
      · exact hseg
      · exfalso; apply hR0; simp [hnil]
    | cons m ms =>
      have : m = x := by simpa using congrArg (fun l => l.head?) hx
      subst this
      exact hMseg m (List.mem_cons_self m ms)
  -- the relative reference string is clean
  have hrelOk : relOk (join '/' (M ++ [rl])) := by
    obtain ⟨x, xs, hx⟩ : ∃ x xs, M ++ [rl] = x :: xs := by
      cases hM : M ++ [rl] with
      | nil => simp at hM
      | cons x xs => exact ⟨x, xs, rfl⟩
    have hxseg := hheadSeg x xs hx
    have hxne : x ≠ [] := by
      rcases hxseg with h1 | h1 | h1
      · exact goodSeg_ne_nil h1
      · subst h1; simp
      · subst h1; simp
    refine ⟨?_, ?_, ?_⟩
    · rw [hx]
      cases xs with
      | nil => simpa [join] using hxne
      | cons y ys =>
        rw [join_cons_eq _ _ _ (by simp)]
        cases x with
        | nil => exact absurd rfl hxne
        | cons c cs => simp
    · rw [hx]
      obtain ⟨c, cs, rfl⟩ : ∃ c cs, x = c :: cs := by
        cases x with
        | nil => exact absurd rfl hxne
        | cons c cs => exact ⟨c, cs, rfl⟩
      have hc : goodSegChar c = true :=
        relSeg_chars hxseg c (List.mem_cons_self c cs)
      have hcne : c ≠ '/' := (goodChar_ordinary (.inr hc)).2.2.2.1
      cases xs with
      | nil => simpa [join] using hcne
      | cons y ys =>
        rw [join_cons_eq _ _ _ (by simp)]
        simpa using hcne
    · intro c hc
      rcases mem_join hc with rfl | ⟨s, hs, hcs⟩
      · exact .inl rfl
      · right
        rcases List.mem_append.mp hs with hs | hs
        · exact relSeg_chars (hMseg s hs) c hcs
        · have : s = rl := by simpa using hs
          subst this
          rcases hrlseg with h1 | h1
          · exact relSeg_chars h1 c hcs
          · subst h1; simp at hcs
  have hsplitR : split (join '/' (M ++ [rl])) '/' = M ++ [rl] :=
    split_join hR hslash
  have hbp : pathOk (segsPath B bdir) := pathOk_segsPath hB
  have hbparse : urlparse (mkAbs h (segsPath B bdir)) [] true =
      .ok ⟨"http".toList, h, segsPath B bdir, [], [], []⟩ :=
    urlparse_mkAbs [] hh hbp
  have huparse : urlparse (join '/' (M ++ [rl])) "http".toList true =
      .ok ⟨"http".toList, [], join '/' (M ++ [rl]), [], [], []⟩ :=
    urlparse_rel hrelOk
  have hhne : h ≠ [] := by
    simp only [goodHost, Bool.and_eq_true] at hh
    simpa using hh.1
  have hbne' : mkAbs h (segsPath B bdir) ≠ [] := by simp [mkAbs]
  have hrne : join '/' (M ++ [rl]) ≠ [] := hrelOk.1
  have hbsplit := split_segsPath hB hbne
  have hBne : ∀ s ∈ B, s ≠ [] := fun s hs => goodSeg_ne_nil (hB s hs)
  have hfB : B.filter (fun s => !s.isEmpty) = B :=
    List.filter_eq_self.mpr (fun s hs => by
      simpa [List.isEmpty_eq_true] using hBne s hs)
  have hfM : M.filter (fun s => !s.isEmpty) = M :=
    List.filter_eq_self.mpr (fun s hs => by
      simpa [List.isEmpty_eq_true] using hMne s hs)
  unfold urljoin
  rw [if_neg (by simpa using hbne'), if_neg (by simpa using hrne)]
  rw [hbparse]
  simp only [Except.bind, pure, Except.pure, bind]
  rw [huparse]
  simp only [Except.bind]
  have hjoinne : (join '/' (M ++ [rl])).isEmpty = false :=
    List.isEmpty_eq_false.mpr hrne
  rw [if_neg (show ¬((decide ("http".toList ≠ "http".toList)
      || !uses_relative.contains "http".toList) = true) from by decide)]
  rw [if_pos (show uses_netloc.contains "http".toList = true from by decide)]
  rw [if_neg (show ¬((!(([] : Str)).isEmpty) = true) from by decide)]
  rw [if_neg (show ¬(((join '/' (M ++ [rl])).isEmpty
      && (([] : Str)).isEmpty) = true) from by simp [hjoinne])]
  rw [hsplitR, hbsplit]
  rw [if_neg hrelOk.2.1]
  cases bdir with
  | true =>
    simp only [if_true]
    have hgl : ((([] : Str) :: (B ++ [([] : Str)]))).getLast? = some [] := by
      rw [show (([] : Str) :: (B ++ [([] : Str)])) = (([] : Str) :: B) ++ [([] : Str)]
        from by simp, List.getLast?_concat]
    rw [if_neg (show ¬((([] : Str) :: (B ++ [([] : Str)])).getLast? ≠ some [])
      from by simp [hgl])]
    have harr : (([] : Str) :: (B ++ [([] : Str)])) ++ (M ++ [rl]) =
        ([] : Str) :: ((B ++ [([] : Str)] ++ M) ++ [rl]) := by simp
    rw [harr]
    simp only [List.dropLast_concat,
      show ((B ++ [([] : Str)] ++ M) ++ [rl]).length - 1
        = (B ++ [([] : Str)] ++ M).length from by simp,
      List.drop_left, List.filter_append, hfB, hfM,
      show List.filter (fun s => !List.isEmpty s) [([] : Str)] = [] from rfl,
      List.append_nil, List.getLast?_concat]
    rw [urlunparse_netloc hhne]
    have hg1 : ((([] : Str)) :: (B ++ (M ++ [rl]))).getLast? = some rl := by
      rw [show (([] : Str)) :: (B ++ (M ++ [rl]))
          = ((([] : Str)) :: (B ++ M)) ++ [rl] from by simp,
        List.getLast?_concat]
    have hg2 : (M ++ [rl]).getLast? = some rl := List.getLast?_concat _
    by_cases hdot : rl = ['.'] ∨ rl = ['.', '.']
    · rcases hdot with rfl | rfl
      · simp [joinedPath, hg1, hg2]
      · simp [joinedPath, hg1, hg2]
    · have h1 : rl ≠ ['.'] := fun he => hdot (.inl he)
      have h2 : rl ≠ ['.', '.'] := fun he => hdot (.inr he)
      simp [joinedPath, hg1, hg2, h1, h2]
  | false =>
    simp only [Bool.false_eq_true, if_false]
    have hBne' : B ≠ [] := by
      rcases hbne with h1 | h1
      · simp at h1
      · exact h1
    obtain ⟨B', bl, rfl⟩ : ∃ B' bl, B = B' ++ [bl] := by
      rcases List.eq_nil_or_concat' B with rfl | ⟨B', bl, rfl⟩
      · exact absurd rfl hBne'
      · exact ⟨B', bl, rfl⟩
    have hblne : bl ≠ [] := goodSeg_ne_nil (hB bl (by simp))
    have hgl : ((([] : Str) :: (B' ++ [bl]))).getLast? = some bl := by
      rw [show (([] : Str) :: (B' ++ [bl])) = (([] : Str) :: B') ++ [bl]
        from by simp, List.getLast?_concat]
    rw [if_pos (show ((([] : Str) :: ((B' ++ [bl]) ++ [])).getLast? ≠ some [])
      from by simp [hgl, hblne])]
    rw [show ((([] : Str) :: ((B' ++ [bl]) ++ []))).dropLast = ([] : Str) :: B'
      from by rw [show (([] : Str) :: ((B' ++ [bl]) ++ [])) = (([] : Str) :: B') ++ [bl]
        from by simp, List.dropLast_concat]]
    have harr : (([] : Str) :: B') ++ (M ++ [rl]) =
        ([] : Str) :: ((B' ++ M) ++ [rl]) := by simp
    rw [harr]
    have hfB' : B'.filter (fun s => !s.isEmpty) = B' :=
      List.filter_eq_self.mpr (fun s hs => by
        simpa [List.isEmpty_eq_true] using goodSeg_ne_nil (hB s (by simp [hs])))
    simp only [List.dropLast_concat,
      show ((B' ++ M) ++ [rl]).length - 1 = (B' ++ M).length from by simp,
      List.drop_left, List.filter_append, hfB', hfM, List.append_nil,
      List.getLast?_concat]
    rw [urlunparse_netloc hhne]
    have hg1 : ((([] : Str)) :: (B' ++ (M ++ [rl]))).getLast? = some rl := by
      rw [show (([] : Str)) :: (B' ++ (M ++ [rl]))
          = ((([] : Str)) :: (B' ++ M)) ++ [rl] from by simp,
        List.getLast?_concat]
    have hg2 : (M ++ [rl]).getLast? = some rl := List.getLast?_concat _
    by_cases hdot : rl = ['.'] ∨ rl = ['.', '.']
    · rcases hdot with rfl | rfl
      · simp [joinedPath, hg1, hg2]
      · simp [joinedPath, hg1, hg2]
    · have h1 : rl ≠ ['.'] := fun he => hdot (.inl he)
      have h2 : rl ≠ ['.', '.'] := fun he => hdot (.inr he)
      simp [joinedPath, hg1, hg2, h1, h2]

end StillWeb.UrlProofs

namespace StillWeb.UrlProofs

open PyStr PyUrllib SwUrllib

/-- The step function of `urljoin`'s segment-resolution fold. -/
def rstep (acc : List Str) (seg : Str) : List Str :=
  if seg = ['.', '.'] then acc.dropLast
  else if seg = ['.'] then acc
  else acc ++ [seg]

/-- `resolveSegs` is the fold of `rstep` from the empty accumulator. -/
theorem resolveSegs_eq_foldl (segs : List Str) :
    resolveSegs segs = segs.foldl rstep [] := rfl

/-- Folding `rstep` over dot-free segments appends them all. -/
theorem foldl_rstep_push {L : List Str} (hL : ∀ s ∈ L, s ≠ ['.'] ∧ s ≠ ['.', '.'])
    (acc : List Str) : L.foldl rstep acc = acc ++ L := by
  induction L generalizing acc with
  | nil => simp
  | cons x xs ih =>
    have hx := hL x (by simp)
    have hxs : ∀ s ∈ xs, s ≠ ['.'] ∧ s ≠ ['.', '.'] :=
      fun s hs => hL s (by simp [hs])
    simp only [List.foldl_cons, rstep, if_neg hx.2, if_neg hx.1]
    rw [ih hxs]
    simp

/-- Folding `rstep` over `g` copies of `".."` pops `g` trailing segments,
never touching the leading empty segment. -/
theorem foldl_rstep_pops {B : List Str} {g : Nat} (hg : g ≤ B.length) :
    (List.replicate g (['.', '.'] : Str)).foldl rstep (([] : Str) :: B) =
      ([] : Str) :: B.take (B.length - g) := by
  induction g generalizing B with
  | zero => simp
  | succ n ih =>
    have hBne : B ≠ [] := by
      intro h
      subst h
      simp at hg
    simp only [List.replicate_succ, List.foldl_cons]
    rw [show rstep (([] : Str) :: B) ['.', '.'] = (([] : Str) :: B).dropLast from by
      simp [rstep]]
    rw [show (([] : Str) :: B).dropLast = ([] : Str) :: B.dropLast from by
      cases B with
      | nil => exact absurd rfl hBne
      | cons b bs => simp]
    rw [ih (by simp [List.length_dropLast]; omega)]
    rw [List.dropLast_eq_take, List.take_take, List.length_take]
    congr 2
    omega

/-- `joinedPath` of a list with a leading empty piece is the slash-joined
path (it already starts with `/`). -/
theorem joinedPath_cons {rest : List Str} (h : rest ≠ []) :
    joinedPath (([] : Str) :: rest) = '/' :: join '/' rest := by
  unfold joinedPath
  rw [show join '/' (([] : Str) :: rest) = '/' :: join '/' rest from by
    rw [join_cons_eq _ _ _ h]; simp]
  simp

/-- Unfolding `lcpLen` on equal heads. -/
theorem lcpLen_cons_same (x : Str) (A B : List Str) :
    lcpLen (x :: A) (x :: B) = lcpLen A B + 1 := by
  simp [lcpLen]

/-- Unfolding `lcpLen` on distinct heads. -/
theorem lcpLen_cons_diff {x y : Str} (h : x ≠ y) (A B : List Str) :
    lcpLen (x :: A) (y :: B) = 0 := by
  simp [lcpLen, h]

/-- `lcpLen` is bounded by the first list's length. -/
theorem lcpLen_le_left (X Y : List Str) : lcpLen X Y ≤ X.length := by
  induction X generalizing Y with
  | nil => simp [lcpLen]
  | cons x xs ih =>
    cases Y with
    | nil => simp [lcpLen]
    | cons y ys =>
      by_cases h : x = y
      · simpa [lcpLen, h] using ih ys
      · simp [lcpLen, h]

/-- `lcpLen` is bounded by the second list's length. -/
theorem lcpLen_le_right (X Y : List Str) : lcpLen X Y ≤ Y.length := by
  induction X generalizing Y with
  | nil => simp [lcpLen]
  | cons x xs ih =>
    cases Y with
    | nil => simp [lcpLen]
    | cons y ys =>
      by_cases h : x = y
      · simpa [lcpLen, h] using ih ys
      · simp [lcpLen, h]

/-- The two lists agree on their first `lcpLen` elements. -/
theorem lcpLen_take (X Y : List Str) :
    X.take (lcpLen X Y) = Y.take (lcpLen X Y) := by
  induction X generalizing Y with
  | nil => simp [lcpLen]
  | cons x xs ih =>
    cases Y with
    | nil => simp [lcpLen]
    | cons y ys =>
      by_cases h : x = y
      · subst h
        simp [lcpLen, ih ys]
      · simp [lcpLen, h]

/-- `lcpLen` of a list with itself is its length. -/
theorem lcpLen_refl (X : List Str) : lcpLen X X = X.length := by
  induction X with
  | nil => simp [lcpLen]
  | cons x xs ih => simp [lcpLen, ih]

/-- `lcpLen X Y` reaches `X.length` exactly when `X` is a prefix of `Y`. -/
theorem lcpLen_eq_length_iff {X Y : List Str} :
    lcpLen X Y = X.length ↔ X <+: Y := by
  induction X generalizing Y with
  | nil => simp [lcpLen]
  | cons x xs ih =>
    cases Y with
    | nil =>
      simp [lcpLen]
    | cons y ys =>
      by_cases h : x = y
      · subst h
        simp [lcpLen, ih]
      · constructor
        · intro hl
          simp [lcpLen, h] at hl
        · intro hp
          exact absurd (List.cons_prefix_cons.mp hp).1 h

/-- Appending the directory sentinel `""` to both sides does not change
`lcpLen`, when the lists differ and have no empty pieces. -/
theorem lcpLen_concat {X Y : List Str} (hX : ∀ s ∈ X, s ≠ [])
    (hY : ∀ s ∈ Y, s ≠ []) (hne : X ≠ Y) :
    lcpLen (X ++ [([] : Str)]) (Y ++ [([] : Str)]) = lcpLen X Y := by
  induction X generalizing Y with
  | nil =>
    cases Y with
    | nil => exact absurd rfl hne
    | cons y ys =>
      have : y ≠ [] := hY y (by simp)
      simp [lcpLen, Ne.symm this]
  | cons x xs ih =>
    cases Y with
    | nil =>
      have : x ≠ [] := hX x (by simp)
      simp [lcpLen, this]
    | cons y ys =>
      by_cases h : x = y
      · subst h
        have hne' : xs ≠ ys := by
          intro h
          exact hne (by rw [h])
        rw [List.cons_append, List.cons_append, lcpLen_cons_same, lcpLen_cons_same]
        rw [ih (fun s hs => hX s (by simp [hs])) (fun s hs => hY s (by simp [hs])) hne']
      · simp [lcpLen, h]

/-- Appending the directory sentinel `""` only on the right does not change
`lcpLen`, when the left list has no empty pieces. -/
theorem lcpLen_concat_right {X Y : List Str} (hX : ∀ s ∈ X, s ≠ []) :
    lcpLen X (Y ++ [([] : Str)]) = lcpLen X Y := by
  induction X generalizing Y with
  | nil => simp [lcpLen]
  | cons x xs ih =>
    cases Y with
    | nil =>
      have : x ≠ [] := hX x (by simp)
      simp [lcpLen, this]
    | cons y ys =>
      by_cases h : x = y
      · subst h
        rw [List.cons_append, lcpLen_cons_same, lcpLen_cons_same]
        rw [ih (fun s hs => hX s (by simp [hs]))]
      · simp [lcpLen, h]

/-- `"../" * g` followed by a joined tail is the join of `".."` pieces and
the tail. -/
theorem flatten_dots_join {g : Nat} {D : List Str} (hD : D ≠ []) :
    (List.replicate g (['.', '.', '/'] : Str)).flatten ++ join '/' D =
      join '/' (List.replicate g (['.', '.'] : Str) ++ D) := by
  induction g with
  | zero => simp
  | succ n ih =>
    have hne : List.replicate n (['.', '.'] : Str) ++ D ≠ [] := by simp [hD]
    rw [List.replicate_succ, List.replicate_succ, List.cons_append,
      join_cons_eq '/' ['.', '.'] _ hne, List.flatten_cons, List.append_assoc, ih]
    rfl

/-- `segsPath` is injective in the pieces-and-flag pair. -/
theorem segsPath_inj {S S' : List Str} {d d' : Bool} (hS : cleanSegs S)
    (hS' : cleanSegs S') (hne : d = true ∨ S ≠ []) (hne' : d' = true ∨ S' ≠ [])
    (h : segsPath S d = segsPath S' d') : S = S' ∧ d = d' := by
  have hsplit := congrArg (fun s => split s '/') h
  simp only [split_segsPath hS hne, split_segsPath hS' hne'] at hsplit
  have htail : S ++ (if d then [[]] else []) = S' ++ (if d' then [[]] else []) := by
    simpa using hsplit
  cases d with
  | false =>
    cases d' with
    | false =>
      simp only [Bool.false_eq_true, if_false, List.append_nil] at htail
      exact ⟨htail, rfl⟩
    | true =>
      exfalso
      simp only [Bool.false_eq_true, if_false, if_true, List.append_nil] at htail
      exact goodSeg_ne_nil (hS [] (by rw [htail]; simp)) rfl
  | true =>
    cases d' with
    | false =>
      exfalso
      simp only [Bool.false_eq_true, if_false, if_true, List.append_nil] at htail
      exact goodSeg_ne_nil (hS' [] (by rw [← htail]; simp)) rfl
    | true =>
      simp only [if_true] at htail
      exact ⟨by simpa using htail, rfl⟩

end StillWeb.UrlProofs

namespace StillWeb.UrlProofs

open PyStr PyUrllib SwUrllib

/-- `join` across a trailing element. -/
theorem join_concat {c : Char} {M : List Str} (l : Str) (hM : M ≠ []) :
    join c (M ++ [l]) = join c M ++ c :: l := by
  induction M with
  | nil => exact absurd rfl hM
  | cons x xs ih =>
    cases hxs : xs with
    | nil => subst hxs; simp [join]
    | cons y ys =>
      subst hxs
      rw [List.cons_append, join_cons_eq c x _ (by simp),
        join_cons_eq c x _ (by simp), ih (by simp)]
      simp

/-- `join` with the directory sentinel appends a trailing slash. -/
theorem join_concat_nil {T : List Str} (hT : T ≠ []) :
    join '/' (T ++ [([] : Str)]) = join '/' T ++ ['/'] := by
  rw [join_concat _ hT]

/-- A good segment is not a dot segment. -/
theorem goodSeg_not_dot {s : Str} (h : goodSeg s = true) :
    s ≠ ['.'] ∧ s ≠ ['.', '.'] := by
  simp only [goodSeg, Bool.and_eq_true, decide_eq_true_eq] at h
  exact ⟨h.1.2, h.2⟩

/-- The reverse of a good segment followed by anything is never prefixed by
`/`, `./` or `../` (so paths ending in a good segment never end in `/`,
`/.` or `/..`). -/
theorem dotSuffix_false {ls rest : Str} (hls : goodSeg ls = true) :
    (['/'] : Str).isPrefixOf (ls.reverse ++ rest) = false ∧
    (['.', '/'] : Str).isPrefixOf (ls.reverse ++ rest) = false ∧
    (['.', '.', '/'] : Str).isPrefixOf (ls.reverse ++ rest) = false := by
  have hne : ls ≠ [] := goodSeg_ne_nil hls
  have hchars : ∀ c ∈ ls, goodSegChar c = true := goodSeg_chars hls
  have hslash : ∀ c ∈ ls, c ≠ '/' := fun c hc =>
    (goodChar_ordinary (.inr (hchars c hc))).2.2.2.1
  have hdots := goodSeg_not_dot hls
  cases hrev : ls.reverse with
  | nil => exact absurd (by simpa using congrArg List.reverse hrev) hne
  | cons d1 rest1 =>
    have hd1 : d1 ∈ ls := by
      have : d1 ∈ ls.reverse := by rw [hrev]; simp
      simpa using this
    have hd1s : d1 ≠ '/' := hslash d1 hd1
    refine ⟨by simp [List.isPrefixOf, Ne.symm hd1s], ?_, ?_⟩
    · by_cases hd1d : d1 = '.'
      · subst hd1d
        cases hrest1 : rest1 with
        | nil =>
          exfalso
          rw [hrest1] at hrev
          have : ls = ['.'] := by simpa using congrArg List.reverse hrev
          exact hdots.1 this
        | cons d2 rest2 =>
          have hd2 : d2 ∈ ls := by
            have : d2 ∈ ls.reverse := by rw [hrev, hrest1]; simp
            simpa using this
          simp [List.isPrefixOf, Ne.symm (hslash d2 hd2)]
      · simp [List.isPrefixOf, Ne.symm hd1d]
    · by_cases hd1d : d1 = '.'
      · subst hd1d
        cases hrest1 : rest1 with
        | nil =>
          exfalso
          rw [hrest1] at hrev
          have : ls = ['.'] := by simpa using congrArg List.reverse hrev
          exact hdots.1 this
        | cons d2 rest2 =>
          by_cases hd2d : d2 = '.'
          · subst hd2d
            cases hrest2 : rest2 with
            | nil =>
              exfalso
              rw [hrest1, hrest2] at hrev
              have : ls = ['.', '.'] := by simpa using congrArg List.reverse hrev
              exact hdots.2 this
            | cons d3 rest3 =>
              have hd3 : d3 ∈ ls := by
                have : d3 ∈ ls.reverse := by rw [hrev, hrest1, hrest2]; simp
                simpa using this
              simp [List.isPrefixOf, Ne.symm (hslash d3 hd3)]
          · simp [List.isPrefixOf, Ne.symm hd2d]
      · simp [List.isPrefixOf, Ne.symm hd1d]

/-- The reverse of the join of clean segments starts with a good character. -/
theorem reverse_join_good {T : List Str} (hT : cleanSegs T) (hne : T ≠ []) :
    ∃ d ds, (join '/' T).reverse = d :: ds ∧ goodSegChar d = true := by
  obtain ⟨M, ls, rfl⟩ := (List.eq_nil_or_concat' T).resolve_left hne
  have hls : goodSeg ls = true := hT ls (by simp)
  obtain ⟨d, ds, hrev⟩ : ∃ d ds, ls.reverse = d :: ds := by
    cases hr : ls.reverse with
    | nil => exact absurd (by simpa using congrArg List.reverse hr) (goodSeg_ne_nil hls)
    | cons d ds => exact ⟨d, ds, rfl⟩
  have hd : d ∈ ls := by
    have : d ∈ ls.reverse := by rw [hrev]; simp
    simpa using this
  cases hM : M with
  | nil =>
    subst hM
    exact ⟨d, ds, by simpa [join] using hrev, goodSeg_chars hls d hd⟩
  | cons m ms =>
    subst hM
    rw [join_concat _ (by simp)]
    refine ⟨d, ds ++ ('/' :: (join '/' (m :: ms)).reverse), ?_,
      goodSeg_chars hls d hd⟩
    rw [show join '/' (m :: ms) ++ '/' :: ls = join '/' (m :: ms) ++ (['/'] ++ ls)
      from by simp, ← List.append_assoc, List.reverse_append, hrev]
    simp

/-- Stripping slashes from a constructed path leaves the joined segments. -/
theorem stripChar_segsPath {T : List Str} {dir : Bool} (hT : cleanSegs T) :
    stripChar (segsPath T dir) '/' = join '/' T := by
  cases hTe : T with
  | nil =>
    subst hTe
    cases dir <;> rfl
  | cons t0 ts =>
    subst hTe
    have hne : t0 :: ts ≠ [] := by simp
    obtain ⟨c0, cs, rfl⟩ : ∃ c0 cs, t0 = c0 :: cs := by
      have := goodSeg_ne_nil (hT t0 (by simp))
      cases t0 with
      | nil => exact absurd rfl this
      | cons c0 cs => exact ⟨c0, cs, rfl⟩
    have hc0 : goodSegChar c0 = true :=
      goodSeg_chars (hT (c0 :: cs) (by simp)) c0 (by simp)
    have hc0s : c0 ≠ '/' := (goodChar_ordinary (.inr hc0)).2.2.2.1
    have hX : ∃ X, join '/' (((c0 :: cs) :: ts) ++ (if dir then [[]] else []))
        = c0 :: (cs ++ X) := by
      cases hrest : ts ++ (if dir then [[]] else []) with
      | nil =>
        refine ⟨[], ?_⟩
        rw [List.cons_append, hrest]
        simp [join]
      | cons r rs =>
        refine ⟨'/' :: join '/' (ts ++ (if dir then [[]] else [])), ?_⟩
        rw [List.cons_append, join_cons_eq _ _ _ (by simp [hrest])]
        simp
    obtain ⟨X, hX⟩ := hX
    obtain ⟨d, ds, hdrev, hdgood⟩ :=
      reverse_join_good (T := (c0 :: cs) :: ts) hT hne
    have hds : d ≠ '/' := (goodChar_ordinary (.inr hdgood)).2.2.2.1
    unfold stripChar segsPath
    rw [show List.dropWhile (fun x => decide (x = '/'))
          ('/' :: join '/' (((c0 :: cs) :: ts) ++ (if dir then [[]] else [])))
        = join '/' (((c0 :: cs) :: ts) ++ (if dir then [[]] else [])) from by
      rw [hX]
      simp [List.dropWhile_cons, hc0s]]
    cases dir with
    | false =>
      rw [show ((c0 :: cs) :: ts) ++ (if false then [[]] else [])
          = (c0 :: cs) :: ts from by simp]
      rw [hdrev, List.dropWhile_cons, if_neg (by simp [hds]), ← hdrev,
        List.reverse_reverse]
    | true =>
      rw [show ((c0 :: cs) :: ts) ++ (if true then [[]] else [])
          = ((c0 :: cs) :: ts) ++ [[]] from by simp]
      rw [join_concat_nil hne,
        show (join '/' ((c0 :: cs) :: ts) ++ ['/']).reverse
          = '/' :: (join '/' ((c0 :: cs) :: ts)).reverse from by simp,
        List.dropWhile_cons, if_pos (by simp), hdrev, List.dropWhile_cons,
        if_neg (by simp [hds]), ← hdrev, List.reverse_reverse]

/-- Constructed paths start with a slash. -/
theorem startswith_segsPath (T : List Str) (dir : Bool) :
    startswith (segsPath T dir) ['/'] = true := by
  simp [startswith, segsPath, List.isPrefixOf]

/-- Constructed directory paths end with a slash. -/
theorem endswith_segsPath_dir {T : List Str} (hT : cleanSegs T) :
    endswith (segsPath T true) ['/'] = true := by
  cases hTe : T with
  | nil => rfl
  | cons t0 ts =>
    subst hTe
    unfold endswith segsPath
    rw [List.isSuffixOf]
    rw [show (if true then [[]] else []) = [([] : Str)] from rfl,
      join_concat_nil (by simp)]
    rw [show ('/' :: (join '/' (t0 :: ts) ++ ['/'])) =
      ('/' :: join '/' (t0 :: ts)) ++ ['/'] from by simp]
    rw [List.reverse_append]
    simp [List.isPrefixOf]

/-- Constructed file paths do not end in `/`, `/.` or `/..`. -/
theorem endswith_segsPath_file {T : List Str} (hT : cleanSegs T) (hne : T ≠ []) :
    endswith (segsPath T false) ['/'] = false ∧
    endswith (segsPath T false) ['/', '.'] = false ∧
    endswith (segsPath T false) ['/', '.', '.'] = false := by
  obtain ⟨M, ls, rfl⟩ := (List.eq_nil_or_concat' T).resolve_left hne
  have hls : goodSeg ls = true := hT ls (by simp)
  have hY : ∃ Y, (segsPath (M ++ [ls]) false).reverse = ls.reverse ++ Y := by
    unfold segsPath
    rw [show (if false then [[]] else []) = ([] : List Str) from rfl,
      List.append_nil]
    cases hM : M with
    | nil =>
      subst hM
      refine ⟨['/'], ?_⟩
      simp [join]
    | cons m ms =>
      subst hM
      rw [join_concat _ (by simp)]
      refine ⟨'/' :: ((join '/' (m :: ms)).reverse ++ ['/']), ?_⟩
      simp
  obtain ⟨Y, hY⟩ := hY
  have hd := @dotSuffix_false _ Y hls
  unfold endswith
  rw [List.isSuffixOf, List.isSuffixOf, List.isSuffixOf, hY]
  exact ⟨hd.1, hd.2.1, hd.2.2⟩

/-- `rdsLoop` keeps clean segments untouched. -/
theorem rdsLoop_clean {T : List Str} (hT : cleanSegs T) : rdsLoop T = (T, 0) := by
  induction T with
  | nil => rfl
  | cons t ts ih =>
    have ht := hT t (by simp)
    have h1 : t ≠ [] := goodSeg_ne_nil ht
    have h2 := goodSeg_not_dot ht
    have ihe := ih (fun s hs => hT s (by simp [hs]))
    simp [rdsLoop, ihe, h1, h2.1, h2.2]

end StillWeb.UrlProofs

namespace StillWeb.UrlProofs

open PyStr PyUrllib SwUrllib

/-- `remove_dot_segments` is the identity on clean constructed URLs. -/
theorem rds_clean {h : Str} {T : List Str} {dir : Bool} (hh : goodHost h = true)
    (hT : cleanSegs T) (hne : dir = true ∨ T ≠ []) :
    remove_dot_segments (mkAbs h (segsPath T dir)) =
      .ok (mkAbs h (segsPath T dir)) := by
  have hp := urlparse_mkAbs (h := h) (p := segsPath T dir) [] hh (pathOk_segsPath hT)
  have hhne : h ≠ [] := by
    simp only [goodHost, Bool.and_eq_true] at hh
    simpa using hh.1
  unfold remove_dot_segments
  rw [hp]
  simp only [Except.bind, pure, Except.pure, bind]
  rw [stripChar_segsPath hT]
  rcases List.eq_nil_or_concat' T with rfl | ⟨M, ls, rfl⟩
  · -- T = [], so dir = true and the path is the root `/`
    have hdir : dir = true := by
      rcases hne with h1 | h1
      · exact h1
      · exact absurd rfl h1
    subst hdir
    rw [show split (join '/' ([] : List Str)) '/' = [[]] from rfl]
    rw [show rdsLoop [[]] = ([], 0) from rfl]
    rw [show startswith (segsPath [] true) ['/'] = true from rfl]
    rw [show endswith (segsPath [] true) ['/'] = true from rfl]
    simp only [Bool.true_or, if_true]
    rw [show join '/' ([([] : Str)] ++ [[]]) = segsPath [] true from rfl]
    rw [urlunparse_netloc hhne]
    simp [segsPath]
  · -- T = M ++ [ls] is nonempty
    have hTne : M ++ [ls] ≠ [] := by simp
    have hslash : ∀ s ∈ M ++ [ls], ∀ c ∈ s, c ≠ '/' := fun s hs c hc =>
      (goodChar_ordinary (.inr (goodSeg_chars (hT s hs) c hc))).2.2.2.1
    rw [split_join hTne hslash, rdsLoop_clean hT]
    rw [startswith_segsPath]
    simp only [if_true]
    cases dir with
    | true =>
      rw [endswith_segsPath_dir hT]
      simp only [Bool.true_or, if_true]
      rw [show (([] : Str) :: (M ++ [ls])) ++ [[]] = [] :: ((M ++ [ls]) ++ [[]])
        from by simp]
      rw [join_cons_eq _ _ _ (by simp)]
      rw [show ([] : Str) ++ '/' :: join '/' ((M ++ [ls]) ++ [[]])
          = segsPath (M ++ [ls]) true from by simp [segsPath]]
      rw [urlunparse_netloc hhne]
      simp [segsPath]
    | false =>
      have he := endswith_segsPath_file hT hTne
      rw [he.1, he.2.1, he.2.2]
      simp only [Bool.or_false, Bool.false_eq_true, if_false]
      rw [join_cons_eq _ _ _ hTne]
      rw [show ([] : Str) ++ '/' :: join '/' (M ++ [ls])
          = segsPath (M ++ [ls]) false from by simp [segsPath]]
      rw [urlunparse_netloc hhne]
      simp [segsPath]

end StillWeb.UrlProofs

namespace StillWeb.UrlProofs

open PyStr PyUrllib SwUrllib

/-- `urlsplit` of a path-absolute reference (starts with `/` but not `//`)
under a `http` default scheme. -/
theorem urlsplit_pathAbs {p : Str} (hp : pathOk p) (h2 : p.take 2 ≠ ['/', '/']) :
    urlsplit p "http".toList true = .ok ⟨"http".toList, [], p, [], []⟩ := by
  obtain ⟨h1, hch⟩ := hp
  have hne : p ≠ [] := by
    intro hcon
    rw [hcon] at h1
    simp at h1
  have hordR : ∀ c ∈ p, c = '/' ∨ (isUnsafeUrlChar c = false ∧
      isC0ControlOrSpace c = false ∧ c.toNat ≤ 0x7f ∧ c ≠ '/' ∧ c ≠ ':'
      ∧ c ≠ '?' ∧ c ≠ '#' ∧ c ≠ ';' ∧ c ≠ '[' ∧ c ≠ ']') := by
    intro c hc
    rcases hch c hc with hx | hx
    · exact .inl hx
    · exact .inr (goodChar_ordinary (.inr hx))
  have e1 : lstripWhen p isC0ControlOrSpace = p := by
    cases p with
    | nil => rfl
    | cons c cs =>
      have hc : c = '/' := by simpa using congrArg (fun l => l.head?) h1
      subst hc
      simp [lstripWhen, List.dropWhile_cons,
        show isC0ControlOrSpace '/' = false from by decide]
  have e2 : p.filter (fun c => !isUnsafeUrlChar c) = p := by
    apply List.filter_eq_self.mpr
    intro a ha
    rcases hordR a ha with rfl | hx
    · decide
    · simp [hx.1]
  have e3 : find p ':' = -1 := by
    apply findAux_eq_neg_one
    intro x hx
    rcases hordR x hx with rfl | hx'
    · decide
    · exact hx'.2.2.2.2.1
  have e5 : hasChar p '#' = false := by
    apply hasChar_eq_false
    intro c hc
    rcases hordR c hc with rfl | hx
    · decide
    · exact hx.2.2.2.2.2.2.1
  have e6 : hasChar p '?' = false := by
    apply hasChar_eq_false
    intro c hc
    rcases hordR c hc with rfl | hx
    · decide
    · exact hx.2.2.2.2.2.1
  unfold urlsplit
  rw [e1]
  simp +decide [e2, e3, h2, e5, e6, checknetloc]

/-- `urlparse` of a path-absolute reference. -/
theorem urlparse_pathAbs {p : Str} (hp : pathOk p) (h2 : p.take 2 ≠ ['/', '/']) :
    urlparse p "http".toList true = .ok ⟨"http".toList, [], p, [], [], []⟩ := by
  have hsemi : hasChar p ';' = false := by
    apply hasChar_eq_false
    intro c hc
    rcases hp.2 c hc with rfl | hx
    · decide
    · exact (goodChar_ordinary (.inr hx)).2.2.2.2.2.2.2.1
  unfold urlparse
  rw [urlsplit_pathAbs hp h2]
  simp [hsemi]

/-- A constructed path never starts with `//`. -/
theorem segsPath_take2 {T : List Str} {dir : Bool} (hT : cleanSegs T) :
    (segsPath T dir).take 2 ≠ ['/', '/'] := by
  cases T with
  | nil =>
    cases dir with
    | false => simp [segsPath, join]
    | true =>
      rw [show segsPath [] true = ['/'] from rfl]
      simp
  | cons t0 ts =>
    obtain ⟨c0, cs, rfl⟩ : ∃ c0 cs, t0 = c0 :: cs := by
      have := goodSeg_ne_nil (hT t0 (by simp))
      cases t0 with
      | nil => exact absurd rfl this
      | cons c0 cs => exact ⟨c0, cs, rfl⟩
    have hc0 : goodSegChar c0 = true :=
      goodSeg_chars (hT (c0 :: cs) (by simp)) c0 (by simp)
    have hc0s : c0 ≠ '/' := (goodChar_ordinary (.inr hc0)).2.2.2.1
    unfold segsPath
    cases hrest : ts ++ (if dir then [[]] else []) with
    | nil =>
      rw [List.cons_append, hrest]
      simp [join, hc0s]
    | cons r rs =>
      rw [List.cons_append, join_cons_eq _ _ _ (by simp [hrest])]
      simp [hc0s]

/-- `urljoin` of a clean absolute base URL and a path-absolute reference
replaces the whole path. -/
theorem urljoin_absPathRef {h bp : Str} {T : List Str} {dir : Bool}
    (hh : goodHost h = true) (hbp : pathOk bp) (hT : cleanSegs T)
    (hne : dir = true ∨ T ≠ []) :
    urljoin (mkAbs h bp) (segsPath T dir) true = .ok (mkAbs h (segsPath T dir)) := by
  have hhne : h ≠ [] := by
    simp only [goodHost, Bool.and_eq_true] at hh
    simpa using hh.1
  have hbne : mkAbs h bp ≠ [] := by simp [mkAbs]
  have hune : segsPath T dir ≠ [] := by simp [segsPath]
  have hb : urlparse (mkAbs h bp) [] true =
      .ok ⟨"http".toList, h, bp, [], [], []⟩ := urlparse_mkAbs [] hh hbp
  have hu : urlparse (segsPath T dir) "http".toList true =
      .ok ⟨"http".toList, [], segsPath T dir, [], [], []⟩ :=
    urlparse_pathAbs (pathOk_segsPath hT) (segsPath_take2 hT)
  unfold urljoin
  rw [if_neg (by simpa using hbne), if_neg (by simpa using hune)]
  rw [hb]
  simp only [Except.bind, pure, Except.pure, bind]
  rw [hu]
  simp only [Except.bind, pure, Except.pure, bind]
  rw [if_neg (show ¬((decide ("http".toList ≠ "http".toList)
      || !uses_relative.contains "http".toList) = true) from by decide)]
  rw [if_pos (show uses_netloc.contains "http".toList = true from by decide)]
  rw [if_neg (show ¬((!(([] : Str)).isEmpty) = true) from by decide)]
  rw [if_neg (show ¬(((segsPath T dir).isEmpty && (([] : Str)).isEmpty) = true)
    from by simp [List.isEmpty_eq_false.mpr hune])]
  rw [if_pos (show (segsPath T dir).take 1 = ['/'] from (pathOk_segsPath hT).1)]
  rw [split_segsPath hT hne]
  have htlne : T ++ (if dir then [[]] else []) ≠ [] := by
    rcases hne with rfl | hTne
    · simp
    · simp [hTne]
  rw [resolveSegs_eq_foldl, List.foldl_cons]
  rw [show rstep [] [] = [[]] from rfl]
  rw [foldl_rstep_push (by
    intro s hs
    rcases List.mem_append.mp hs with hs | hs
    · exact goodSeg_not_dot (hT s hs)
    · cases dir with
      | true =>
        simp only [if_true, List.mem_singleton] at hs
        subst hs
        exact ⟨by simp, by simp⟩
      | false => simp at hs) _]
  have hlast : ((([] : Str) :: (T ++ (if dir then [[]] else []))).getLast?)
      = (T ++ (if dir then [[]] else [])).getLast? := by
    rw [show (([] : Str) :: (T ++ (if dir then [[]] else [])))
        = [([] : Str)] ++ (T ++ (if dir then [[]] else [])) from rfl]
    rw [List.getLast?_append_of_ne_nil _ htlne]
  have hlastv : (T ++ (if dir then [[]] else [])).getLast? ≠ some ['.'] ∧
      (T ++ (if dir then [[]] else [])).getLast? ≠ some ['.', '.'] := by
    cases dir with
    | true =>
      simp only [if_true]
      rw [List.getLast?_concat]
      exact ⟨by simp, by simp⟩
    | false =>
      simp only [Bool.false_eq_true, if_false, List.append_nil]
      rcases hne with h1 | hTne
      · simp at h1
      obtain ⟨M, ls, rfl⟩ := (List.eq_nil_or_concat' T).resolve_left hTne
      rw [List.getLast?_concat]
      have hdot := goodSeg_not_dot (hT ls (by simp))
      exact ⟨by simp [hdot.1], by simp [hdot.2]⟩
  rw [if_neg (show ¬((decide ((([] : Str) :: (T ++ (if dir then [[]] else []))).getLast?
        = some ['.'])
      || decide ((([] : Str) :: (T ++ (if dir then [[]] else []))).getLast?
        = some ['.', '.'])) = true) from by
    rw [hlast]
    simp only [Bool.or_eq_true, decide_eq_true_eq]
    rintro (hc | hc)
    · exact hlastv.1 hc
    · exact hlastv.2 hc)]
  have hjoin : join '/' (([([] : Str)] : List Str) ++ (T ++ (if dir then [[]] else [])))
      = segsPath T dir := by
    rw [show ([([] : Str)] : List Str) ++ (T ++ (if dir then [[]] else []))
        = ([] : Str) :: (T ++ (if dir then [[]] else [])) from by simp]
    rw [join_cons_eq _ _ _ htlne]
    simp [segsPath]
  rw [hjoin]
  rw [if_neg (show ¬((segsPath T dir).isEmpty = true) from by
    simp [segsPath])]
  exact congrArg Except.ok (urlunparse_mkAbs hhne (pathOk_segsPath hT).1)

end StillWeb.UrlProofs

namespace StillWeb.UrlProofs

open PyStr PyUrllib SwUrllib

/-- `rfc3986_urljoin` of a clean base and a clean absolute URL. -/
theorem rfc3986_urljoin_absUrl {h bp h2 : Str} {T : List Str} {dir : Bool}
    (hh : goodHost h = true) (hbp : pathOk bp) (hh2 : goodHost h2 = true)
    (hT : cleanSegs T) (hne : dir = true ∨ T ≠ []) :
    rfc3986_urljoin (mkAbs h bp) (mkAbs h2 (segsPath T dir)) true =
      .ok (mkAbs h2 (segsPath T dir)) := by
  unfold rfc3986_urljoin
  rw [urljoin_absUrl hh hbp hh2 (pathOk_segsPath hT)]
  simp only [Except.bind, pure, Except.pure, bind]
  exact rds_clean hh2 hT hne

/-- `rfc3986_urljoin` of a clean base and a clean path-absolute reference. -/
theorem rfc3986_urljoin_absPathRef {h bp : Str} {T : List Str} {dir : Bool}
    (hh : goodHost h = true) (hbp : pathOk bp) (hT : cleanSegs T)
    (hne : dir = true ∨ T ≠ []) :
    rfc3986_urljoin (mkAbs h bp) (segsPath T dir) true =
      .ok (mkAbs h (segsPath T dir)) := by
  unfold rfc3986_urljoin
  rw [urljoin_absPathRef hh hbp hT hne]
  simp only [Except.bind, pure, Except.pure, bind]
  exact rds_clean hh hT hne

/-- In a clean piece list with directory sentinel, a tail either is empty,
starts with a good segment, or is exactly the sentinel. -/
theorem drop_tail_head {T : List Str} {tdir : Bool} (k : Nat) (hT : cleanSegs T) :
    (T ++ (if tdir then [[]] else [])).drop k = [] ∨
    (∃ x rest, (T ++ (if tdir then [[]] else [])).drop k = x :: rest ∧
      goodSeg x = true) ∨
    (T ++ (if tdir then [[]] else [])).drop k = [([] : Str)] := by
  cases hd : (T ++ (if tdir then [[]] else [])).drop k with
  | nil => exact .inl rfl
  | cons x rest =>
    have hsuf : x :: rest <:+ (T ++ (if tdir then [[]] else [])) := by
      rw [← hd]
      exact List.drop_suffix k _
    by_cases hx : goodSeg x = true
    · exact .inr (.inl ⟨x, rest, rfl, hx⟩)
    · -- x must be the sentinel, and nothing may follow it
      have hxmem : x ∈ T ++ (if tdir then [[]] else []) :=
        hsuf.subset (by simp)
      have hxnil : x = [] := by
        rcases List.mem_append.mp hxmem with hm | hm
        · exact absurd (hT x hm) hx
        · cases tdir with
          | true => simpa using hm
          | false => simp at hm
      subst hxnil
      cases tdir with
      | false =>
        exfalso
        simp only [Bool.false_eq_true, if_false, List.append_nil] at hxmem
        exact goodSeg_ne_nil (hT [] hxmem) rfl
      | true =>
        right; right
        cases hrest : rest with
        | nil => rfl
        | cons r0 rs =>
          exfalso
          obtain ⟨U, hU⟩ := hsuf
          rw [hrest] at hU
          -- U ++ [] :: r0 :: rs = T ++ [[]]; drop the last element of both
          obtain ⟨rs0, rl, hrs⟩ : ∃ rs0 rl, ([] : Str) :: r0 :: rs = rs0 ++ [rl] := by
            rcases List.eq_nil_or_concat' (([] : Str) :: r0 :: rs) with hcon | ⟨a, b, hab⟩
            · simp at hcon
            · exact ⟨a, b, hab⟩
          rw [hrs, ← List.append_assoc] at hU
          have hdl := congrArg List.dropLast hU
          rw [List.dropLast_concat, if_pos rfl, List.dropLast_concat] at hdl
          have : ([] : Str) ∈ T := by
            rw [← hdl]
            have : ([] : Str) ∈ rs0 := by
              cases hrs0 : rs0 with
              | nil =>
                rw [hrs0] at hrs
                simp at hrs
              | cons a as =>
                rw [hrs0] at hrs
                have ha : ([] : Str) = a := by
                  have := congrArg List.head? hrs
                  simpa using this
                rw [← ha]
                simp
            simp [this]
          exact goodSeg_ne_nil (hT [] this) rfl

/-- The relative path computed by `relative_url`'s deepest-common-parent
arithmetic, on split path piece lists (without their leading empty piece). -/
def relString (Tl Bl : List Str) : Str :=
  let k := lcpLen Tl Bl
  let go_up : Int := (Bl.length : Int) - (k : Int) - 1
  let r := (if 0 < go_up then
      (List.replicate go_up.toNat (['.', '.', '/'] : Str)).flatten else [])
    ++ join '/' (Tl.drop k)
  if r.isEmpty then ['.', '/'] else r

end StillWeb.UrlProofs

namespace StillWeb.UrlProofs

open PyStr PyUrllib SwUrllib

/-- The join of a clean tail is empty or starts with a good character. -/
theorem join_drop_clean {T : List Str} {tdir : Bool} (k : Nat) (hT : cleanSegs T) :
    join '/' ((T ++ (if tdir then [[]] else [])).drop k) = [] ∨
    ∃ c cs, join '/' ((T ++ (if tdir then [[]] else [])).drop k) = c :: cs ∧
      goodSegChar c = true := by
  rcases @drop_tail_head T tdir k hT with hdrop | ⟨x, rest, hdrop, hxgood⟩ | hdrop
  · rw [hdrop]
    exact .inl rfl
  · rw [hdrop]
    obtain ⟨c, cs', rfl⟩ : ∃ c cs', x = c :: cs' := by
      cases x with
      | nil => exact absurd rfl (goodSeg_ne_nil hxgood)
      | cons c cs' => exact ⟨c, cs', rfl⟩
    have hc : goodSegChar c = true := goodSeg_chars hxgood c (by simp)
    cases rest with
    | nil => exact .inr ⟨c, cs', by simp [join], hc⟩
    | cons r rs =>
      rw [join_cons_eq _ _ _ (by simp)]
      exact .inr ⟨c, cs' ++ '/' :: join '/' (r :: rs), by simp, hc⟩
  · rw [hdrop]
    exact .inl rfl

/-- The computed relative path never starts with `//`. -/
theorem relString_take2 {T B : List Str} {tdir bdir : Bool} (hT : cleanSegs T) :
    (relString (T ++ (if tdir then [[]] else []))
      (B ++ (if bdir then [[]] else []))).take 2 ≠ ['/', '/'] := by
  unfold relString
  dsimp only
  by_cases hgp : 0 < ((B ++ (if bdir then [[]] else [])).length : Int)
      - (lcpLen (T ++ (if tdir then [[]] else [])) (B ++ (if bdir then [[]] else [])) : Int)
      - 1
  · rw [if_pos hgp]
    obtain ⟨n, hn⟩ : ∃ n, (((B ++ (if bdir then [[]] else [])).length : Int)
        - (lcpLen (T ++ (if tdir then [[]] else []))
            (B ++ (if bdir then [[]] else [])) : Int) - 1).toNat = n + 1 := by
      refine ⟨(((B ++ (if bdir then [[]] else [])).length : Int)
        - (lcpLen (T ++ (if tdir then [[]] else []))
            (B ++ (if bdir then [[]] else [])) : Int) - 1).toNat - 1, ?_⟩
      omega
    rw [hn, List.replicate_succ, List.flatten_cons]
    simp
  · rw [if_neg hgp]
    simp only [List.nil_append]
    rcases @join_drop_clean T tdir
        (lcpLen (T ++ (if tdir then [[]] else [])) (B ++ (if bdir then [[]] else []))) hT
      with hj | ⟨c, cs, hj, hc⟩
    · rw [hj]
      decide
    · rw [hj]
      have hcs : c ≠ '/' := (goodChar_ordinary (.inr hc)).2.2.2.1
      rw [if_neg (by simp)]
      intro hcon
      have : c = '/' := by simpa using congrArg (fun l => l.head?) hcon
      exact hcs this

end StillWeb.UrlProofs

namespace StillWeb.UrlProofs

open PyStr PyUrllib SwUrllib

/-- `relative_url` on two clean same-host URLs with distinct paths runs the
deepest-common-parent arithmetic and returns `relString`. -/
theorem relative_url_diff {h : Str} {T B : List Str} {tdir bdir : Bool}
    (hh : goodHost h = true) (hT : cleanSegs T) (hB : cleanSegs B)
    (htne : tdir = true ∨ T ≠ []) (hbne : bdir = true ∨ B ≠ [])
    (hne : T ++ (if tdir then [[]] else []) ≠ B ++ (if bdir then [[]] else [])) :
    relative_url (mkAbs h (segsPath T tdir)) (mkAbs h (segsPath B bdir)) false false
      = .ok (relString (T ++ (if tdir then [[]] else []))
          (B ++ (if bdir then [[]] else []))) := by
  have hpathne : ¬ (segsPath T tdir = segsPath B bdir) := by
    intro hcon
    obtain ⟨hSS, hdd⟩ := segsPath_inj hT hB htne hbne hcon
    exact hne (by rw [hSS, hdd])
  unfold relative_url
  rw [rfc3986_urljoin_absUrl hh (pathOk_segsPath hB) hh hT htne]
  simp only [Except.bind, pure, Except.pure, bind]
  rw [urlparse_mkAbs [] hh (pathOk_segsPath hT)]
  simp only [Except.bind, pure, Except.pure, bind]
  rw [urlparse_mkAbs [] hh (pathOk_segsPath hB)]
  simp only [Except.bind, pure, Except.pure, bind]
  dsimp only
  rw [if_neg (show ¬("http".toList ≠ "http".toList) from by simp)]
  rw [if_neg (show ¬(h ≠ h) from by simp)]
  rw [if_neg hpathne]
  rw [split_segsPath hT htne, split_segsPath hB hbne]
  simp only [List.drop_succ_cons, List.drop_zero, List.length_cons]
  simp only [Nat.cast_add, Nat.cast_one, add_sub_cancel_right]
  have hfold : Except.ok (urlunparse ⟨[], [],
      relString (T ++ (if tdir then [[]] else [])) (B ++ (if bdir then [[]] else [])),
      [], [], []⟩)
      = (Except.ok (relString (T ++ (if tdir then [[]] else []))
          (B ++ (if bdir then [[]] else []))) : Except PyErr Str) := by
    rw [urlunparse_relTuple (@relString_take2 T B tdir bdir hT)]
    simp
  exact hfold

/-- `relative_url` of a clean directory URL against itself returns `./`. -/
theorem relative_url_same_dir {h : Str} {B : List Str}
    (hh : goodHost h = true) (hB : cleanSegs B) :
    relative_url (mkAbs h (segsPath B true)) (mkAbs h (segsPath B true)) false false
      = .ok ['.', '/'] := by
  unfold relative_url
  rw [rfc3986_urljoin_absUrl hh (pathOk_segsPath hB) hh hB (.inl rfl)]
  simp only [Except.bind, pure, Except.pure, bind]
  rw [urlparse_mkAbs [] hh (pathOk_segsPath hB)]
  simp only [Except.bind, pure, Except.pure, bind]
  rw [if_neg (show ¬("http".toList ≠ "http".toList) from by simp)]
  rw [if_neg (show ¬(h ≠ h) from by simp)]
  rw [split_segsPath hB (.inl rfl)]
  rw [show ((([] : Str) :: (B ++ (if true then [[]] else []))).getLast?)
      = some [] from by
    simp only [if_true]
    rw [show (([] : Str) :: (B ++ [[]])) = (([] : Str) :: B) ++ [([] : Str)]
      from by simp, List.getLast?_concat]]
  simp [urlunparse, urlunsplit]

end StillWeb.UrlProofs

namespace StillWeb.UrlProofs

open PyStr PyUrllib SwUrllib

/-- The join of a list headed by a good segment is nonempty. -/
theorem join_ne_nil_of_good_head {x : Str} {rest : List Str}
    (hx : goodSeg x = true) : join '/' (x :: rest) ≠ [] := by
  obtain ⟨c, cs, rfl⟩ : ∃ c cs, x = c :: cs := by
    cases x with
    | nil => exact absurd rfl (goodSeg_ne_nil hx)
    | cons c cs => exact ⟨c, cs, rfl⟩
  cases rest with
  | nil => simp [join]
  | cons r rs =>
    rw [join_cons_eq _ _ _ (by simp)]
    simp

/-- `dropLast` across an append with nonempty right part. -/
theorem dropLast_append_ne {A D : List Str} (hD : D ≠ []) :
    (A ++ D).dropLast = A ++ D.dropLast := by
  obtain ⟨D0, dl, rfl⟩ := (List.eq_nil_or_concat' D).resolve_left hD
  rw [← List.append_assoc, List.dropLast_concat, List.dropLast_concat]

/-- Resolving the computed relative path against the clean directory base
recovers the clean target URL. -/
theorem resolve_relString {h : Str} {T B : List Str} {tdir : Bool}
    (hh : goodHost h = true) (hT : cleanSegs T) (hB : cleanSegs B)
    (htf : tdir = true ∨ lcpLen T B < T.length)
    (hne : T ++ (if tdir then [[]] else []) ≠ B ++ [[]]) :
    rfc3986_urljoin (mkAbs h (segsPath B true))
        (relString (T ++ (if tdir then [[]] else [])) (B ++ [[]])) true
      = .ok (mkAbs h (segsPath T tdir)) := by
  have htne : tdir = true ∨ T ≠ [] := by
    rcases htf with rfl | hlt
    · exact .inl rfl
    · right
      intro hcon
      subst hcon
      simp [lcpLen] at hlt
  have hk : lcpLen (T ++ (if tdir then [[]] else [])) (B ++ [[]]) = lcpLen T B := by
    cases tdir with
    | true =>
      simp only [if_true]
      apply lcpLen_concat (fun s hs => goodSeg_ne_nil (hT s hs))
        (fun s hs => goodSeg_ne_nil (hB s hs))
      intro hcon
      exact hne (by simp [hcon])
    | false =>
      simp only [Bool.false_eq_true, if_false, List.append_nil]
      exact lcpLen_concat_right (fun s hs => goodSeg_ne_nil (hT s hs))
  have hkT : lcpLen T B ≤ T.length := lcpLen_le_left T B
  have hkB : lcpLen T B ≤ B.length := lcpLen_le_right T B
  have hTBtake : T.take (lcpLen T B) = B.take (lcpLen T B) := lcpLen_take T B
  -- the target tail is nonempty whenever `go_up` would be zero
  have hg0drop : B.length - lcpLen T B = 0 → T.drop (lcpLen T B) ≠ [] := by
    intro hg0 hcon
    have hklenT : T.length ≤ lcpLen T B := by
      rwa [List.drop_eq_nil_iff] at hcon
    have hkTeq : lcpLen T B = T.length := le_antisymm hkT hklenT
    rcases htf with htd | hlt
    · -- directory target: k = len T and k = len B force T = B
      have hkBeq : lcpLen T B = B.length := by omega
      have hTB : T = B := by
        have h1 : T.take (lcpLen T B) = T := by
          rw [hkTeq]
          exact List.take_length ..
        have h2 : B.take (lcpLen T B) = B := by
          rw [hkBeq]
          exact List.take_length ..
        rw [← h1, hTBtake, h2]
      subst htd
      exact hne (by rw [hTB]; simp)
    · omega
  have hdropne : tdir = false → T.drop (lcpLen T B) ≠ [] := by
    intro htd hcon
    have hklenT : T.length ≤ lcpLen T B := by
      rwa [List.drop_eq_nil_iff] at hcon
    rcases htf with h1 | hlt
    · rw [htd] at h1
      simp at h1
    · omega
  have hD : (T ++ (if tdir then [[]] else [])).drop (lcpLen T B)
      = T.drop (lcpLen T B) ++ (if tdir then [[]] else []) :=
    List.drop_append_of_le_length hkT
  have hDne : T.drop (lcpLen T B) ++ (if tdir then [[]] else []) ≠ [] := by
    cases tdir with
    | true => simp
    | false =>
      simp only [Bool.false_eq_true, if_false, List.append_nil]
      exact hdropne rfl
  -- the relative string is the join of `..` pieces and the target tail
  have hr : relString (T ++ (if tdir then [[]] else [])) (B ++ [[]])
      = join '/' (List.replicate (B.length - lcpLen T B) (['.', '.'] : Str)
          ++ (T.drop (lcpLen T B) ++ (if tdir then [[]] else []))) := by
    unfold relString
    dsimp only
    rw [hk, hD]
    simp only [show (((B ++ [[]]).length : Int) - (lcpLen T B : Int) - 1)
        = ((B.length - lcpLen T B : Nat) : Int) from by
      simp only [List.length_append, List.length_cons, List.length_nil]
      omega]
    by_cases hg : 0 < B.length - lcpLen T B
    · rw [if_pos (show (0 : Int) < ((B.length - lcpLen T B : Nat) : Int) from by
        exact_mod_cast hg)]
      rw [Int.toNat_natCast]
      obtain ⟨n, hn⟩ : ∃ n, B.length - lcpLen T B = n + 1 :=
        ⟨B.length - lcpLen T B - 1, by omega⟩
      rw [hn]
      rw [flatten_dots_join hDne]
      rw [if_neg (by
        rw [List.replicate_succ, List.cons_append,
          join_cons_eq _ _ _ (by simp [hDne])]
        simp)]
    · rw [if_neg (show ¬((0 : Int) < ((B.length - lcpLen T B : Nat) : Int)) from by
        exact_mod_cast hg)]
      have hg0 : B.length - lcpLen T B = 0 := by omega
      rw [hg0, List.replicate_zero, List.nil_append, List.nil_append]
      have hdne := hg0drop hg0
      obtain ⟨x, xs, hx⟩ : ∃ x xs, T.drop (lcpLen T B) = x :: xs := by
        cases hc : T.drop (lcpLen T B) with
        | nil => exact absurd hc hdne
        | cons x xs => exact ⟨x, xs, rfl⟩
      have hxmem : x ∈ T := by
        have : x ∈ T.drop (lcpLen T B) := by rw [hx]; simp
        exact List.mem_of_mem_drop this
      have hxgood : goodSeg x = true := hT x hxmem
      rw [hx, List.cons_append]
      rw [if_neg (by
        simp only [List.isEmpty_eq_true]
        exact join_ne_nil_of_good_head hxgood)]
  rw [hr]
  -- name the relative piece list
  have hRne : List.replicate (B.length - lcpLen T B) (['.', '.'] : Str)
      ++ (T.drop (lcpLen T B) ++ (if tdir then [[]] else [])) ≠ [] := by
    simp [hDne]
  have hgoodhead : B.length - lcpLen T B = 0 →
      ∃ x xs, T.drop (lcpLen T B) = x :: xs ∧ goodSeg x = true := by
    intro hgE
    have hdne := hg0drop hgE
    obtain ⟨x, xs, hx⟩ : ∃ x xs, T.drop (lcpLen T B) = x :: xs := by
      cases hc : T.drop (lcpLen T B) with
      | nil => exact absurd hc hdne
      | cons x xs => exact ⟨x, xs, rfl⟩
    exact ⟨x, xs, hx, hT x (List.mem_of_mem_drop (by rw [hx]; simp))⟩
  have hR0 : (List.replicate (B.length - lcpLen T B) (['.', '.'] : Str)
      ++ (T.drop (lcpLen T B) ++ (if tdir then [[]] else []))).head? ≠ some [] := by
    cases hgE : B.length - lcpLen T B with
    | zero =>
      rw [List.replicate_zero, List.nil_append]
      obtain ⟨x, xs, hx, hxgood⟩ := hgoodhead hgE
      rw [hx, List.cons_append]
      simp [goodSeg_ne_nil hxgood]
    | succ n =>
      rw [List.replicate_succ, List.cons_append]
      simp
  have hRseg : ∀ s ∈ (List.replicate (B.length - lcpLen T B) (['.', '.'] : Str)
      ++ (T.drop (lcpLen T B) ++ (if tdir then [[]] else []))).dropLast, relSeg s := by
    intro s hs
    rw [dropLast_append_ne hDne] at hs
    rcases List.mem_append.mp hs with hs | hs
    · rw [List.eq_of_mem_replicate hs]
      exact .inr (.inr rfl)
    · have hsT : s ∈ T := by
        cases tdir with
        | true =>
          rw [if_pos rfl, List.dropLast_concat] at hs
          exact List.mem_of_mem_drop hs
        | false =>
          simp only [Bool.false_eq_true, if_false, List.append_nil] at hs
          exact List.mem_of_mem_drop (List.dropLast_sublist _ |>.subset hs)
      exact .inl (hT s hsT)
  have hlastq : ∃ v, (List.replicate (B.length - lcpLen T B) (['.', '.'] : Str)
      ++ (T.drop (lcpLen T B) ++ (if tdir then [[]] else []))).getLast? = some v ∧
      (goodSeg v = true ∨ v = []) := by
    rw [List.getLast?_append_of_ne_nil _ hDne]
    cases tdir with
    | true =>
      rw [if_pos rfl, List.getLast?_concat]
      exact ⟨[], rfl, .inr rfl⟩
    | false =>
      simp only [Bool.false_eq_true, if_false, List.append_nil]
      obtain ⟨M', ls', hMls⟩ :=
        (List.eq_nil_or_concat' (T.drop (lcpLen T B))).resolve_left (hdropne rfl)
      rw [hMls, List.getLast?_concat]
      refine ⟨ls', rfl, .inl (hT ls' (List.mem_of_mem_drop (by rw [hMls]; simp)))⟩
  obtain ⟨v, hv, hvgood⟩ := hlastq
  have hRlast : relSeg ((List.replicate (B.length - lcpLen T B) (['.', '.'] : Str)
      ++ (T.drop (lcpLen T B) ++ (if tdir then [[]] else []))).getLast hRne) ∨
      ((List.replicate (B.length - lcpLen T B) (['.', '.'] : Str)
      ++ (T.drop (lcpLen T B) ++ (if tdir then [[]] else []))).getLast hRne) = [] := by
    have := List.getLast?_eq_getLast _ hRne
    rw [this] at hv
    have hveq := Option.some_injective _ hv
    rw [hveq]
    rcases hvgood with h1 | h1
    · exact .inl (.inl h1)
    · exact .inr h1
  have hvnotdot : v ≠ ['.'] ∧ v ≠ ['.', '.'] := by
    rcases hvgood with h1 | h1
    · exact goodSeg_not_dot h1
    · subst h1
      exact ⟨by simp, by simp⟩
  unfold rfc3986_urljoin
  rw [urljoin_relRef hh hB (.inl rfl) hRne hR0 hRseg hRlast]
  simp only [Except.bind, pure, Except.pure, bind, hv]
  rw [show (decide ((some v : Option Str) = some ['.'])
      || decide ((some v : Option Str) = some ['.', '.'])) = false from by
    simp [hvnotdot.1, hvnotdot.2]]
  simp only [Bool.false_eq_true, if_false, List.append_nil]
  rw [resolveSegs_eq_foldl, List.foldl_cons]
  rw [show rstep [] [] = [[]] from rfl]
  rw [List.foldl_append, List.foldl_append]
  rw [show (if True then B else B.dropLast) = B from if_pos trivial]
  rw [foldl_rstep_push (fun s hs => goodSeg_not_dot (hB s hs)) [[]]]
  rw [show ([([] : Str)] : List Str) ++ B = ([] : Str) :: B from rfl]
  rw [foldl_rstep_pops (by omega)]
  rw [show B.length - (B.length - lcpLen T B) = lcpLen T B from by omega]
  rw [foldl_rstep_push (by
    intro s hs
    rcases List.mem_append.mp hs with hs | hs
    · exact goodSeg_not_dot (hT s (List.mem_of_mem_drop hs))
    · cases tdir with
      | true =>
        rw [if_pos rfl] at hs
        rw [List.mem_singleton.mp hs]
        exact ⟨by simp, by simp⟩
      | false => simp at hs) _]
  rw [← hTBtake]
  rw [show (([] : Str) :: List.take (lcpLen T B) T)
        ++ (List.drop (lcpLen T B) T ++ (if tdir then [[]] else []))
      = ([] : Str) :: (T ++ (if tdir then [[]] else [])) from by
    rw [show (([] : Str) :: List.take (lcpLen T B) T)
          ++ (List.drop (lcpLen T B) T ++ (if tdir then [[]] else []))
        = ([] : Str) :: (List.take (lcpLen T B) T
          ++ (List.drop (lcpLen T B) T ++ (if tdir then [[]] else []))) from rfl]
    rw [← List.append_assoc, List.take_append_drop]]
  have htlne : T ++ (if tdir then [[]] else []) ≠ [] := by
    rcases htne with rfl | hTne
    · simp
    · simp [hTne]
  rw [joinedPath_cons htlne]
  rw [show ('/' :: join '/' (T ++ (if tdir then [[]] else [])))
      = segsPath T tdir from rfl]
  exact rds_clean hh hT htne

end StillWeb.UrlProofs

namespace StillWeb.UrlProofs

open PyStr PyUrllib SwUrllib

/-- Resolving `./` against a clean directory base returns the base. -/
theorem resolve_dotSlash {h : Str} {B : List Str}
    (hh : goodHost h = true) (hB : cleanSegs B) :
    rfc3986_urljoin (mkAbs h (segsPath B true)) ['.', '/'] true
      = .ok (mkAbs h (segsPath B true)) := by
  rw [show (['.', '/'] : Str) = join '/' [['.'], []] from rfl]
  unfold rfc3986_urljoin
  rw [urljoin_relRef hh hB (.inl rfl) (by simp) (by simp)
    (by
      intro s hs
      rw [show ([['.'], []] : List Str).dropLast = [['.']] from rfl] at hs
      rw [List.mem_singleton.mp hs]
      exact .inr (.inl rfl))
    (.inr (by rfl))]
  simp only [Except.bind, pure, Except.pure, bind]
  rw [show (if True then B else B.dropLast) = B from if_pos trivial]
  rw [show (decide (([['.'], []] : List Str).getLast? = some ['.'])
      || decide (([['.'], []] : List Str).getLast? = some ['.', '.'])) = false
    from by decide]
  simp only [Bool.false_eq_true, if_false, List.append_nil]
  rw [resolveSegs_eq_foldl, List.foldl_cons]
  rw [show rstep [] [] = [[]] from rfl]
  rw [List.foldl_append]
  rw [foldl_rstep_push (fun s hs => goodSeg_not_dot (hB s hs)) [[]]]
  rw [show List.foldl rstep (([([] : Str)] : List Str) ++ B) [['.'], []]
      = ([] : Str) :: (B ++ [[]]) from by
    rw [show ([([] : Str)] : List Str) ++ B = ([] : Str) :: B from rfl]
    simp [rstep]]
  rw [joinedPath_cons (by simp)]
  rw [show ('/' :: join '/' (B ++ [[]])) = segsPath B true from rfl]
  exact rds_clean hh hB (.inl rfl)

end StillWeb.UrlProofs

namespace StillWeb

open PyStr PyUrllib SwUrllib UrlProofs

/-- C5 counterexample: for the target `http://a` and base `http://a/b/c/`,
resolving the relativized target against the base yields `http://a/`
(trailing slash), not `http://a`: `resolve(base, relativize(target, base))`
differs from `resolve(base, target)`. -/
theorem C5_counterexample_roundtrip :
    ((relative_url "http://a".toList "http://a/b/c/".toList false false).bind
        (fun rel => rfc3986_urljoin "http://a/b/c/".toList rel true))
      ≠ rfc3986_urljoin "http://a/b/c/".toList "http://a".toList true := by
  decide

/-- C5: relativize-then-resolve round trip.  The unrestricted claim is
false (see `C5_counterexample_roundtrip`); it holds for clean same-host
URLs whose base is a directory, provided a file target is not a proper
prefix of the base directory path (`relative_url` drops the distinction
between `/b` and `/b/` in that case). -/
theorem C5_directory_roundtrip {h : Str} {T B : List Str} {tdir : Bool}
    (hh : goodHost h = true) (hT : cleanSegs T) (hB : cleanSegs B)
    (htf : tdir = true ∨ ¬ T <+: B) :
    (relative_url (mkAbs h (segsPath T tdir)) (mkAbs h (segsPath B true))
        false false).bind
      (fun rel => rfc3986_urljoin (mkAbs h (segsPath B true)) rel true)
    = rfc3986_urljoin (mkAbs h (segsPath B true)) (mkAbs h (segsPath T tdir))
        true := by
  have htne : tdir = true ∨ T ≠ [] := by
    rcases htf with rfl | hnp
    · exact .inl rfl
    · right
      intro hcon
      subst hcon
      exact hnp (List.nil_prefix ..)
  rw [rfc3986_urljoin_absUrl hh (pathOk_segsPath hB) hh hT htne]
  by_cases heq : T ++ (if tdir then [[]] else []) = B ++ [[]]
  · -- the target is the base directory itself
    have htd : tdir = true := by
      cases tdir with
      | true => rfl
      | false =>
        exfalso
        simp only [Bool.false_eq_true, if_false, List.append_nil] at heq
        have : ([] : Str) ∈ T := by rw [heq]; simp
        exact goodSeg_ne_nil (hT [] this) rfl
    subst htd
    have hTB : T = B := by simpa using heq
    subst hTB
    rw [relative_url_same_dir hh hT]
    simp only [Except.bind]
    exact resolve_dotSlash hh hT
  · -- distinct paths: deepest-common-parent arithmetic
    have hlcp : tdir = true ∨ lcpLen T B < T.length := by
      rcases htf with rfl | hnp
      · exact .inl rfl
      · right
        have hiff := lcpLen_eq_length_iff (X := T) (Y := B)
        have hle := lcpLen_le_left T B
        rcases Nat.lt_or_ge (lcpLen T B) T.length with hlt | hge
        · exact hlt
        · exact absurd (hiff.mp (le_antisymm hle hge)) hnp
    rw [relative_url_diff hh hT hB htne (.inl rfl)
      (by simpa using heq)]
    simp only [Except.bind]
    exact resolve_relString hh hT hB hlcp heq

/-- Witness for `C5_directory_roundtrip` at `h = a`, `T = [x]` (file),
`B = [b, c]` (directory). -/
theorem C5_directory_roundtrip_witness :
    goodHost ['a'] = true ∧
    ((relative_url (mkAbs ['a'] (segsPath [['x']] false))
        (mkAbs ['a'] (segsPath [['b'], ['c']] true)) false false).bind
      (fun rel => rfc3986_urljoin (mkAbs ['a'] (segsPath [['b'], ['c']] true))
        rel true)
    = rfc3986_urljoin (mkAbs ['a'] (segsPath [['b'], ['c']] true))
        (mkAbs ['a'] (segsPath [['x']] false)) true) :=
  ⟨by decide, C5_directory_roundtrip (by decide)
    (by intro s hs; fin_cases hs <;> decide)
    (by intro s hs; fin_cases hs <;> decide)
    (.inr (by decide))⟩

end StillWeb

/-! ## `src/StillWeb/LinkRewriter.py` and `src/StillWeb/sw_util.py` -/
namespace StillWeb.LinkRw

open PyStr SwUrllib

/-- A match criterion `(element, attribute)`: each part is `None` or a
`(namespaceURI, localName)` pair whose namespace part may itself be `None`
(ignore the namespace). -/
abbrev Criterion := (Option (Option Str × Str)) × (Option (Option Str × Str))

/-- `HTML_CRITERIA`. -/
def HTML_CRITERIA : List Criterion := [
  (none,                                 some (none, "href".toList)),
  (none,                                 some (none, "src".toList)),
  (none,                                 some (none, "usemap".toList)),
  (some (none, "form".toList),           some (none, "action".toList)),
  (some (none, "img".toList),            some (none, "longdesc".toList)),
  (some (none, "q".toList),              some (none, "cite".toList)),
  (some (none, "blockquote".toList),     some (none, "cite".toList))]

/-- A DOM attribute: `(namespaceURI, localName, value)`. -/
structure Attr where
  ns : Option Str
  localName : Str
  value : Str
  deriving Repr, DecidableEq

/-- A DOM node: element (namespace, local name, attributes, children) or a
text node. -/
inductive XmlNode where
  | element (ns : Option Str) (localName : Str) (attrs : List Attr)
      (children : List XmlNode)
  | text (s : Str)
  deriving Repr

mutual

/-- Boolean equality on `XmlNode` (nested `List` blocks the derive handler). -/
def xnBeq : XmlNode → XmlNode → Bool
  | .element a b c d, .element a2 b2 c2 d2 =>
    decide (a = a2) && decide (b = b2) && decide (c = c2) && xnsBeq d d2
  | .text s, .text s2 => decide (s = s2)
  | _, _ => false

def xnsBeq : List XmlNode → List XmlNode → Bool
  | [], [] => true
  | x :: xs, y :: ys => xnBeq x y && xnsBeq xs ys
  | _, _ => false

end

mutual

/-- `xnBeq` decides equality. -/
theorem xnBeq_iff : ∀ x y : XmlNode, xnBeq x y = true ↔ x = y
  | .element a b c d, .element a2 b2 c2 d2 => by
    simp only [xnBeq, Bool.and_eq_true, decide_eq_true_eq, XmlNode.element.injEq]
    rw [xnsBeq_iff d d2]
    tauto
  | .element _ _ _ _, .text _ => by simp [xnBeq]
  | .text _, .element _ _ _ _ => by simp [xnBeq]
  | .text s, .text s2 => by simp [xnBeq]

theorem xnsBeq_iff : ∀ xs ys : List XmlNode, xnsBeq xs ys = true ↔ xs = ys
  | [], [] => by simp [xnsBeq]
  | [], _ :: _ => by simp [xnsBeq]
  | _ :: _, [] => by simp [xnsBeq]
  | x :: xs, y :: ys => by
    simp only [xnsBeq, Bool.and_eq_true, List.cons.injEq]
    rw [xnBeq_iff x y, xnsBeq_iff xs ys]

end

instance : DecidableEq XmlNode := fun x y =>
  decidable_of_iff _ (xnBeq_iff x y)

/-- One yielded match of `LinkRewriter.match_element`: either the element
content (`MATCHED_ELEMENT`) or an attribute identified by its
`(namespaceURI, localName)` key (`MATCHED_ATTRIBUTE`). -/
inductive Match where
  | element (criterion : Criterion)
  | attribute (key : Option Str × Str) (criterion : Criterion)
  deriving DecidableEq

/-- `LinkRewriter.match_element` as the eager list of yields, in order.
Only the attribute *names* are captured (values are read at rewrite time),
matching the generator's behaviour. -/
def match_element (criteria : List Criterion) (ns : Option Str)
    (localName : Str) (attrs : List Attr) : List Match :=
  criteria.flatMap (fun c =>
    let elemOk :=
      match c.1 with
      | none => true
      | some (censOpt, celn) =>
        (match censOpt with
         | none => true
         | some cens => decide (ns = some cens)) && decide (localName = celn)
    if elemOk then
      match c.2 with
      | none => [.element c]
      | some (cansOpt, caln) =>
        attrs.filterMap (fun a =>
          if (match cansOpt with
              | none => true
              | some cans => decide (a.ns = some cans))
              && decide (a.localName = caln) then
            some (.attribute (a.ns, a.localName) c)
          else none)
    else [])

/-- Python's whitespace test for `str.strip()` (ASCII fragment). -/
def isPySpace (c : Char) : Bool :=
  c = ' ' || c = '\t' || c = '\n' || c = '\r' || c = '\x0b' || c = '\x0c'

/-- Python `s.strip()`. -/
def stripWs (s : Str) : Str :=
  ((s.dropWhile isPySpace).reverse.dropWhile isPySpace).reverse

/-- `sw_util.getChildText`: concatenation of the text children. -/
def getChildText (children : List XmlNode) : Str :=
  (children.map (fun n =>
    match n with
    | .text s => s
    | _ => [])).flatten

/-- Whether a node is a text node (for `replaceChildText`'s removal loop). -/
def isTextNode : XmlNode → Bool
  | .text _ => true
  | _ => false

/-- `sw_util.replaceChildText`: drop text children, append a new text node. -/
def replaceChildText (children : List XmlNode) (s : Str) : List XmlNode :=
  children.filter (fun n => !isTextNode n) ++ [.text s]

/-- minidom `getAttributeNS`: the value of the `(ns, localName)` attribute,
or the empty string when absent. -/
def getAttributeNS (attrs : List Attr) (ns : Option Str) (ln : Str) : Str :=
  ((attrs.find? (fun a => a.ns = ns && a.localName = ln)).map Attr.value).getD []

/-- minidom `setAttributeNS` with an unprefixed qualified name: update the
existing attribute's value in place, else append a new attribute. -/
def setAttributeNS (attrs : List Attr) (ns : Option Str) (ln value : Str) :
    List Attr :=
  if attrs.any (fun a => a.ns = ns && a.localName = ln) then
    attrs.map (fun a =>
      if a.ns = ns && a.localName = ln then { a with value := value } else a)
  else attrs ++ [⟨ns, ln, value⟩]

/-- One step of `LinkRewriter.rewrite_links`' match loop over the state
`(attributes, replaced text)`.  `replaceChildText` turns the children into
`children.filter (not text) ++ [text u]`, so the current children are
represented by the original list plus the pending replacement text (the
element children, the only ones later recursed into, are unaffected). -/
def rewriteStep (cb : Str → Criterion → Except PyErr Str)
    (children : List XmlNode) (st : List Attr × Option Str) (m : Match) :
    Except PyErr (List Attr × Option Str) := do
  match m with
  | .element crit =>
    let url := stripWs (match st.2 with
      | none => getChildText children
      | some u => u)
    let url2 ← cb url crit
    pure (st.1, some url2)
  | .attribute (ans, aln) crit =>
    let url := getAttributeNS st.1 ans aln
    let url2 ← cb url crit
    pure (setAttributeNS st.1 ans aln url2, st.2)

mutual

/-- `LinkRewriter.rewrite_links` (method) on a node: process the matches in
yield order, then recurse into the element children of the (possibly
text-replaced) child list. -/
def rewriteNode (criteria : List Criterion)
    (cb : Str → Criterion → Except PyErr Str) : XmlNode →
    Except PyErr XmlNode
  | .text s => .ok (.text s)
  | .element ns ln attrs children => do
    let st ← (match_element criteria ns ln attrs).foldlM
      (rewriteStep cb children) (attrs, none)
    match st.2 with
    | none => do
      let children2 ← rewriteNodes criteria cb false children
      pure (.element ns ln st.1 children2)
    | some u => do
      -- `replaceChildText` has removed the text children and appended the
      -- replacement, so the child walk skips texts and re-appends it
      let children2 ← rewriteNodes criteria cb true children
      pure (.element ns ln st.1 (children2 ++ [.text u]))

/-- The child loop: only element children are rewritten; with `skipTexts`
the text children (removed by `replaceChildText`) are dropped. -/
def rewriteNodes (criteria : List Criterion)
    (cb : Str → Criterion → Except PyErr Str) (skipTexts : Bool) :
    List XmlNode → Except PyErr (List XmlNode)
  | [] => .ok []
  | .element a b c d :: rest => do
    let n2 ← rewriteNode criteria cb (.element a b c d)
    let rest2 ← rewriteNodes criteria cb skipTexts rest
    pure (n2 :: rest2)
  | .text s :: rest =>
    if skipTexts then rewriteNodes criteria cb skipTexts rest
    else do
      let rest2 ← rewriteNodes criteria cb skipTexts rest
      pure (.text s :: rest2)

end

/-- `sw_util.generate_fake_url`, with the random 28-letter label made an
explicit parameter. -/
def generate_fake_url (label : Str) : Str :=
  "http://".toList ++ label ++ ".example.com/".toList

/-- The callback closure `cb` of the module-level `rewrite_links`, with its
captured variables made explicit parameters. -/
def cbFun (fake_current_url fake_base_url real_base_url real_current_url : Str)
    (always_absolute : Bool) (url : Str) (_criterion : Criterion) :
    Except PyErr Str := do
  -- Resolve the link URL with respect to the current (fake) URL
  let link_url ← rfc3986_urljoin fake_current_url url
  -- Convert the fake URL into an absolute real URL
  let link_url ← rebase_url link_url fake_base_url real_base_url
  if !always_absolute then
    relative_url link_url real_current_url
  else
    pure link_url

/-- Module-level `LinkRewriter.rewrite_links` (the pipeline entry point),
with the random label made an explicit parameter. -/
def rewrite_links (node : XmlNode) (match_criteria : List Criterion)
    (target_url base_url : Str) (always_absolute : Bool) (label : Str) :
    Except PyErr XmlNode := do
  let fake_base_url := generate_fake_url label
  let fake_current_url ← rfc3986_urljoin fake_base_url target_url
  let real_base_url := base_url
  let real_current_url ← rebase_url fake_current_url fake_base_url real_base_url
  rewriteNode match_criteria
    (cbFun fake_current_url fake_base_url real_base_url real_current_url
      always_absolute)
    node

/-- `rewriteNode` on a text node is the identity. -/
theorem rewriteNode_text (criteria : List Criterion)
    (cb : Str → Criterion → Except PyErr Str) (s : Str) :
    rewriteNode criteria cb (.text s) = .ok (.text s) := by
  simp [rewriteNode]

/-- `rewriteNodes` on the empty child list. -/
theorem rewriteNodes_nil (criteria : List Criterion)
    (cb : Str → Criterion → Except PyErr Str) :
    rewriteNodes criteria cb false [] = .ok [] := by
  simp [rewriteNodes]

/-- `rewriteNodes` steps over a text child unchanged. -/
theorem rewriteNodes_cons_text {criteria : List Criterion}
    {cb : Str → Criterion → Except PyErr Str} {rest rest2 : List XmlNode}
    (s : Str) (h2 : rewriteNodes criteria cb false rest = .ok rest2) :
    rewriteNodes criteria cb false (.text s :: rest)
      = .ok (.text s :: rest2) := by
  rw [rewriteNodes]
  simp [h2, Except.bind, bind, pure, Except.pure]

/-- `rewriteNodes` rewrites an element child through `rewriteNode`. -/
theorem rewriteNodes_cons_elem {criteria : List Criterion}
    {cb : Str → Criterion → Except PyErr Str} {rest rest2 : List XmlNode}
    {a : Option Str} {b : Str} {c : List Attr} {d : List XmlNode} {n2 : XmlNode}
    (h1 : rewriteNode criteria cb (.element a b c d) = .ok n2)
    (h2 : rewriteNodes criteria cb false rest = .ok rest2) :
    rewriteNodes criteria cb false (.element a b c d :: rest)
      = .ok (n2 :: rest2) := by
  rw [rewriteNodes]
  simp [h1, h2, Except.bind, bind, pure, Except.pure]

/-- `rewriteNode` on an element with no matches just recurses. -/
theorem rewriteNode_noMatch {criteria : List Criterion}
    {cb : Str → Criterion → Except PyErr Str} {ns : Option Str} {ln : Str}
    {attrs : List Attr} {children cs : List XmlNode}
    (h : match_element criteria ns ln attrs = [])
    (h2 : rewriteNodes criteria cb false children = .ok cs) :
    rewriteNode criteria cb (.element ns ln attrs children)
      = .ok (.element ns ln attrs cs) := by
  rw [rewriteNode, h]
  simp [h2, List.foldlM, Except.bind, bind, pure, Except.pure]

/-- `rewriteNode` on an element with a single attribute match rewrites that
attribute through the callback, then recurses. -/
theorem rewriteNode_oneAttr {criteria : List Criterion}
    {cb : Str → Criterion → Except PyErr Str} {ns : Option Str} {ln : Str}
    {attrs : List Attr} {children cs : List XmlNode} {ans : Option Str}
    {aln u2 : Str} {crit : Criterion}
    (h : match_element criteria ns ln attrs = [.attribute (ans, aln) crit])
    (hcb : cb (getAttributeNS attrs ans aln) crit = .ok u2)
    (h2 : rewriteNodes criteria cb false children = .ok cs) :
    rewriteNode criteria cb (.element ns ln attrs children)
      = .ok (.element ns ln (setAttributeNS attrs ans aln u2) cs) := by
  rw [rewriteNode, h]
  simp [rewriteStep, hcb, h2, List.foldlM, Except.bind, bind, pure, Except.pure]

end StillWeb.LinkRw

namespace StillWeb

open PyStr PyUrllib SwUrllib UrlProofs LinkRw

/-- The fake host `label.example.com` is a good host for any nonempty
lower-case label. -/
theorem goodHost_fakeHost {label : Str} (hlne : label ≠ [])
    (hlc : ∀ c ∈ label, 97 ≤ c.toNat ∧ c.toNat ≤ 122) :
    goodHost (label ++ ".example.com".toList) = true := by
  simp only [goodHost, Bool.and_eq_true, List.all_append, List.isEmpty_eq_false,
    Bool.not_eq_true']
  refine ⟨by simp [hlne], ?_, by decide⟩
  rw [List.all_eq_true]
  intro c hc
  have h := hlc c hc
  simp only [goodHostChar, Bool.or_eq_true, Bool.and_eq_true, decide_eq_true_eq]
  exact .inl (.inl (.inl ⟨h.1, h.2⟩))

/-- `generate_fake_url` is the root directory URL of the fake host. -/
theorem generate_fake_url_eq (label : Str) :
    generate_fake_url label
      = mkAbs (label ++ ".example.com".toList) (segsPath [] true) := by
  simp [generate_fake_url, mkAbs, segsPath, join]

/-- The source fragment of the end-to-end scenario:
`<html><body><p>Hi<br><a href="/x">y</a></p></body></html>`. -/
def C6doc : LinkRw.XmlNode :=
  .element none "html".toList [] [
    .element none "body".toList [] [
      .element none "p".toList [] [
        .text "Hi".toList,
        .element none "br".toList [] [],
        .element none "a".toList [⟨none, "href".toList, "/x".toList⟩]
          [.text "y".toList]]]]

/-- The expected output: the same tree with `href="../x"`. -/
def C6expected : LinkRw.XmlNode :=
  .element none "html".toList [] [
    .element none "body".toList [] [
      .element none "p".toList [] [
        .text "Hi".toList,
        .element none "br".toList [] [],
        .element none "a".toList [⟨none, "href".toList, "../x".toList⟩]
          [.text "y".toList]]]]

end StillWeb

namespace StillWeb

open PyStr PyUrllib SwUrllib UrlProofs LinkRw

/-- C6: rewriting `<html><body><p>Hi<br><a href="/x">y</a></p></body></html>`
with the built-in HTML criteria, target URL `/a/b.html`, base URL
`http://site.example/pub/`, in non-absolute mode, produces an `a` element
whose `href` is exactly `../x` — for every 28-letter lower-case random
label the pipeline may draw. -/
theorem C6_end_to_end {label : Str} (hlen : label.length = 28)
    (hlc : ∀ c ∈ label, 97 ≤ c.toNat ∧ c.toNat ≤ 122) :
    rewrite_links C6doc HTML_CRITERIA "/a/b.html".toList
      "http://site.example/pub/".toList false label = .ok C6expected := by
  have hlne : label ≠ [] := by
    intro hcon
    rw [hcon] at hlen
    simp at hlen
  have hfh : goodHost (label ++ ".example.com".toList) = true :=
    goodHost_fakeHost hlne hlc
  have cleanNil : cleanSegs [] := fun s hs => absurd hs (by simp)
  have cleanT : cleanSegs [['a'], "b.html".toList] := by
    intro s hs
    fin_cases hs <;> decide
  have cleanX : cleanSegs [['x']] := by
    intro s hs
    fin_cases hs <;> decide
  have h1 : rfc3986_urljoin (generate_fake_url label) "/a/b.html".toList true
      = .ok (mkAbs (label ++ ".example.com".toList)
          (segsPath [['a'], "b.html".toList] false)) := by
    rw [generate_fake_url_eq]
    rw [show ("/a/b.html".toList : Str) = segsPath [['a'], "b.html".toList] false
      from by decide]
    exact rfc3986_urljoin_absPathRef hfh (pathOk_segsPath cleanNil) cleanT
      (.inr (by decide))
  have h2 : rebase_url (mkAbs (label ++ ".example.com".toList)
        (segsPath [['a'], "b.html".toList] false))
        (generate_fake_url label) "http://site.example/pub/".toList false
      = .ok "http://site.example/pub/a/b.html".toList := by
    unfold rebase_url
    rw [generate_fake_url_eq]
    rw [rfc3986_urljoin_absUrl hfh (pathOk_segsPath cleanNil) hfh cleanT
      (.inr (by decide))]
    simp only [Except.bind, pure, Except.pure, bind]
    rw [relative_url_diff hfh cleanT cleanNil (.inr (by decide)) (.inl rfl)
      (by decide)]
    simp only [Except.bind, pure, Except.pure, bind]
    simp only [Bool.false_eq_true, if_false, if_true, List.append_nil,
      List.nil_append]
    rw [show relString [['a'], "b.html".toList] [([] : Str)]
        = "a/b.html".toList from by decide]
    rw [show urlparse "a/b.html".toList
        = .ok ⟨[], [], "a/b.html".toList, [], [], []⟩ from by decide]
    dsimp only
    rw [if_neg (by decide)]
    rw [show rfc3986_urljoin "http://site.example/pub/".toList
          "a/b.html".toList true
        = .ok "http://site.example/pub/a/b.html".toList from by decide]
  have hx1 : rfc3986_urljoin (mkAbs (label ++ ".example.com".toList)
        (segsPath [['a'], "b.html".toList] false)) "/x".toList true
      = .ok (mkAbs (label ++ ".example.com".toList) (segsPath [['x']] false)) := by
    rw [show ("/x".toList : Str) = segsPath [['x']] false from by decide]
    exact rfc3986_urljoin_absPathRef hfh (pathOk_segsPath cleanT) cleanX
      (.inr (by decide))
  have hx2 : rebase_url (mkAbs (label ++ ".example.com".toList)
        (segsPath [['x']] false))
        (generate_fake_url label) "http://site.example/pub/".toList false
      = .ok "http://site.example/pub/x".toList := by
    unfold rebase_url
    rw [generate_fake_url_eq]
    rw [rfc3986_urljoin_absUrl hfh (pathOk_segsPath cleanNil) hfh cleanX
      (.inr (by decide))]
    simp only [Except.bind, pure, Except.pure, bind]
    rw [relative_url_diff hfh cleanX cleanNil (.inr (by decide)) (.inl rfl)
      (by decide)]
    simp only [Except.bind, pure, Except.pure, bind]
    simp only [Bool.false_eq_true, if_false, if_true, List.append_nil,
      List.nil_append]
    rw [show relString [['x']] [([] : Str)] = "x".toList from by decide]
    rw [show urlparse "x".toList = .ok ⟨[], [], "x".toList, [], [], []⟩
      from by decide]
    dsimp only
    rw [if_neg (by decide)]
    rw [show rfc3986_urljoin "http://site.example/pub/".toList "x".toList true
        = .ok "http://site.example/pub/x".toList from by decide]
  have hx3 : relative_url "http://site.example/pub/x".toList
        "http://site.example/pub/a/b.html".toList false false
      = .ok "../x".toList := by decide
  have hm1 : match_element HTML_CRITERIA none "html".toList [] = [] := by decide
  have hm2 : match_element HTML_CRITERIA none "body".toList [] = [] := by decide
  have hm3 : match_element HTML_CRITERIA none "p".toList [] = [] := by decide
  have hm4 : match_element HTML_CRITERIA none "br".toList [] = [] := by decide
  have hm5 : match_element HTML_CRITERIA none "a".toList
      [⟨none, "href".toList, "/x".toList⟩]
      = [.attribute (none, "href".toList) (none, some (none, "href".toList))] := by
    decide
  have hsa : setAttributeNS [⟨none, "href".toList, "/x".toList⟩] none
      "href".toList "../x".toList
      = [⟨none, "href".toList, "../x".toList⟩] := by decide
  -- the callback with its captured values, applied to the one link
  have hcbv : cbFun (mkAbs (label ++ ".example.com".toList)
        (segsPath [['a'], "b.html".toList] false))
        (generate_fake_url label) "http://site.example/pub/".toList
        "http://site.example/pub/a/b.html".toList false
        (getAttributeNS [⟨none, "href".toList, "/x".toList⟩] none "href".toList)
        (none, some (none, "href".toList))
      = .ok "../x".toList := by
    rw [show getAttributeNS [⟨none, "href".toList, "/x".toList⟩] none
        "href".toList = "/x".toList from by decide]
    unfold cbFun
    rw [hx1]
    simp only [Except.bind, pure, Except.pure, bind]
    rw [hx2]
    simp only [Except.bind, pure, Except.pure, bind, Bool.not_false, if_true]
    exact hx3
  -- assemble the traversal bottom-up
  have hya : rewriteNodes HTML_CRITERIA (cbFun (mkAbs
        (label ++ ".example.com".toList) (segsPath [['a'], "b.html".toList] false))
        (generate_fake_url label) "http://site.example/pub/".toList
        "http://site.example/pub/a/b.html".toList false) false
        [.text "y".toList] = .ok [.text "y".toList] :=
    rewriteNodes_cons_text _ (rewriteNodes_nil _ _)
  have ha := rewriteNode_oneAttr hm5 hcbv hya
  rw [hsa] at ha
  have hbr := rewriteNode_noMatch hm4
    (rewriteNodes_nil HTML_CRITERIA (cbFun (mkAbs (label ++ ".example.com".toList)
      (segsPath [['a'], "b.html".toList] false))
      (generate_fake_url label) "http://site.example/pub/".toList
      "http://site.example/pub/a/b.html".toList false))
  have hp := rewriteNode_noMatch hm3
    (rewriteNodes_cons_text "Hi".toList (rewriteNodes_cons_elem hbr
      (rewriteNodes_cons_elem ha (rewriteNodes_nil _ _))))
  have hbody := rewriteNode_noMatch hm2
    (rewriteNodes_cons_elem hp (rewriteNodes_nil _ _))
  have hhtml := rewriteNode_noMatch hm1
    (rewriteNodes_cons_elem hbody (rewriteNodes_nil _ _))
  unfold rewrite_links
  dsimp only
  rw [h1]
  simp only [Except.bind, pure, Except.pure, bind]
  rw [h2]
  simp only [Except.bind, pure, Except.pure, bind]
  exact hhtml

/-- Witness data for `C6_end_to_end`: the all-`a` label. -/
def C6label : Str := List.replicate 28 'a'

/-- Witness for `C6_end_to_end` at the concrete label `aaaa…a`. -/
theorem C6_end_to_end_witness :
    C6label.length = 28 ∧
    rewrite_links C6doc HTML_CRITERIA "/a/b.html".toList
      "http://site.example/pub/".toList false C6label = .ok C6expected :=
  ⟨by decide, C6_end_to_end (by decide) (by decide)⟩

end StillWeb

namespace StillWeb

open PyStr PyUrllib SwUrllib UrlProofs LinkRw

/-- The all-`a` label for the C10 counterexample. -/
def C10label1 : Str := List.replicate 28 'a'

/-- The all-`b` label for the C10 counterexample. -/
def C10label2 : Str := List.replicate 28 'b'

/-- A document whose link names the first label's fake host literally. -/
def C10doc : LinkRw.XmlNode :=
  .element none "a".toList
    [⟨none, "href".toList,
      "http://".toList ++ C10label1 ++ ".example.com/z".toList⟩] []

end StillWeb

namespace StillWeb.UrlProofs

open PyStr PyUrllib SwUrllib

/-- `relative_url` across distinct hosts returns the absolute target. -/
theorem relative_url_diffHost {h1 h2 : Str} {T B : List Str} {tdir bdir : Bool}
    (hh1 : goodHost h1 = true) (hh2 : goodHost h2 = true)
    (hT : cleanSegs T) (hB : cleanSegs B)
    (htne : tdir = true ∨ T ≠ []) (hne : h1 ≠ h2) :
    relative_url (mkAbs h1 (segsPath T tdir)) (mkAbs h2 (segsPath B bdir))
        false false
      = .ok (mkAbs h1 (segsPath T tdir)) := by
  have hh1ne : h1 ≠ [] := by
    simp only [goodHost, Bool.and_eq_true] at hh1
    simpa using hh1.1
  unfold relative_url
  rw [rfc3986_urljoin_absUrl hh2 (pathOk_segsPath hB) hh1 hT htne]
  simp only [Except.bind, pure, Except.pure, bind]
  rw [urlparse_mkAbs [] hh1 (pathOk_segsPath hT)]
  simp only [Except.bind, pure, Except.pure, bind]
  rw [urlparse_mkAbs [] hh2 (pathOk_segsPath hB)]
  simp only [Except.bind, pure, Except.pure, bind]
  dsimp only
  rw [if_neg (show ¬("http".toList ≠ "http".toList) from by simp)]
  rw [if_pos hne]
  exact congrArg Except.ok (urlunparse_mkAbs hh1ne (pathOk_segsPath hT).1)

end StillWeb.UrlProofs

namespace StillWeb

open PyStr PyUrllib SwUrllib UrlProofs LinkRw

/-- Rebasing the fake current URL for target `/a/b.html` onto
`http://site.example/pub/` yields the real current URL, for any lower-case
label. -/
theorem rebase_target_pub {label : Str} (hlne : label ≠ [])
    (hlc : ∀ c ∈ label, 97 ≤ c.toNat ∧ c.toNat ≤ 122) :
    rebase_url (mkAbs (label ++ ".example.com".toList)
        (segsPath [['a'], "b.html".toList] false))
      (generate_fake_url label) "http://site.example/pub/".toList false
    = .ok "http://site.example/pub/a/b.html".toList := by
  have hfh : goodHost (label ++ ".example.com".toList) = true :=
    goodHost_fakeHost hlne hlc
  have cleanNil : cleanSegs [] := fun s hs => absurd hs (by simp)
  have cleanT : cleanSegs [['a'], "b.html".toList] := by
    intro s hs
    fin_cases hs <;> decide
  unfold rebase_url
  rw [generate_fake_url_eq]
  rw [rfc3986_urljoin_absUrl hfh (pathOk_segsPath cleanNil) hfh cleanT
    (.inr (by decide))]
  simp only [Except.bind, pure, Except.pure, bind]
  rw [relative_url_diff hfh cleanT cleanNil (.inr (by decide)) (.inl rfl)
    (by decide)]
  simp only [Except.bind, pure, Except.pure, bind]
  simp only [Bool.false_eq_true, if_false, if_true, List.append_nil,
    List.nil_append]
  rw [show relString [['a'], "b.html".toList] [([] : Str)]
      = "a/b.html".toList from by decide]
  rw [show urlparse "a/b.html".toList
      = .ok ⟨[], [], "a/b.html".toList, [], [], []⟩ from by decide]
  dsimp only
  rw [if_neg (by decide)]
  rw [show rfc3986_urljoin "http://site.example/pub/".toList
        "a/b.html".toList true
      = .ok "http://site.example/pub/a/b.html".toList from by decide]

/-- C10 counterexample: when the document contains an absolute URL naming
one possible fake host, the two runs disagree — the first relativizes it to
`../z`, the second leaves the absolute fake URL in the output (the synthetic
base leaks). -/
theorem C10_counterexample_label_leak :
    rewrite_links C10doc HTML_CRITERIA "/a/b.html".toList
      "http://site.example/pub/".toList false C10label1
      ≠ rewrite_links C10doc HTML_CRITERIA "/a/b.html".toList
        "http://site.example/pub/".toList false C10label2 := by
  have hl1ne : C10label1 ≠ [] := by decide
  have hl1lc : ∀ c ∈ C10label1, 97 ≤ c.toNat ∧ c.toNat ≤ 122 := by decide
  have hl2ne : C10label2 ≠ [] := by decide
  have hl2lc : ∀ c ∈ C10label2, 97 ≤ c.toNat ∧ c.toNat ≤ 122 := by decide
  have hfh1 := goodHost_fakeHost hl1ne hl1lc
  have hfh2 := goodHost_fakeHost hl2ne hl2lc
  have hhsite : goodHost "site.example".toList = true := by decide
  have hne12 : (C10label1 ++ ".example.com".toList)
      ≠ (C10label2 ++ ".example.com".toList) := by decide
  have hne1site : (C10label1 ++ ".example.com".toList)
      ≠ "site.example".toList := by decide
  have cleanNil : cleanSegs [] := fun s hs => absurd hs (by simp)
  have cleanT : cleanSegs [['a'], "b.html".toList] := by
    intro s hs
    fin_cases hs <;> decide
  have cleanZ : cleanSegs [['z']] := by
    intro s hs
    fin_cases hs <;> decide
  have cleanPub : cleanSegs ["pub".toList, ['a'], "b.html".toList] := by
    intro s hs
    fin_cases hs <;> decide
  -- the link literal is the clean `/z` URL on the first fake host
  have hurl : "http://".toList ++ C10label1 ++ ".example.com/z".toList
      = mkAbs (C10label1 ++ ".example.com".toList) (segsPath [['z']] false) := by
    decide
  have hreal : "http://site.example/pub/a/b.html".toList
      = mkAbs "site.example".toList
          (segsPath ["pub".toList, ['a'], "b.html".toList] false) := by
    decide
  -- fake current URLs
  have hA1 : rfc3986_urljoin (generate_fake_url C10label1) "/a/b.html".toList
      true = .ok (mkAbs (C10label1 ++ ".example.com".toList)
        (segsPath [['a'], "b.html".toList] false)) := by
    rw [generate_fake_url_eq]
    rw [show ("/a/b.html".toList : Str) = segsPath [['a'], "b.html".toList] false
      from by decide]
    exact rfc3986_urljoin_absPathRef hfh1 (pathOk_segsPath cleanNil) cleanT
      (.inr (by decide))
  have hA2 : rfc3986_urljoin (generate_fake_url C10label2) "/a/b.html".toList
      true = .ok (mkAbs (C10label2 ++ ".example.com".toList)
        (segsPath [['a'], "b.html".toList] false)) := by
    rw [generate_fake_url_eq]
    rw [show ("/a/b.html".toList : Str) = segsPath [['a'], "b.html".toList] false
      from by decide]
    exact rfc3986_urljoin_absPathRef hfh2 (pathOk_segsPath cleanNil) cleanT
      (.inr (by decide))
  have hB1 := rebase_target_pub hl1ne hl1lc
  have hB2 := rebase_target_pub hl2ne hl2lc
  -- the callback values on the link
  have hm : match_element HTML_CRITERIA none "a".toList
      [⟨none, "href".toList,
        "http://".toList ++ C10label1 ++ ".example.com/z".toList⟩]
      = [.attribute (none, "href".toList) (none, some (none, "href".toList))] := by
    decide
  have hga : getAttributeNS
      [⟨none, "href".toList,
        "http://".toList ++ C10label1 ++ ".example.com/z".toList⟩]
      none "href".toList
      = mkAbs (C10label1 ++ ".example.com".toList) (segsPath [['z']] false) := by
    decide
  have hcb1 : cbFun (mkAbs (C10label1 ++ ".example.com".toList)
        (segsPath [['a'], "b.html".toList] false))
        (generate_fake_url C10label1) "http://site.example/pub/".toList
        "http://site.example/pub/a/b.html".toList false
        (getAttributeNS [⟨none, "href".toList,
          "http://".toList ++ C10label1 ++ ".example.com/z".toList⟩]
          none "href".toList)
        (none, some (none, "href".toList))
      = .ok "../z".toList := by
    rw [hga]
    unfold cbFun
    rw [rfc3986_urljoin_absUrl hfh1 (pathOk_segsPath cleanT) hfh1 cleanZ
      (.inr (by decide))]
    simp only [Except.bind, pure, Except.pure, bind]
    rw [show rebase_url (mkAbs (C10label1 ++ ".example.com".toList)
          (segsPath [['z']] false)) (generate_fake_url C10label1)
          "http://site.example/pub/".toList false
        = .ok "http://site.example/pub/z".toList from by
      unfold rebase_url
      rw [generate_fake_url_eq]
      rw [rfc3986_urljoin_absUrl hfh1 (pathOk_segsPath cleanNil) hfh1 cleanZ
        (.inr (by decide))]
      simp only [Except.bind, pure, Except.pure, bind]
      rw [relative_url_diff hfh1 cleanZ cleanNil (.inr (by decide)) (.inl rfl)
        (by decide)]
      simp only [Except.bind, pure, Except.pure, bind]
      simp only [Bool.false_eq_true, if_false, if_true, List.append_nil,
        List.nil_append]
      rw [show relString [['z']] [([] : Str)] = "z".toList from by decide]
      rw [show urlparse "z".toList = .ok ⟨[], [], "z".toList, [], [], []⟩
        from by decide]
      dsimp only
      rw [if_neg (by decide)]
      rw [show rfc3986_urljoin "http://site.example/pub/".toList "z".toList true
          = .ok "http://site.example/pub/z".toList from by decide]]
    simp only [Except.bind, pure, Except.pure, bind, Bool.not_false, if_true]
    rw [show relative_url "http://site.example/pub/z".toList
          "http://site.example/pub/a/b.html".toList false false
        = .ok "../z".toList from by decide]
  have hcb2 : cbFun (mkAbs (C10label2 ++ ".example.com".toList)
        (segsPath [['a'], "b.html".toList] false))
        (generate_fake_url C10label2) "http://site.example/pub/".toList
        "http://site.example/pub/a/b.html".toList false
        (getAttributeNS [⟨none, "href".toList,
          "http://".toList ++ C10label1 ++ ".example.com/z".toList⟩]
          none "href".toList)
        (none, some (none, "href".toList))
      = .ok (mkAbs (C10label1 ++ ".example.com".toList)
          (segsPath [['z']] false)) := by
    rw [hga]
    unfold cbFun
    rw [rfc3986_urljoin_absUrl hfh2 (pathOk_segsPath cleanT) hfh1 cleanZ
      (.inr (by decide))]
    simp only [Except.bind, pure, Except.pure, bind]
    rw [show rebase_url (mkAbs (C10label1 ++ ".example.com".toList)
          (segsPath [['z']] false)) (generate_fake_url C10label2)
          "http://site.example/pub/".toList false
        = .ok (mkAbs (C10label1 ++ ".example.com".toList)
            (segsPath [['z']] false)) from by
      unfold rebase_url
      rw [generate_fake_url_eq]
      rw [rfc3986_urljoin_absUrl hfh2 (pathOk_segsPath cleanNil) hfh1 cleanZ
        (.inr (by decide))]
      simp only [Except.bind, pure, Except.pure, bind]
      rw [relative_url_diffHost hfh1 hfh2 cleanZ cleanNil (.inr (by decide))
        hne12]
      simp only [Except.bind, pure, Except.pure, bind]
      rw [urlparse_mkAbs [] hfh1 (pathOk_segsPath cleanZ)]
      simp only [Except.bind, pure, Except.pure, bind]
      dsimp only
      rw [if_pos (show (!(("http".toList : Str)).isEmpty
          || !((C10label1 ++ ".example.com".toList)).isEmpty
          || startswith (segsPath [['z']] false) ['.', '.', '/']) = true
        from by decide)]
      rw [if_neg (show ¬(false = true) from by decide)]]
    simp only [Except.bind, pure, Except.pure, bind, Bool.not_false, if_true]
    rw [hreal]
    rw [relative_url_diffHost hfh1 hhsite cleanZ cleanPub (.inr (by decide))
      hne1site]
  -- the two traversals
  have hd1 := rewriteNode_oneAttr hm hcb1 (rewriteNodes_nil _ _)
  have hd2 := rewriteNode_oneAttr hm hcb2 (rewriteNodes_nil _ _)
  unfold rewrite_links C10doc
  dsimp only
  rw [hA1, hA2]
  simp only [Except.bind, pure, Except.pure, bind]
  rw [hB1, hB2]
  simp only [Except.bind, pure, Except.pure, bind]
  rw [hd1, hd2]
  intro hcon
  have := congrArg (fun r => match r with
    | Except.ok (XmlNode.element _ _ attrs _) => attrs
    | _ => []) hcon
  revert this
  decide

end StillWeb

namespace StillWeb.UrlProofs

open PyStr PyUrllib SwUrllib

/-- `urlsplit` with the default empty scheme leaves a clean relative
reference as a bare path. -/
theorem urlsplit_rel_nil {r : Str} (hr : relOk r) :
    urlsplit r = .ok ⟨[], [], r, [], []⟩ := by
  obtain ⟨hne, hns, hch⟩ := hr
  have hordR : ∀ c ∈ r, c = '/' ∨ (isUnsafeUrlChar c = false ∧
      isC0ControlOrSpace c = false ∧ c.toNat ≤ 0x7f ∧ c ≠ '/' ∧ c ≠ ':'
      ∧ c ≠ '?' ∧ c ≠ '#' ∧ c ≠ ';' ∧ c ≠ '[' ∧ c ≠ ']') := by
    intro c hc
    rcases hch c hc with h1 | h1
    · exact .inl h1
    · exact .inr (goodChar_ordinary (.inr h1))
  have e1 : lstripWhen r isC0ControlOrSpace = r := by
    cases r with
    | nil => rfl
    | cons c cs =>
      have := hordR c (List.mem_cons_self c cs)
      rcases this with rfl | hx
      · rfl
      · simp [lstripWhen, List.dropWhile_cons, hx.2.1]
  have e2 : r.filter (fun c => !isUnsafeUrlChar c) = r := by
    apply List.filter_eq_self.mpr
    intro a ha
    rcases hordR a ha with rfl | hx
    · decide
    · simp [hx.1]
  have e3 : find r ':' = -1 := by
    apply findAux_eq_neg_one
    intro x hx
    rcases hordR x hx with rfl | hx'
    · decide
    · exact hx'.2.2.2.2.1
  have e4 : r.take 2 ≠ ['/', '/'] := by
    intro hcon
    cases r with
    | nil => simp at hcon
    | cons c cs =>
      apply hns
      simp only [List.take_succ_cons] at hcon ⊢
      have : c = '/' := by
        have := congrArg (fun l => l.head?) hcon
        simpa using this
      simp [this]
  have e5 : hasChar r '#' = false := by
    apply hasChar_eq_false
    intro c hc
    rcases hordR c hc with rfl | hx
    · decide
    · exact hx.2.2.2.2.2.2.1
  have e6 : hasChar r '?' = false := by
    apply hasChar_eq_false
    intro c hc
    rcases hordR c hc with rfl | hx
    · decide
    · exact hx.2.2.2.2.2.1
  unfold urlsplit
  rw [e1]
  simp +decide [e2, e3, e4, e5, e6, checknetloc]

/-- `urlparse` with the default empty scheme on a clean relative
reference. -/
theorem urlparse_rel_nil {r : Str} (hr : relOk r) :
    urlparse r = .ok ⟨[], [], r, [], [], []⟩ := by
  have hsemi : hasChar r ';' = false := by
    apply hasChar_eq_false
    intro c hc
    rcases hr.2.2 c hc with rfl | hx
    · decide
    · exact (goodChar_ordinary (.inr hx)).2.2.2.2.2.2.2.1
  unfold urlparse
  rw [urlsplit_rel_nil hr]
  simp [hsemi]

/-- Relativizing against the root directory yields the plain joined
path (no `../` steps). -/
theorem relString_root {x : Str} {rest : List Str} (hx : goodSeg x = true) :
    relString (x :: rest) [[]] = join '/' (x :: rest) := by
  have hxe : x ≠ [] := goodSeg_ne_nil hx
  have hjne : join '/' (x :: rest) ≠ [] := join_ne_nil_of_good_head hx
  unfold relString
  rw [lcpLen_cons_diff hxe rest []]
  simp [hjne]

/-- Relativizing a path under `p/` against the directory `p/` drops the
shared segment and yields the joined tail. -/
theorem relString_child {p x : Str} {rest : List Str}
    (hx : goodSeg x = true) :
    relString (p :: x :: rest) [p, []] = join '/' (x :: rest) := by
  have hxe : x ≠ [] := goodSeg_ne_nil hx
  have hjne : join '/' (x :: rest) ≠ [] := join_ne_nil_of_good_head hx
  unfold relString
  rw [lcpLen_cons_same, lcpLen_cons_diff hxe rest []]
  simp [hjne]

/-- `../` is never a prefix of a good segment followed by nothing or by a
slash-headed tail. -/
theorem dotPrefix_false {ls rest : Str} (hls : goodSeg ls = true)
    (hrest : rest = [] ∨ ∃ r', rest = '/' :: r') :
    (['.', '.', '/'] : Str).isPrefixOf (ls ++ rest) = false := by
  obtain ⟨hd1, hd2⟩ := goodSeg_not_dot hls
  cases ls with
  | nil => exact absurd rfl (goodSeg_ne_nil hls)
  | cons c1 t1 =>
    cases t1 with
    | nil =>
      by_cases h1 : c1 = '.'
      · subst h1
        rcases hrest with rfl | ⟨r', rfl⟩
        · decide
        · simp [List.isPrefixOf]
      · simp [List.isPrefixOf, Ne.symm h1]
    | cons c2 t2 =>
      by_cases h1 : c1 = '.'
      · by_cases h2 : c2 = '.'
        · subst h1
          subst h2
          cases t2 with
          | nil => exact absurd rfl hd2
          | cons c3 t3 =>
            have hc3 : goodSegChar c3 = true :=
              goodSeg_chars hls c3 (by simp)
            have : c3 ≠ '/' := (goodChar_ordinary (.inr hc3)).2.2.2.1
            simp [List.isPrefixOf, Ne.symm this]
        · simp [List.isPrefixOf, Ne.symm h2]
      · simp [List.isPrefixOf, Ne.symm h1]

/-- The joined relative form of a clean path is a well-formed relative
reference and does not begin with `../`. -/
theorem relOk_segs {x : Str} {u' : List Str} {udir : Bool}
    (hx : goodSeg x = true) (hu' : cleanSegs u') :
    relOk (join '/' (x :: (u' ++ (if udir then [[]] else [])))) ∧
    startswith (join '/' (x :: (u' ++ (if udir then [[]] else []))))
      ['.', '.', '/'] = false := by
  have hT : cleanSegs (x :: u') := by
    intro s hs
    rcases List.mem_cons.mp hs with rfl | hs'
    · exact hx
    · exact hu' s hs'
  have hflat : ((x :: u') ++ (if udir then [[]] else []) : List Str)
      = x :: (u' ++ (if udir then [[]] else [])) := by simp
  have hjne : join '/' (x :: (u' ++ (if udir then [[]] else []))) ≠ [] :=
    join_ne_nil_of_good_head hx
  have hhead := @join_drop_clean (x :: u') udir 0 hT
  rw [List.drop_zero, hflat] at hhead
  rcases hhead with hj | ⟨c, cs, hj, hc⟩
  · exact absurd hj hjne
  refine ⟨⟨hjne, ?_, ?_⟩, ?_⟩
  · rw [hj]
    have hcslash : c ≠ '/' := (goodChar_ordinary (.inr hc)).2.2.2.1
    simp [hcslash]
  · intro ch hch
    rcases mem_join hch with rfl | ⟨s, hs, hchs⟩
    · exact .inl rfl
    · rcases List.mem_cons.mp hs with rfl | hs'
      · exact .inr (goodSeg_chars hx ch hchs)
      · rcases List.mem_append.mp hs' with hs'' | hs''
        · exact .inr (goodSeg_chars (hu' s hs'') ch hchs)
        · have hsnil : s = [] := by
            cases udir with
            | false => simp at hs''
            | true => simpa using hs''
          subst hsnil
          simp at hchs
  · unfold startswith
    cases hrest : (u' ++ (if udir then [[]] else []) : List Str) with
    | nil =>
      rw [show join '/' [x] = x from rfl]
      have := dotPrefix_false hx (.inl rfl)
      rwa [List.append_nil] at this
    | cons y ys =>
      rw [join_cons_eq '/' x (y :: ys) (by simp)]
      exact dotPrefix_false hx (.inr ⟨join '/' (y :: ys), rfl⟩)

end StillWeb.UrlProofs

namespace StillWeb

open PyStr PyUrllib SwUrllib UrlProofs LinkRw

/-- Full pipeline evaluation on a one-link document whose `href` is a
clean site-relative path `/x/u'…`: the result does not mention the random
label at all. -/
theorem rewrite_clean_eval {label x : Str} {u' : List Str} {udir : Bool}
    (hlne : label ≠ []) (hlc : ∀ c ∈ label, 97 ≤ c.toNat ∧ c.toNat ≤ 122)
    (hx : goodSeg x = true) (hu' : cleanSegs u')
    (hself : ((x :: u') ++ (if udir then [[]] else []) : List Str)
      ≠ [['a'], "b.html".toList]) :
    rewrite_links
        (.element none "a".toList
          [⟨none, "href".toList, segsPath (x :: u') udir⟩] [])
        HTML_CRITERIA "/a/b.html".toList "http://site.example/pub/".toList
        false label
      = .ok (.element none "a".toList
          (setAttributeNS [⟨none, "href".toList, segsPath (x :: u') udir⟩]
            none "href".toList
            (relString (("pub".toList :: x :: u')
                ++ (if udir then [[]] else []))
              ["pub".toList, ['a'], "b.html".toList]))
          []) := by
  have hfh := goodHost_fakeHost hlne hlc
  have hsite : goodHost "site.example".toList = true := by decide
  have cleanNil : cleanSegs ([] : List Str) := fun s hs => absurd hs (by simp)
  have cleanT : cleanSegs [['a'], "b.html".toList] := by
    intro s hs
    fin_cases hs <;> decide
  have hU : cleanSegs (x :: u') := by
    intro s hs
    rcases List.mem_cons.mp hs with rfl | hs'
    · exact hx
    · exact hu' s hs'
  have hUne : (x :: u') ≠ ([] : List Str) := by simp
  have hPubU : cleanSegs ("pub".toList :: x :: u') := by
    intro s hs
    rcases List.mem_cons.mp hs with rfl | hs'
    · decide
    · exact hU s hs'
  have cleanPub1 : cleanSegs ["pub".toList] := by
    intro s hs
    fin_cases hs <;> decide
  have cleanPub3 : cleanSegs ["pub".toList, ['a'], "b.html".toList] := by
    intro s hs
    fin_cases hs <;> decide
  obtain ⟨hrel, hsw⟩ := @relOk_segs x u' udir hx hu'
  -- the callback's value on the link
  have hcb : cbFun (mkAbs (label ++ ".example.com".toList)
        (segsPath [['a'], "b.html".toList] false))
        (generate_fake_url label) "http://site.example/pub/".toList
        "http://site.example/pub/a/b.html".toList false
        (getAttributeNS [⟨none, "href".toList, segsPath (x :: u') udir⟩]
          none "href".toList)
        (none, some (none, "href".toList))
      = .ok (relString (("pub".toList :: x :: u')
            ++ (if udir then [[]] else []))
          ["pub".toList, ['a'], "b.html".toList]) := by
    rw [show getAttributeNS [⟨none, "href".toList, segsPath (x :: u') udir⟩]
        none "href".toList = segsPath (x :: u') udir from rfl]
    unfold cbFun
    rw [rfc3986_urljoin_absPathRef hfh (pathOk_segsPath cleanT) hU
      (.inr hUne)]
    simp only [Except.bind, pure, Except.pure, bind]
    rw [show rebase_url (mkAbs (label ++ ".example.com".toList)
          (segsPath (x :: u') udir)) (generate_fake_url label)
          "http://site.example/pub/".toList false
        = .ok (mkAbs "site.example".toList
            (segsPath ("pub".toList :: x :: u') udir)) from by
      unfold rebase_url
      rw [generate_fake_url_eq]
      rw [rfc3986_urljoin_absUrl hfh (pathOk_segsPath cleanNil) hfh hU
        (.inr hUne)]
      simp only [Except.bind, pure, Except.pure, bind]
      have hne1 : ((x :: u') ++ (if udir then [[]] else []) : List Str)
          ≠ ([] : List Str) ++ [[]] := by
        intro hcon
        have hx0 : x = [] := by
          have := congrArg (fun l => l.head?) hcon
          simpa using this
        exact goodSeg_ne_nil hx hx0
      rw [relative_url_diff hfh hU cleanNil (.inr hUne) (.inl rfl) hne1]
      simp only [Except.bind, pure, Except.pure, bind]
      rw [show ((x :: u') ++ (if udir then [[]] else []) : List Str)
          = x :: (u' ++ (if udir then [[]] else [])) from by simp,
        show (([] : List Str) ++ if True then [[]] else []) = [[]] from by
          simp]
      rw [relString_root hx]
      rw [urlparse_rel_nil hrel]
      simp only [Except.bind, pure, Except.pure, bind]
      dsimp only
      have hcond : (!(([] : Str)).isEmpty || !(([] : Str)).isEmpty
          || startswith (join '/' (x :: (u' ++ (if udir then [[]] else []))))
            ['.', '.', '/']) = false := by
        rw [hsw]
        decide
      rw [hcond]
      rw [if_neg (by decide)]
      rw [show "http://site.example/pub/".toList
          = mkAbs "site.example".toList (segsPath ["pub".toList] true)
        from by decide]
      rw [show join '/' (x :: (u' ++ (if udir then [[]] else [])))
          = relString (("pub".toList :: x :: u')
              ++ (if udir then [[]] else []))
            (["pub".toList] ++ [[]]) from by
        rw [show (("pub".toList :: x :: u')
              ++ (if udir then [[]] else []) : List Str)
            = "pub".toList :: x :: (u' ++ (if udir then [[]] else []))
          from by simp,
          show ((["pub".toList] : List Str) ++ [[]]) = ["pub".toList, []]
          from rfl]
        exact (relString_child hx).symm]
      have htf : udir = true ∨
          lcpLen ("pub".toList :: x :: u') ["pub".toList]
            < ("pub".toList :: x :: u').length := by
        right
        rw [show (["pub".toList] : List Str) = "pub".toList :: [] from rfl,
          lcpLen_cons_same,
          show lcpLen (x :: u') ([] : List Str) = 0 from rfl]
        simp
      have hne2 : (("pub".toList :: x :: u')
            ++ (if udir then [[]] else []) : List Str)
          ≠ ["pub".toList] ++ [[]] := by
        intro hcon
        have hx0 : x = [] := by
          have := congrArg (fun l => (l.drop 1).head?) hcon
          simpa using this
        exact goodSeg_ne_nil hx hx0
      exact resolve_relString hsite hPubU cleanPub1 htf hne2]
    simp only [Except.bind, pure, Except.pure, bind, Bool.not_false, if_true]
    rw [show "http://site.example/pub/a/b.html".toList
        = mkAbs "site.example".toList
            (segsPath ["pub".toList, ['a'], "b.html".toList] false)
      from by decide]
    have hne3 : (("pub".toList :: x :: u')
          ++ (if udir then [[]] else []) : List Str)
        ≠ ["pub".toList, ['a'], "b.html".toList]
            ++ (if false then [[]] else []) := by
      intro hcon
      apply hself
      have := congrArg (fun l => l.tail) hcon
      simpa using this
    rw [relative_url_diff hsite hPubU cleanPub3 (.inr (by simp))
      (.inr (by simp)) hne3]
    rw [show (["pub".toList, ['a'], "b.html".toList]
          ++ (if false then [[]] else []) : List Str)
        = ["pub".toList, ['a'], "b.html".toList] from by simp]
  -- the traversal
  have hm : match_element HTML_CRITERIA none "a".toList
      [⟨none, "href".toList, segsPath (x :: u') udir⟩]
      = [.attribute (none, "href".toList)
          (none, some (none, "href".toList))] := rfl
  have hd := rewriteNode_oneAttr hm hcb (rewriteNodes_nil _ _)
  have hA : rfc3986_urljoin (generate_fake_url label) "/a/b.html".toList
      true = .ok (mkAbs (label ++ ".example.com".toList)
        (segsPath [['a'], "b.html".toList] false)) := by
    rw [generate_fake_url_eq]
    rw [show ("/a/b.html".toList : Str)
        = segsPath [['a'], "b.html".toList] false from by decide]
    exact rfc3986_urljoin_absPathRef hfh (pathOk_segsPath cleanNil) cleanT
      (.inr (by decide))
  unfold rewrite_links
  dsimp only
  rw [hA]
  simp only [Except.bind, pure, Except.pure, bind]
  rw [rebase_target_pub hlne hlc]
  simp only [Except.bind, pure, Except.pure, bind]
  exact hd

end StillWeb

namespace StillWeb

open PyStr PyUrllib SwUrllib UrlProofs LinkRw

/-- C10: the pipeline's output is independent of the random fake-host
label, provided the document's links do not themselves name a fake host:
for a document whose matched link is a clean site-relative path (and is
not the target page itself), any two runs that differ only in the
(nonempty, lower-case) label produce identical rewritten documents. -/
theorem C10_label_independent {l1 l2 x : Str} {u' : List Str} {udir : Bool}
    (h1ne : l1 ≠ []) (h1lc : ∀ c ∈ l1, 97 ≤ c.toNat ∧ c.toNat ≤ 122)
    (h2ne : l2 ≠ []) (h2lc : ∀ c ∈ l2, 97 ≤ c.toNat ∧ c.toNat ≤ 122)
    (hx : goodSeg x = true) (hu' : cleanSegs u')
    (hself : ((x :: u') ++ (if udir then [[]] else []) : List Str)
      ≠ [['a'], "b.html".toList]) :
    rewrite_links
        (.element none "a".toList
          [⟨none, "href".toList, segsPath (x :: u') udir⟩] [])
        HTML_CRITERIA "/a/b.html".toList "http://site.example/pub/".toList
        false l1
      = rewrite_links
        (.element none "a".toList
          [⟨none, "href".toList, segsPath (x :: u') udir⟩] [])
        HTML_CRITERIA "/a/b.html".toList "http://site.example/pub/".toList
        false l2 :=
  (rewrite_clean_eval h1ne h1lc hx hu' hself).trans
    (rewrite_clean_eval h2ne h2lc hx hu' hself).symm

/-- Witness for `C10_label_independent`: the all-`a` and all-`b` labels and
the link `/z`. -/
theorem C10_label_independent_witness :
    (List.replicate 28 'a' : Str) ≠ [] ∧
    (List.replicate 28 'b' : Str) ≠ [] ∧
    rewrite_links
        (.element none "a".toList
          [⟨none, "href".toList, segsPath [['z']] false⟩] [])
        HTML_CRITERIA "/a/b.html".toList "http://site.example/pub/".toList
        false (List.replicate 28 'a')
      = rewrite_links
        (.element none "a".toList
          [⟨none, "href".toList, segsPath [['z']] false⟩] [])
        HTML_CRITERIA "/a/b.html".toList "http://site.example/pub/".toList
        false (List.replicate 28 'b') :=
  ⟨by decide, by decide,
    C10_label_independent (by decide) (by decide) (by decide) (by decide)
      (by decide) (fun s hs => absurd hs (by simp)) (by decide)⟩

end StillWeb
